import Mathlib

/-!
SpotConnect: the player orchestrator of `spotupnp/src/spotify.cpp`.

A shallow embedding of `CSpotPlayer` (the streamer list, the pending-sync
counter and the handlers `writePCM`, `trackHandler`, `flowSync`,
`eventHandler`, `notify`, `disconnect`, `teardown`) as pure functions on an
explicit player state.  Calls to the renderer (`shadowRequest`), to the
control session (`spirc->...`) and to methods of a streamer are recorded, in
order, as a list of `Effect`s returned next to the new state.  A handler
returns `none` where the C++ has undefined behaviour (`front()` of an empty
deque, a null `spirc` dereferenced).

Machine integers: `uint32_t position` is a `Nat` reduced modulo `2^32` where
the code subtracts from it; `int64_t offset` and the `int` counters are `Int`.
-/

namespace SpotConnect

/-- Modelled from the spec: the lifecycle states of `HTTPstreamer`
(`HTTPstreamer.h` is not among the sources; §4.3 names `FRESH`, `DRAINING`, `DRAINED`). -/
inductive State where
  | FRESH
  | DRAINING
  | DRAINED
  deriving DecidableEq, Repr

/-- Modelled from the spec: the timing-synchronisation states of `HTTPstreamer`,
in the increasing order given by §4.4 (`HTTPstreamer.h` is not among the sources). -/
inductive Sync where
  | WAIT_URL
  | WAIT_TIME
  | WAIT_CROSSTIME
  | AIRED
  deriving DecidableEq, Repr

/-- The enumerator value of a sync state, used by `sync > WAIT_URL`. -/
def Sync.toNat : Sync → Nat
  | .WAIT_URL => 0
  | .WAIT_TIME => 1
  | .WAIT_CROSSTIME => 2
  | .AIRED => 3

/-- The fields of `cspot::CDNTrackStream::TrackInfo` the player reads. -/
structure TrackInfo where
  trackId : String
  name : String
  duration : Nat
  deriving DecidableEq, Repr

/-- Modelled from the spec: the fields of `HTTPstreamer` the player reads and writes
(`HTTPstreamer.h` is not among the sources; §3 lists the stream URL, the creation
index, both states, the signed offset and the track metadata).  The offset is
printed with `PRId64` (line 351): it is a 64-bit signed integer, here an `Int`. -/
structure HTTPstreamer where
  streamUrl : String
  index : Nat
  state : State
  sync : Sync
  offset : Int
  trackInfo : TrackInfo
  deriving DecidableEq, Repr

/-- Modelled from the spec: the constructor of `HTTPstreamer`; a new streamer is
`FRESH` and `WAIT_URL` (§4.3, §4.4) with the index, track and offset it is given. -/
def HTTPstreamer.create (url : String) (index : Nat) (trackInfo : TrackInfo) (offset : Int) :
    HTTPstreamer :=
  { streamUrl := url, index := index, state := .FRESH, sync := .WAIT_URL,
    offset := offset, trackInfo := trackInfo }

/-- Calls that leave the player: `shadowRequest(shadow, SPOT_...)`, the methods of
`spirc`, and the methods of a streamer (named by its creation index). -/
inductive Effect where
  | SPOT_STOP
  | SPOT_LOAD (url : String) (duration : Int) (position : Int)
  | SPOT_PLAY
  | SPOT_PAUSE
  | SPOT_VOLUME (volume : Int)
  | setRemoteVolume (volume : Int)
  | updatePositionMs (position : Nat)
  | notifyAudioReachedPlayback
  | setPause (paused : Bool)
  | startTask (index : Nat)
  | flush (index : Nat)
  | setContentLength (index : Nat) (contentLength : Int)
  | teardown (index : Nat)
  | feedPCMFrames (index : Nat) (bytes : Nat)
  deriving DecidableEq, Repr

/-- The data members of `CSpotPlayer` (lines 44-87) that its handlers read or write;
`spirc` records whether the `unique_ptr` is non-null.  `expectedSync`, a
`std::atomic<int>`, is kept as the integer that its increments and decrements add up
to: the program holds `toInt32` of it, the same number within `[-2^31, 2^31)`. -/
structure CSpotPlayer where
  isPaused : Bool
  isConnected : Bool
  sequence : Nat
  volume : Int
  startOffset : Int
  expectedSync : Int
  flowTrackInfo : Option TrackInfo
  index : Nat
  flow : Bool
  contentLength : Int
  streamers : List HTTPstreamer
  spirc : Bool
  isRunning : Bool
  deriving DecidableEq, Repr

/-- The events of `cspot::SpircHandler::EventType` with their payload. -/
inductive Event where
  | PLAYBACK_START (position : Int)
  | PLAY_PAUSE (paused : Bool)
  | NEXT
  | PREV
  | FLUSH
  | DISC
  | SEEK (position : Int)
  | DEPLETED
  | VOLUME (volume : Int)
  | OTHER
  deriving DecidableEq, Repr

/-- The renderer feedback of `enum shadowEvent` with the argument read by `va_arg`. -/
inductive shadowEvent where
  | SHADOW_VOLUME (volume : Int)
  | SHADOW_TIME (position : Nat)
  | SHADOW_TRACK (url : String)
  | SHADOW_PLAY
  | SHADOW_PAUSE
  | SHADOW_STOP
  | SHADOW_OTHER
  deriving DecidableEq, Repr

/-- Conversion of a 64-bit value to `uint32_t`. -/
def toU32 (x : Int) : Nat := (x % 4294967296).toNat

/-- The loop `if (state == DRAINED) it = streamers.erase(it); else ++it;`. -/
def eraseDrained (l : List HTTPstreamer) : List HTTPstreamer :=
  l.filter fun s => s.state ≠ State.DRAINED

/-- The loop `if (sync != AIRED) it = streamers.erase(it); else ++it;`. -/
def eraseNotAired (l : List HTTPstreamer) : List HTTPstreamer :=
  l.filter fun s => s.sync = Sync.AIRED

/-- `CSpotPlayer::flowSync` (lines 215-222): the front streamer accumulates the
duration of its current track, takes the new track and waits for the crossing. -/
def flowSync (p : CSpotPlayer) (trackInfo : TrackInfo) : Option CSpotPlayer :=
  match p.streamers with
  | [] => none
  | streamer :: rest =>
    some { p with streamers :=
      { streamer with offset := streamer.offset + streamer.trackInfo.duration,
                      trackInfo := trackInfo,
                      sync := Sync.WAIT_CROSSTIME } :: rest }

/-- Lines 167-175 of `trackHandler`: outside flow mode the drained streamers are
erased and the front one enters `DRAINING`. -/
def drainFront (p : CSpotPlayer) : Option CSpotPlayer :=
  if p.streamers ≠ [] ∧ p.flow = false then
    match eraseDrained p.streamers with
    | [] => none
    | front :: rest => some { p with streamers := { front with state := State.DRAINING } :: rest }
  else some p

/-- `CSpotPlayer::trackHandler` (lines 163-213). `newTrackInfo` is what
`spirc->getTrackPlayer()->getCurrentTrackInfo()` returns and `url` what
`getStreamUrl()` returns for a streamer created here. -/
def trackHandler (p : CSpotPlayer) (newTrackInfo : TrackInfo) (url : String) :
    Option (CSpotPlayer × List Effect) :=
  match drainFront p with
  | none => none
  | some p1 =>
    if p1.spirc = false then none
    else if p1.streamers = [] ∨ p1.flow = false then
      let streamer := HTTPstreamer.create url p1.index newTrackInfo
        (if p1.streamers = [] then -p1.startOffset else 0)
      let duration : Int := if p1.flow then 0 else (streamer.trackInfo.duration : Int) + streamer.offset
      let out := [Effect.SPOT_LOAD url duration (toU32 (-streamer.offset))]
        ++ (if p1.isPaused then [] else [Effect.SPOT_PLAY])
        ++ [Effect.startTask streamer.index]
      some ({ p1 with index := (p1.index + 1) % 4294967296,
                      streamers := streamer :: p1.streamers,
                      expectedSync := p1.expectedSync + 1 }, out)
    else
      match p1.streamers with
      | [] => none
      | streamer :: _ =>
        if streamer.sync ≠ Sync.AIRED then
          some ({ p1 with flowTrackInfo := some newTrackInfo,
                          expectedSync := p1.expectedSync + 1 }, [])
        else
          match flowSync p1 newTrackInfo with
          | none => none
          | some p2 => some ({ p2 with expectedSync := p2.expectedSync + 1 }, [])

/-- `CSpotPlayer::disconnect` (lines 405-412). -/
def disconnect (p : CSpotPlayer) : CSpotPlayer × List Effect :=
  ({ p with isConnected := false, streamers := [] },
   [Effect.SPOT_STOP] ++ p.streamers.map fun s => Effect.teardown s.index)

/-- The `SEEK` case of `eventHandler` (lines 265-295). -/
def seek (p : CSpotPlayer) (position : Int) : Option (CSpotPlayer × List Effect) :=
  let kept := if p.streamers.length > 1 then eraseNotAired p.streamers else p.streamers
  match kept with
  | [] => none
  | streamer :: rest =>
    let offset : Int := -position
    let duration : Int := if p.flow then 0 else (streamer.trackInfo.duration : Int) + offset
    let sync := if streamer.sync.toNat > Sync.WAIT_URL.toNat then Sync.WAIT_TIME else streamer.sync
    some ({ p with streamers := { streamer with offset := offset, sync := sync } :: rest,
                   expectedSync := 1 },
          [Effect.flush streamer.index, Effect.SPOT_STOP,
           Effect.setContentLength streamer.index p.contentLength,
           Effect.SPOT_LOAD streamer.streamUrl duration (-offset)]
          ++ (if p.isPaused then [] else [Effect.SPOT_PLAY]))

/-- `CSpotPlayer::eventHandler` (lines 224-310). -/
def eventHandler (p : CSpotPlayer) : Event → Option (CSpotPlayer × List Effect)
  | .PLAYBACK_START position =>
    if p.spirc = false then none
    else some ({ p with startOffset := position, expectedSync := 0, flowTrackInfo := none,
                        streamers := [] },
               [Effect.SPOT_STOP, Effect.setRemoteVolume p.volume])
  | .PLAY_PAUSE paused =>
    some ({ p with isPaused := paused },
          if p.streamers ≠ [] then [if paused then Effect.SPOT_PAUSE else Effect.SPOT_PLAY] else [])
  | .NEXT => some ({ p with streamers := [] }, [Effect.SPOT_STOP])
  | .PREV => some ({ p with streamers := [] }, [Effect.SPOT_STOP])
  | .FLUSH => some ({ p with streamers := [] }, [Effect.SPOT_STOP])
  | .DISC => some (disconnect p)
  | .SEEK position => seek p position
  | .DEPLETED =>
    some ({ p with streamers :=
      (eraseDrained p.streamers).map fun s => { s with state := State.DRAINING } }, [])
  | .VOLUME volume => some ({ p with volume := volume }, [Effect.SPOT_VOLUME volume])
  | .OTHER => some (p, [])

/-- The variables a `for` loop of `notify` works on: the player, the local
`position` (rewritten by `position -= offset`), and the calls made so far. -/
structure Scan where
  player : CSpotPlayer
  position : Nat
  out : List Effect
  deriving DecidableEq, Repr

/-- A loop over reverse iterators: the body runs at the indices `n-1, ..., 0`,
that is from `rbegin()` (the back of the deque) to `rend()` (its front). -/
def reverseLoop (body : Nat → Scan → Option Scan) : Nat → Scan → Option Scan
  | 0, st => some st
  | i + 1, st =>
    match body i st with
    | none => none
    | some st1 => reverseLoop body i st1

/-- The body of the `SHADOW_TIME` loop (lines 331-351) at the streamer of index `i`. -/
def timeBody (i : Nat) (st : Scan) : Option Scan :=
  match st.player.streamers[i]? with
  | none => some st
  | some it =>
    if (it.sync ≠ Sync.WAIT_TIME ∨ st.position > 10000) ∧
       (it.sync ≠ Sync.WAIT_CROSSTIME ∨ (st.position : Int) < it.offset) then some st
    else
      let out1 := if it.sync = Sync.WAIT_CROSSTIME
        then st.out ++ [Effect.notifyAudioReachedPlayback] else st.out
      let p1 := { st.player with
        streamers := st.player.streamers.set i { it with sync := Sync.AIRED } }
      let position := toU32 ((st.position : Int) - it.offset)
      let out2 := out1 ++ [Effect.updatePositionMs position]
      match p1.flowTrackInfo with
      | none => some { player := { p1 with expectedSync := p1.expectedSync - 1 },
                       position := position, out := out2 }
      | some trackInfo =>
        match flowSync { p1 with flowTrackInfo := none } trackInfo with
        | none => none
        | some p2 => some { player := { p2 with expectedSync := p2.expectedSync - 1 },
                            position := position, out := out2 }

/-- The body of the `SHADOW_TRACK` loop (lines 362-365) at the streamer of index `i`. -/
def trackBody (url : String) (i : Nat) (st : Scan) : Option Scan :=
  match st.player.streamers[i]? with
  | none => some st
  | some it =>
    if it.sync ≠ Sync.WAIT_URL ∨ it.streamUrl ≠ url then some st
    else
      some { st with
        player := { st.player with
          streamers := st.player.streamers.set i { it with sync := Sync.WAIT_TIME } },
        out := st.out ++ [Effect.notifyAudioReachedPlayback] }

/-- The `switch` of `notify` (lines 323-386), reached with a non-null `spirc`. -/
def notifySwitch (p : CSpotPlayer) : shadowEvent → Option (CSpotPlayer × List Effect)
  | .SHADOW_TIME position =>
    if p.expectedSync = 0 then some (p, [])
    else
      match reverseLoop timeBody p.streamers.length { player := p, position := position, out := [] } with
      | none => none
      | some st => some (st.player, st.out)
  | .SHADOW_TRACK url =>
    if p.expectedSync = 0 then some (p, [])
    else
      match reverseLoop (trackBody url) p.streamers.length { player := p, position := 0, out := [] } with
      | none => none
      | some st => some (st.player, st.out)
  | .SHADOW_PLAY => some (p, [Effect.setPause false])
  | .SHADOW_PAUSE => some (p, [Effect.setPause true])
  | .SHADOW_STOP =>
    match p.streamers with
    | [] => none
    | front :: _ =>
      if front.state ≠ State.DRAINED then some (disconnect p)
      else some (p, [Effect.setPause true])
  | .SHADOW_VOLUME _ => some (p, [])
  | .SHADOW_OTHER => some (p, [])

/-- `CSpotPlayer::notify` (lines 312-387). -/
def notify (p : CSpotPlayer) (event : shadowEvent) : Option (CSpotPlayer × List Effect) :=
  match event with
  | .SHADOW_VOLUME volume =>
    some ({ p with volume := volume }, if p.spirc then [Effect.setRemoteVolume volume] else [])
  | _ => if p.spirc = false then some (p, []) else notifySwitch p event

/-- Lines 112-114 of `writePCM`: the frames go to the front streamer if there is one;
`accepted` is what its `feedPCMFrames` returns; the result is the call made and the
value returned to the caller. -/
def feedFront (p : CSpotPlayer) (bytes : Nat) (accepted : Bool) : List Effect × Nat :=
  match p.streamers with
  | [] => ([], 0)
  | front :: _ => ([Effect.feedPCMFrames front.index bytes], if accepted then bytes else 0)

/-- `CSpotPlayer::writePCM` (lines 105-115). `newTrackInfo` and `url` are the inputs of
`trackHandler`, `accepted` the answer of `feedPCMFrames`; the result carries the
value returned to the caller. -/
def writePCM (p : CSpotPlayer) (bytes : Nat) (sequence : Nat)
    (newTrackInfo : TrackInfo) (url : String) (accepted : Bool) :
    Option (CSpotPlayer × List Effect × Nat) :=
  let handled : Option (CSpotPlayer × List Effect) :=
    if p.sequence ≠ sequence then trackHandler { p with sequence := sequence } newTrackInfo url
    else some (p, [])
  match handled with
  | none => none
  | some (p1, out) =>
    some (p1, out ++ (feedFront p1 bytes accepted).1, (feedFront p1 bytes accepted).2)

/-- The part of `runTask` (lines 488-489) that opens a control session. -/
def connect (p : CSpotPlayer) : CSpotPlayer :=
  { p with spirc := true, isConnected := true }

/-- `CSpotPlayer::teardown` (lines 389-403), for the members modelled here. -/
def teardown (p : CSpotPlayer) : CSpotPlayer :=
  { p with isRunning := false, streamers := [] }

/-- Modelled from the spec: the task of a streamer (`HTTPstreamer.cpp` is not among
the sources) changes the lifecycle state of its own streamer, for instance to
`DRAINED` once its encoded buffer is empty (§4.3); here any streamer may take any
lifecycle state. -/
def setState (p : CSpotPlayer) (i : Nat) (state : State) : CSpotPlayer :=
  match p.streamers[i]? with
  | none => p
  | some s => { p with streamers := p.streamers.set i { s with state := state } }

/-- The players reached from `p0` by the handlers, each returning without
undefined behaviour, by a new control session and by the streamers' own tasks. -/
inductive ReachableFrom (p0 : CSpotPlayer) : CSpotPlayer → Prop where
  | start : ReachableFrom p0 p0
  | trackHandler {p p1 : CSpotPlayer} {out : List Effect} (newTrackInfo : TrackInfo)
      (url : String) :
      ReachableFrom p0 p → trackHandler p newTrackInfo url = some (p1, out) →
      ReachableFrom p0 p1
  | eventHandler {p p1 : CSpotPlayer} {out : List Effect} (event : Event) :
      ReachableFrom p0 p → eventHandler p event = some (p1, out) → ReachableFrom p0 p1
  | notify {p p1 : CSpotPlayer} {out : List Effect} (event : shadowEvent) :
      ReachableFrom p0 p → notify p event = some (p1, out) → ReachableFrom p0 p1
  | writePCM {p p1 : CSpotPlayer} {out : List Effect} {ret : Nat} (bytes sequence : Nat)
      (newTrackInfo : TrackInfo) (url : String) (accepted : Bool) :
      ReachableFrom p0 p →
      writePCM p bytes sequence newTrackInfo url accepted = some (p1, out, ret) →
      ReachableFrom p0 p1
  | connect {p : CSpotPlayer} : ReachableFrom p0 p → ReachableFrom p0 (connect p)
  | teardown {p : CSpotPlayer} : ReachableFrom p0 p → ReachableFrom p0 (teardown p)
  | setState {p : CSpotPlayer} (i : Nat) (state : State) :
      ReachableFrom p0 p → ReachableFrom p0 (setState p i state)

/-- The players the program can be in: those reached from a player whose streamer
list is empty and that has no queued next track, as it is after construction
(lines 54 and 68) and after every `PLAYBACK_START`. -/
def Reachable (p : CSpotPlayer) : Prop :=
  ∃ p0 : CSpotPlayer, p0.streamers = [] ∧ p0.flowTrackInfo = none ∧ ReachableFrom p0 p

/-- What every reachable player satisfies: in flow mode at most one streamer; outside
flow mode no queued track and no streamer waiting for a crossing; a streamer exists
only with a control session; a queued track implies that no streamer is aired. -/
def Inv (p : CSpotPlayer) : Prop :=
  (p.flow = true → p.streamers.length ≤ 1) ∧
  (p.flow = false →
    p.flowTrackInfo = none ∧ ∀ s ∈ p.streamers, s.sync ≠ Sync.WAIT_CROSSTIME) ∧
  (p.streamers ≠ [] → p.spirc = true) ∧
  (p.flowTrackInfo ≠ none → ∀ s ∈ p.streamers, s.sync ≠ Sync.AIRED)

/-! Concrete players used by the witnesses and counterexamples. -/

/-- A track of three minutes. -/
def trackA : TrackInfo := { trackId := "a", name := "A", duration := 180000 }

/-- A second track. -/
def trackB : TrackInfo := { trackId := "b", name := "B", duration := 200000 }

/-- A connected player as `PLAYBACK_START(0)` leaves it: no streamer, no queued
track, `expectedSync = 0`. -/
def started (flow : Bool) : CSpotPlayer :=
  { isPaused := false, isConnected := true, sequence := 0, volume := 30, startOffset := 0,
    expectedSync := 0, flowTrackInfo := none, index := 0, flow := flow, contentLength := 0,
    streamers := [], spirc := true, isRunning := true }

/-- The streamer created for `trackA` at the URL `"uA"`, in the given states. -/
def streamerA (state : State) (sync : Sync) : HTTPstreamer :=
  { streamUrl := "uA", index := 0, state := state, sync := sync, offset := 0, trackInfo := trackA }

/-- The streamer created for `trackB` at the URL `"uB"`, in the given states. -/
def streamerB (state : State) (sync : Sync) : HTTPstreamer :=
  { streamUrl := "uB", index := 1, state := state, sync := sync, offset := 0, trackInfo := trackB }

/-- The player `started flow` after `trackHandler` created the streamer of `trackA`
and the renderer feedback brought it to `sync`, `pending` confirmations being awaited. -/
def playingA (flow : Bool) (sync : Sync) (pending : Int) : CSpotPlayer :=
  { started flow with index := 1, expectedSync := pending,
                      streamers := [streamerA State.FRESH sync] }

/-- Outside flow mode, the player after a second `trackHandler` created the
streamer of `trackB` in front of the one of `trackA`. -/
def playingBA (syncB syncA : Sync) (pending : Int) : CSpotPlayer :=
  { started false with index := 2, expectedSync := pending,
                       streamers := [streamerB State.FRESH syncB, streamerA State.DRAINING syncA] }

/-! The metadata query of the player, the ring buffer and the codec settings of `codecs.h`. -/

/-- The loop of `CSpotPlayer::getMetaForUrl` (lines 415-421) from the streamer `it` on.
`getMetadata` is `HTTPstreamer::getMetadata` (not among the sources), which writes
into the caller's `metadata_t`, here any type `M`; the result is the value returned
and the caller's metadata after the call. -/
def getMetaLoop {M : Type} (getMetadata : HTTPstreamer → M → M) (streamUrl : String)
    (metadata : M) : List HTTPstreamer → Bool × M
  | [] => (false, metadata)
  | it :: rest =>
    if it.streamUrl = streamUrl then (true, getMetadata it metadata)
    else getMetaLoop getMetadata streamUrl metadata rest

/-- `CSpotPlayer::getMetaForUrl` (lines 414-422). -/
def getMetaForUrl {M : Type} (getMetadata : HTTPstreamer → M → M) (p : CSpotPlayer)
    (streamUrl : String) (metadata : M) : Bool × M :=
  getMetaLoop getMetadata streamUrl metadata p.streamers

/-- Conversion of an integer to `size_t` (64 bits). -/
def toSize (x : Int) : Nat := (x % 18446744073709551616).toNat

/-- The members of `byteBuffer` (codecs.h lines 12-14) used by its inline methods;
the cursors `read_p` and `write_p` are kept as offsets from `buffer`. -/
structure byteBuffer where
  size : Nat
  read_p : Nat
  write_p : Nat
  deriving DecidableEq, Repr

/-- `byteBuffer::_used` (codecs.h line 19), a `size_t`. -/
def byteBuffer._used (b : byteBuffer) : Nat :=
  if b.write_p ≥ b.read_p then toSize ((b.write_p : Int) - (b.read_p : Int))
  else toSize ((b.size : Int) - ((b.read_p : Int) - (b.write_p : Int)))

/-- `byteBuffer::_space` (codecs.h line 18), a `size_t`. -/
def byteBuffer._space (b : byteBuffer) : Nat :=
  toSize ((b.size : Int) - (b._used : Int) - 1)

/-- `byteBuffer::space` (codecs.h line 27): `_space` under the lock. -/
def byteBuffer.space (b : byteBuffer) : Nat := b._space

/-- `byteBuffer::used` (codecs.h line 28): `_used` under the lock. -/
def byteBuffer.used (b : byteBuffer) : Nat := b._used

/-- `byteBuffer::flush` (codecs.h line 29): `read_p = write_p = buffer`. -/
def byteBuffer.flush (b : byteBuffer) : byteBuffer :=
  { b with read_p := 0, write_p := 0 }

/-- `codecSettings` (codecs.h lines 34-39): `rate` is a `uint32_t`, `channels` and
`size` are `uint8_t`. -/
structure codecSettings where
  rate : Nat := 44100
  channels : Nat := 2
  size : Nat := 2
  deriving DecidableEq, Repr

/-- Conversion of an `unsigned` (32 bits) to `int`. -/
def toI32 (x : Nat) : Int :=
  if x % 4294967296 < 2147483648 then ((x % 4294967296 : Nat) : Int)
  else ((x % 4294967296 : Nat) : Int) - 4294967296

/-- `baseCodec::getBitrate` (codecs.h line 69): the operands are converted to
`unsigned`, each product is taken modulo `2^32`, and the result is returned as `int`. -/
def baseCodec.getBitrate (settings : codecSettings) : Int :=
  toI32 ((((settings.rate * settings.channels) % 4294967296 * settings.size) % 4294967296 * 8)
    % 4294967296)

/-- A third track. -/
def trackC : TrackInfo := { trackId := "c", name := "C", duration := 240000 }

/-- Outside flow mode, the player whose streamers of `trackB` (front) and `trackA` are
both aired, in the given lifecycle states. -/
def airedBA (stateB stateA : State) : CSpotPlayer :=
  { started false with index := 2, expectedSync := 0,
                       streamers := [streamerB stateB Sync.AIRED, streamerA stateA Sync.AIRED] }



/-- In flow mode, the player whose streamer of `trackA` waits for a position report
while `trackB` is queued. -/
def queuedA : CSpotPlayer :=
  { playingA true Sync.WAIT_TIME 2 with flowTrackInfo := some trackB }

/-! Sequences of calls, the creation indices of the streamers, and `baseCodec::isEmpty`. -/

/-- One call made on the player: by the decoder (`trackHandler`, `writePCM`), by the
control session (`eventHandler`), by the renderer (`notify`), by `runTask`
(`connect`, `teardown`) or by the task of a streamer (`setState`). -/
inductive Call where
  | trackHandler (newTrackInfo : TrackInfo) (url : String)
  | eventHandler (event : Event)
  | notify (event : shadowEvent)
  | writePCM (bytes sequence : Nat) (newTrackInfo : TrackInfo) (url : String) (accepted : Bool)
  | connect
  | teardown
  | setState (i : Nat) (state : State)
  deriving DecidableEq, Repr

/-- The player after one call, `none` when the call runs into undefined behaviour. -/
def step (p : CSpotPlayer) : Call → Option CSpotPlayer
  | .trackHandler newTrackInfo url => (trackHandler p newTrackInfo url).map fun r => r.1
  | .eventHandler event => (eventHandler p event).map fun r => r.1
  | .notify event => (notify p event).map fun r => r.1
  | .writePCM bytes sequence newTrackInfo url accepted =>
    (writePCM p bytes sequence newTrackInfo url accepted).map fun r => r.1
  | .connect => some (connect p)
  | .teardown => some (teardown p)
  | .setState i state => some (setState p i state)

/-- The player after a sequence of calls, made in the order of the list. -/
def run : CSpotPlayer → List Call → Option CSpotPlayer
  | p, [] => some p
  | p, c :: cs =>
    match step p c with
    | none => none
    | some p1 => run p1 cs

/-- The calls that run `trackHandler`, the only place where `index++` is executed. -/
def Call.tracks : Call → Bool
  | .trackHandler _ _ => true
  | .writePCM _ _ _ _ _ => true
  | _ => false

/-- The creation indices of the streamers, from the front of the list to its back. -/
def indices (p : CSpotPlayer) : List Nat :=
  p.streamers.map fun s => s.index

/-- The number of streamers that wait for a confirmation, that is whose
synchronisation state is not `AIRED`. -/
def unconfirmed (l : List HTTPstreamer) : Nat :=
  (l.filter fun s => s.sync ≠ Sync.AIRED).length

/-- The members of `baseCodec` (codecs.h lines 61-62) that its inline methods read. -/
structure baseCodec where
  pcm : byteBuffer
  encoded : byteBuffer
  total : Int
  deriving DecidableEq, Repr

/-- `baseCodec::isEmpty` (codecs.h line 72), `return encoded->used();`: the `size_t`
is converted to `bool`, which gives `true` for every value other than zero. -/
def baseCodec.isEmpty (c : baseCodec) : Bool :=
  decide (c.encoded.used ≠ 0)

/-- A codec whose buffers of 4 MiB (the default size, codecs.h line 22) are flushed. -/
def flushedCodec : baseCodec :=
  { pcm := { size := 4194304, read_p := 0, write_p := 0 },
    encoded := { size := 4194304, read_p := 0, write_p := 0 },
    total := 0 }

/-- The codec `flushedCodec` after `n` encoded bytes were written and none read. -/
def loadedCodec (n : Nat) : baseCodec :=
  { flushedCodec with encoded := { size := 4194304, read_p := 0, write_p := n } }

/-- The player `started false` after `n` streamers were created and each was removed
by a `PLAYBACK_START`: the counter `index` has been incremented `n` times. -/
def startedAt (n : Nat) : CSpotPlayer :=
  { started false with index := n % 4294967296 }

/-- What the counter `expectedSync` satisfies in every reachable player: it is not
negative and, outside flow mode, it is at least the number of streamers that wait for
a confirmation. -/
def Pending (p : CSpotPlayer) : Prop :=
  0 ≤ p.expectedSync ∧ (p.flow = false → (unconfirmed p.streamers : Int) ≤ p.expectedSync)

/-- The number of confirmations among the calls made while a position report is
handled: each confirmed streamer makes one `updatePositionMs` call (line 343). -/
def confirmations (out : List Effect) : Nat :=
  out.countP fun e =>
    match e with
    | .updatePositionMs _ => true
    | _ => false

/-- The value that an `int` of 32 bits holds for the integer `x` (two's complement):
`expectedSync` is a `std::atomic<int>` (line 53), whose `++` and `--` wrap.  The model
keeps the counter as the integer that the increments and decrements add up to; the
program holds `toInt32` of it, and both are the same number while that integer lies in
`[-2^31, 2^31)`. -/
def toInt32 (x : Int) : Int :=
  (x + 2147483648) % 4294967296 - 2147483648

/-- In flow mode, the player whose streamer of `trackA` has not been fetched yet while
`trackB` is queued, `pending` confirmations being awaited. -/
def flowQueued (pending : Int) : CSpotPlayer :=
  { playingA true Sync.WAIT_URL pending with flowTrackInfo := some trackB }

/-! The invariant `Inv` holds in every reachable player. -/

theorem reverseLoop_induct (P : Scan → Prop) (body : Nat → Scan → Option Scan)
    (hbody : ∀ i st st1, P st → body i st = some st1 → P st1) :
    ∀ n st st1, P st → reverseLoop body n st = some st1 → P st1 := by
  intro n
  induction n with
  | zero =>
    intro st st1 h hl
    simp [reverseLoop] at hl
    exact hl ▸ h
  | succ i ih =>
    intro st st1 h hl
    simp only [reverseLoop] at hl
    cases hb : body i st with
    | none => simp [hb] at hl
    | some st2 =>
      simp only [hb] at hl
      exact ih st2 st1 (hbody i st st2 h hb) hl

theorem Inv_of_nil (p : CSpotPlayer) (h1 : p.streamers = []) (h2 : p.flowTrackInfo = none) :
    Inv p := by
  simp [Inv, h1, h2]

theorem mem_eraseDrained {l : List HTTPstreamer} {s : HTTPstreamer} (h : s ∈ eraseDrained l) :
    s ∈ l := by
  unfold eraseDrained at h
  exact List.mem_of_mem_filter h

theorem mem_eraseNotAired {l : List HTTPstreamer} {s : HTTPstreamer} (h : s ∈ eraseNotAired l) :
    s ∈ l := by
  unfold eraseNotAired at h
  exact List.mem_of_mem_filter h

theorem length_eraseDrained_le (l : List HTTPstreamer) : (eraseDrained l).length ≤ l.length := by
  unfold eraseDrained
  exact List.length_filter_le _ _

theorem length_eraseNotAired_le (l : List HTTPstreamer) : (eraseNotAired l).length ≤ l.length := by
  unfold eraseNotAired
  exact List.length_filter_le _ _

theorem drainFront_Inv {p p1 : CSpotPlayer} (hi : Inv p) (h : drainFront p = some p1) :
    Inv p1 ∧ p1.flow = p.flow ∧ (p.streamers = [] → p1 = p) := by
  unfold drainFront at h
  split at h
  · rename_i hc
    split at h
    · simp at h
    · rename_i front rest he
      simp only [Option.some.injEq] at h
      subst h
      obtain ⟨h1, h2, h3, h4⟩ := hi
      have hsub : ∀ s ∈ front :: rest, s ∈ p.streamers := by
        intro s hs
        exact mem_eraseDrained (he ▸ hs)
      have hlen : (front :: rest).length ≤ p.streamers.length := he ▸ length_eraseDrained_le _
      refine ⟨⟨?_, ?_, ?_, ?_⟩, rfl, ?_⟩
      · intro hf
        simp [hc.2] at hf
      · intro hf
        refine ⟨(h2 hf).1, ?_⟩
        intro s hs
        simp only [List.mem_cons] at hs
        rcases hs with hs | hs
        · subst hs
          exact (h2 hf).2 front (hsub front (List.mem_cons_self _ _))
        · exact (h2 hf).2 s (hsub s (List.mem_cons_of_mem _ hs))
      · intro _
        exact h3 hc.1
      · intro hq s hs
        simp only [List.mem_cons] at hs
        rcases hs with hs | hs
        · subst hs
          exact h4 hq front (hsub front (List.mem_cons_self _ _))
        · exact h4 hq s (hsub s (List.mem_cons_of_mem _ hs))
      · intro hn
        exact absurd hn hc.1
  · simp only [Option.some.injEq] at h
    subst h
    exact ⟨hi, rfl, fun _ => rfl⟩

theorem length_le_one_cases {l : List HTTPstreamer} (h : l.length ≤ 1) :
    l = [] ∨ ∃ s, l = [s] := by
  match l, h with
  | [], _ => exact Or.inl rfl
  | [s], _ => exact Or.inr ⟨s, rfl⟩
  | _ :: _ :: _, h => simp at h

theorem trackHandler_Inv {p p1 : CSpotPlayer} {out : List Effect} {ti : TrackInfo} {url : String}
    (hi : Inv p) (h : trackHandler p ti url = some (p1, out)) : Inv p1 := by
  unfold trackHandler at h
  cases hd : drainFront p with
  | none => simp [hd] at h
  | some q =>
    obtain ⟨⟨h1, h2, h3, h4⟩, hflow, _⟩ := drainFront_Inv hi hd
    simp only [hd] at h
    split at h
    · simp at h
    · rename_i hsp
      have hsp1 : q.spirc = true := by simpa using hsp
      split at h
      · rename_i hc
        simp only [Option.some.injEq, Prod.mk.injEq] at h
        obtain ⟨h, -⟩ := h
        subst h
        refine ⟨?_, ?_, ?_, ?_⟩
        · intro hf
          have hf1 : q.flow = true := hf
          rcases hc with hc | hc
          · simp [hc]
          · simp [hf1] at hc
        · intro hf
          have hf1 : q.flow = false := hf
          refine ⟨(h2 hf1).1, ?_⟩
          intro s hs
          simp only [List.mem_cons] at hs
          rcases hs with hs | hs
          · subst hs
            simp [HTTPstreamer.create]
          · exact (h2 hf1).2 s hs
        · intro _
          exact hsp1
        · intro hq s hs
          have hq1 : q.flowTrackInfo ≠ none := hq
          simp only [List.mem_cons] at hs
          rcases hs with hs | hs
          · subst hs
            simp [HTTPstreamer.create]
          · exact h4 hq1 s hs
      · rename_i hc
        have hc1 : q.streamers ≠ [] ∧ q.flow = true := by
          simpa using hc
        have hlen := h1 hc1.2
        split at h
        · simp at h
        · rename_i streamer rest hl
          have hrest : rest = [] := by
            rw [hl] at hlen
            simpa using hlen
          subst hrest
          split at h
          · rename_i hsy
            simp only [Option.some.injEq, Prod.mk.injEq] at h
            obtain ⟨h, -⟩ := h
            subst h
            refine ⟨?_, ?_, ?_, ?_⟩
            · intro _
              exact hlen
            · intro hf
              have hf1 : q.flow = false := hf
              simp [hc1.2] at hf1
            · intro _
              exact hsp1
            · intro _ s hs
              have hs1 : s ∈ q.streamers := hs
              rw [hl] at hs1
              simp only [List.mem_singleton] at hs1
              subst hs1
              exact hsy
          · rename_i hsy
            simp only [flowSync, hl, Option.some.injEq, Prod.mk.injEq] at h
            obtain ⟨h, -⟩ := h
            subst h
            refine ⟨?_, ?_, ?_, ?_⟩
            · intro _
              simp
            · intro hf
              have hf1 : q.flow = false := hf
              simp [hc1.2] at hf1
            · intro _
              exact hsp1
            · intro _ s hs
              simp only [List.mem_singleton] at hs
              subst hs
              simp

theorem seek_Inv {p p1 : CSpotPlayer} {out : List Effect} {position : Int}
    (hi : Inv p) (h : seek p position = some (p1, out)) : Inv p1 := by
  obtain ⟨h1, h2, h3, h4⟩ := hi
  unfold seek at h
  simp only at h
  split at h
  · simp at h
  · rename_i streamer rest hk
    simp only [Option.some.injEq, Prod.mk.injEq] at h
    obtain ⟨h, -⟩ := h
    subst h
    have hsub : ∀ s ∈ streamer :: rest, s ∈ p.streamers := by
      intro s hs
      rw [← hk] at hs
      split at hs
      · exact mem_eraseNotAired hs
      · exact hs
    have hlen : (streamer :: rest).length ≤ p.streamers.length := by
      rw [← hk]
      split
      · exact length_eraseNotAired_le _
      · exact le_refl _
    have hne : p.streamers ≠ [] := by
      intro hn
      rw [hn] at hlen
      simp at hlen
    refine ⟨?_, ?_, ?_, ?_⟩
    · intro hf
      exact le_trans hlen (h1 hf)
    · intro hf
      refine ⟨(h2 hf).1, ?_⟩
      intro s hs
      simp only [List.mem_cons] at hs
      rcases hs with hs | hs
      · subst hs
        have := (h2 hf).2 streamer (hsub streamer (List.mem_cons_self _ _))
        simp only
        split
        · simp
        · exact this
      · exact (h2 hf).2 s (hsub s (List.mem_cons_of_mem _ hs))
    · intro _
      exact h3 hne
    · intro hq s hs
      simp only [List.mem_cons] at hs
      rcases hs with hs | hs
      · subst hs
        simp only
        split
        · simp
        · rename_i hgt
          intro ha
          rw [ha] at hgt
          simp [Sync.toNat] at hgt
      · exact h4 hq s (hsub s (List.mem_cons_of_mem _ hs))

theorem eventHandler_Inv {p p1 : CSpotPlayer} {out : List Effect} {event : Event}
    (hi : Inv p) (h : eventHandler p event = some (p1, out)) : Inv p1 := by
  cases event with
  | SEEK position => exact seek_Inv hi h
  | PLAYBACK_START position =>
    simp only [eventHandler] at h
    split at h
    · simp at h
    · simp only [Option.some.injEq, Prod.mk.injEq] at h
      obtain ⟨h, -⟩ := h
      subst h
      exact Inv_of_nil _ rfl rfl
  | DEPLETED =>
    obtain ⟨h1, h2, h3, h4⟩ := hi
    simp only [eventHandler, Option.some.injEq, Prod.mk.injEq] at h
    obtain ⟨h, -⟩ := h
    subst h
    have hsub : ∀ s ∈ (eraseDrained p.streamers).map (fun s => { s with state := State.DRAINING }),
        ∃ t ∈ p.streamers, s.sync = t.sync := by
      intro s hs
      simp only [List.mem_map] at hs
      obtain ⟨t, ht, hts⟩ := hs
      exact ⟨t, mem_eraseDrained ht, by rw [← hts]⟩
    refine ⟨?_, ?_, ?_, ?_⟩
    · intro hf
      simp only [List.length_map]
      exact le_trans (length_eraseDrained_le _) (h1 hf)
    · intro hf
      refine ⟨(h2 hf).1, ?_⟩
      intro s hs
      obtain ⟨t, ht, hts⟩ := hsub s hs
      rw [hts]
      exact (h2 hf).2 t ht
    · intro hne
      apply h3
      intro hn
      apply hne
      simp [hn, eraseDrained]
    · intro hq s hs
      obtain ⟨t, ht, hts⟩ := hsub s hs
      rw [hts]
      exact h4 hq t ht
  | PLAY_PAUSE paused =>
    simp only [eventHandler, Option.some.injEq, Prod.mk.injEq] at h
    obtain ⟨h, -⟩ := h
    subst h
    exact hi
  | NEXT =>
    obtain ⟨h1, h2, h3, h4⟩ := hi
    simp only [eventHandler, Option.some.injEq, Prod.mk.injEq] at h
    obtain ⟨h, -⟩ := h
    subst h
    exact ⟨by simp, fun hf => ⟨(h2 hf).1, by simp⟩, by simp, by simp⟩
  | PREV =>
    obtain ⟨h1, h2, h3, h4⟩ := hi
    simp only [eventHandler, Option.some.injEq, Prod.mk.injEq] at h
    obtain ⟨h, -⟩ := h
    subst h
    exact ⟨by simp, fun hf => ⟨(h2 hf).1, by simp⟩, by simp, by simp⟩
  | FLUSH =>
    obtain ⟨h1, h2, h3, h4⟩ := hi
    simp only [eventHandler, Option.some.injEq, Prod.mk.injEq] at h
    obtain ⟨h, -⟩ := h
    subst h
    exact ⟨by simp, fun hf => ⟨(h2 hf).1, by simp⟩, by simp, by simp⟩
  | DISC =>
    obtain ⟨h1, h2, h3, h4⟩ := hi
    simp only [eventHandler, disconnect, Option.some.injEq, Prod.mk.injEq] at h
    obtain ⟨h, -⟩ := h
    subst h
    exact ⟨by simp, fun hf => ⟨(h2 hf).1, by simp⟩, by simp, by simp⟩
  | VOLUME volume =>
    simp only [eventHandler, Option.some.injEq, Prod.mk.injEq] at h
    obtain ⟨h, -⟩ := h
    subst h
    exact hi
  | OTHER =>
    simp only [eventHandler, Option.some.injEq, Prod.mk.injEq] at h
    obtain ⟨h, -⟩ := h
    subst h
    exact hi

theorem mem_set_sync {l : List HTTPstreamer} {i : Nat} {it s : HTTPstreamer} {y : Sync}
    (hs : s ∈ l.set i { it with sync := y }) :
    s ∈ l ∨ s = { it with sync := y } := by
  rcases List.mem_or_eq_of_mem_set hs with h | h
  · exact Or.inl h
  · exact Or.inr h

theorem mem_of_getElem {l : List HTTPstreamer} {i : Nat} {it : HTTPstreamer}
    (hit : l[i]? = some it) : it ∈ l := by
  rw [List.getElem?_eq_some_iff] at hit
  obtain ⟨h, rfl⟩ := hit
  exact List.getElem_mem h

theorem timeBody_Inv {i : Nat} {st st1 : Scan} (hi : Inv st.player)
    (h : timeBody i st = some st1) : Inv st1.player := by
  unfold timeBody at h
  split at h
  · simp only [Option.some.injEq] at h
    exact h ▸ hi
  · rename_i it hit
    split at h
    · simp only [Option.some.injEq] at h
      exact h ▸ hi
    · obtain ⟨h1, h2, h3, h4⟩ := hi
      have hmem := mem_of_getElem hit
      have hne : st.player.streamers ≠ [] := List.ne_nil_of_mem hmem
      simp only at h
      split at h
      · rename_i hq
        simp only [Option.some.injEq] at h
        subst h
        refine ⟨?_, ?_, ?_, ?_⟩
        · intro hf
          simpa using h1 hf
        · intro hf
          refine ⟨hq, ?_⟩
          intro s hs
          rcases mem_set_sync hs with hs | hs
          · exact (h2 hf).2 s hs
          · subst hs
            simp
        · intro _
          exact h3 hne
        · intro hc
          exact absurd hq hc
      · rename_i trackInfo hq
        split at h
        · simp at h
        · rename_i p2 hp2
          simp only [Option.some.injEq] at h
          subst h
          unfold flowSync at hp2
          simp only at hp2
          split at hp2
          · simp at hp2
          · rename_i streamer rest hl
            simp only [Option.some.injEq] at hp2
            subst hp2
            have hflow : st.player.flow = true := by
              cases hf : st.player.flow with
              | true => rfl
              | false =>
                have := (h2 hf).1
                have hq1 : st.player.flowTrackInfo = some trackInfo := hq
                rw [this] at hq1
                simp at hq1
            have hlen : (st.player.streamers.set i { it with sync := Sync.AIRED }).length ≤ 1 := by
              simpa using h1 hflow
            rw [hl] at hlen
            refine ⟨?_, ?_, ?_, ?_⟩
            · intro _
              simpa using hlen
            · intro hf
              have hf1 : st.player.flow = false := hf
              rw [hflow] at hf1
              simp at hf1
            · intro _
              exact h3 hne
            · intro hc
              simp at hc

theorem trackBody_Inv (url : String) {i : Nat} {st st1 : Scan} (hi : Inv st.player)
    (h : trackBody url i st = some st1) : Inv st1.player := by
  unfold trackBody at h
  split at h
  · simp only [Option.some.injEq] at h
    exact h ▸ hi
  · rename_i it hit
    split at h
    · simp only [Option.some.injEq] at h
      exact h ▸ hi
    · obtain ⟨h1, h2, h3, h4⟩ := hi
      have hmem := mem_of_getElem hit
      have hne : st.player.streamers ≠ [] := List.ne_nil_of_mem hmem
      simp only [Option.some.injEq] at h
      subst h
      refine ⟨?_, ?_, ?_, ?_⟩
      · intro hf
        simpa using h1 hf
      · intro hf
        refine ⟨(h2 hf).1, ?_⟩
        intro s hs
        rcases mem_set_sync hs with hs | hs
        · exact (h2 hf).2 s hs
        · subst hs
          simp
      · intro _
        exact h3 hne
      · intro hc s hs
        rcases mem_set_sync hs with hs | hs
        · exact h4 hc s hs
        · subst hs
          simp

theorem disconnect_Inv {p : CSpotPlayer} (hi : Inv p) : Inv (disconnect p).1 := by
  obtain ⟨h1, h2, h3, h4⟩ := hi
  exact ⟨by simp [disconnect], fun hf => ⟨(h2 hf).1, by simp [disconnect]⟩,
    by simp [disconnect], by simp [disconnect]⟩

theorem notifySwitch_Inv {p p1 : CSpotPlayer} {out : List Effect} {event : shadowEvent}
    (hi : Inv p) (h : notifySwitch p event = some (p1, out)) : Inv p1 := by
  cases event with
  | SHADOW_TIME position =>
    simp only [notifySwitch] at h
    split at h
    · simp only [Option.some.injEq, Prod.mk.injEq] at h
      exact h.1 ▸ hi
    · split at h
      · simp at h
      · rename_i st hst
        simp only [Option.some.injEq, Prod.mk.injEq] at h
        rw [← h.1]
        exact reverseLoop_induct (fun s => Inv s.player) timeBody
          (fun i s s1 hs hb => timeBody_Inv hs hb) _ _ _ hi hst
  | SHADOW_TRACK url =>
    simp only [notifySwitch] at h
    split at h
    · simp only [Option.some.injEq, Prod.mk.injEq] at h
      exact h.1 ▸ hi
    · split at h
      · simp at h
      · rename_i st hst
        simp only [Option.some.injEq, Prod.mk.injEq] at h
        rw [← h.1]
        exact reverseLoop_induct (fun s => Inv s.player) (trackBody url)
          (fun i s s1 hs hb => trackBody_Inv url hs hb) _ _ _ hi hst
  | SHADOW_STOP =>
    simp only [notifySwitch] at h
    split at h
    · simp at h
    · split at h
      · simp only [Option.some.injEq] at h
        have := disconnect_Inv hi
        rw [h] at this
        exact this
      · simp only [Option.some.injEq, Prod.mk.injEq] at h
        exact h.1 ▸ hi
  | SHADOW_PLAY =>
    simp only [notifySwitch, Option.some.injEq, Prod.mk.injEq] at h
    exact h.1 ▸ hi
  | SHADOW_PAUSE =>
    simp only [notifySwitch, Option.some.injEq, Prod.mk.injEq] at h
    exact h.1 ▸ hi
  | SHADOW_VOLUME volume =>
    simp only [notifySwitch, Option.some.injEq, Prod.mk.injEq] at h
    exact h.1 ▸ hi
  | SHADOW_OTHER =>
    simp only [notifySwitch, Option.some.injEq, Prod.mk.injEq] at h
    exact h.1 ▸ hi

theorem notify_Inv {p p1 : CSpotPlayer} {out : List Effect} {event : shadowEvent}
    (hi : Inv p) (h : notify p event = some (p1, out)) : Inv p1 := by
  unfold notify at h
  split at h
  · simp only [Option.some.injEq, Prod.mk.injEq] at h
    obtain ⟨h, -⟩ := h
    subst h
    exact hi
  · split at h
    · simp only [Option.some.injEq, Prod.mk.injEq] at h
      exact h.1 ▸ hi
    · exact notifySwitch_Inv hi h

theorem writePCM_Inv {p p1 : CSpotPlayer} {out : List Effect} {ret bytes sequence : Nat}
    {ti : TrackInfo} {url : String} {accepted : Bool}
    (hi : Inv p) (h : writePCM p bytes sequence ti url accepted = some (p1, out, ret)) :
    Inv p1 := by
  unfold writePCM at h
  simp only at h
  split at h
  · simp at h
  · rename_i q o hq
    have hq1 : Inv q := by
      split at hq
      · exact trackHandler_Inv (show Inv { p with sequence := sequence } from hi) hq
      · simp only [Option.some.injEq, Prod.mk.injEq] at hq
        exact hq.1 ▸ hi
    simp only [Option.some.injEq, Prod.mk.injEq] at h
    exact h.1 ▸ hq1

theorem connect_Inv {p : CSpotPlayer} (hi : Inv p) : Inv (connect p) := by
  obtain ⟨h1, h2, h3, h4⟩ := hi
  exact ⟨h1, h2, fun _ => rfl, h4⟩

theorem teardown_Inv {p : CSpotPlayer} (hi : Inv p) : Inv (teardown p) := by
  obtain ⟨h1, h2, h3, h4⟩ := hi
  exact ⟨by simp [teardown], fun hf => ⟨(h2 hf).1, by simp [teardown]⟩,
    by simp [teardown], by simp [teardown]⟩

theorem setState_Inv {p : CSpotPlayer} (i : Nat) (state : State) (hi : Inv p) :
    Inv (setState p i state) := by
  unfold setState
  split
  · exact hi
  · rename_i s hs
    obtain ⟨h1, h2, h3, h4⟩ := hi
    have hmem := mem_of_getElem hs
    have key : ∀ t ∈ p.streamers.set i { s with state := state }, ∃ u ∈ p.streamers, t.sync = u.sync := by
      intro t ht
      rcases List.mem_or_eq_of_mem_set ht with ht | ht
      · exact ⟨t, ht, rfl⟩
      · exact ⟨s, hmem, by rw [ht]⟩
    refine ⟨?_, ?_, ?_, ?_⟩
    · intro hf
      simpa using h1 hf
    · intro hf
      refine ⟨(h2 hf).1, ?_⟩
      intro t ht
      obtain ⟨u, hu, htu⟩ := key t ht
      rw [htu]
      exact (h2 hf).2 u hu
    · intro _
      exact h3 (List.ne_nil_of_mem hmem)
    · intro hc t ht
      obtain ⟨u, hu, htu⟩ := key t ht
      rw [htu]
      exact h4 hc u hu

theorem inv_of_reachableFrom {p0 p : CSpotPlayer} (h0 : Inv p0) (h : ReachableFrom p0 p) : Inv p := by
  induction h with
  | start => exact h0
  | trackHandler _ _ _ hstep ih => exact trackHandler_Inv ih hstep
  | eventHandler _ _ hstep ih => exact eventHandler_Inv ih hstep
  | notify _ _ hstep ih => exact notify_Inv ih hstep
  | writePCM _ _ _ _ _ _ hstep ih => exact writePCM_Inv ih hstep
  | connect _ ih => exact connect_Inv ih
  | teardown _ ih => exact teardown_Inv ih
  | setState i state _ ih => exact setState_Inv i state ih

theorem inv_of_reachable {p : CSpotPlayer} (h : Reachable p) : Inv p := by
  obtain ⟨p0, h1, h2, hr⟩ := h
  exact inv_of_reachableFrom (Inv_of_nil p0 h1 h2) hr

/-! What a position report does to the streamers, one at a time. -/

theorem notify_time_single (p : CSpotPlayer) (s : HTTPstreamer) (position : Nat)
    (hs : p.streamers = [s]) (hsp : p.spirc = true) (hes : p.expectedSync ≠ 0) :
    notify p (.SHADOW_TIME position) =
      if (s.sync ≠ Sync.WAIT_TIME ∨ position > 10000) ∧
         (s.sync ≠ Sync.WAIT_CROSSTIME ∨ (position : Int) < s.offset) then some (p, [])
      else
        some ({ p with
                streamers := [match p.flowTrackInfo with
                  | none => { s with sync := Sync.AIRED }
                  | some trackInfo =>
                    { s with offset := s.offset + s.trackInfo.duration,
                             trackInfo := trackInfo,
                             sync := Sync.WAIT_CROSSTIME }],
                flowTrackInfo := none,
                expectedSync := p.expectedSync - 1 },
              (if s.sync = Sync.WAIT_CROSSTIME then [Effect.notifyAudioReachedPlayback] else [])
                ++ [Effect.updatePositionMs (toU32 ((position : Int) - s.offset))]) := by
  obtain ⟨isPaused, isConnected, sequence, volume, startOffset, expectedSync, flowTrackInfo,
    index, flow, contentLength, streamers, spirc, isRunning⟩ := p
  simp only at hs hsp hes
  subst hs hsp
  cases flowTrackInfo with
  | none =>
    by_cases hc : s.sync = Sync.WAIT_CROSSTIME
    · simp [notify, notifySwitch, hes, reverseLoop, timeBody, hc]
      split_ifs <;> rfl
    · simp [notify, notifySwitch, hes, reverseLoop, timeBody, hc]
      split_ifs <;> rfl
  | some trackInfo =>
    by_cases hc : s.sync = Sync.WAIT_CROSSTIME
    · simp [notify, notifySwitch, hes, reverseLoop, timeBody, hc, flowSync]
      split_ifs <;> rfl
    · simp [notify, notifySwitch, hes, reverseLoop, timeBody, hc, flowSync]
      split_ifs <;> rfl

theorem trackLoop_pointwise (url : String) (l0 : List HTTPstreamer) :
    ∀ n st st1,
      (∀ (j : Nat) (s s1 : HTTPstreamer), l0[j]? = some s → st.player.streamers[j]? = some s1 →
        s1 = s ∨ s1 = { s with sync := Sync.WAIT_TIME }) →
      reverseLoop (trackBody url) n st = some st1 →
      (∀ (j : Nat) (s s1 : HTTPstreamer), l0[j]? = some s → st1.player.streamers[j]? = some s1 →
        s1 = s ∨ s1 = { s with sync := Sync.WAIT_TIME }) := by
  apply reverseLoop_induct
    (fun st => ∀ (j : Nat) (s s1 : HTTPstreamer), l0[j]? = some s → st.player.streamers[j]? = some s1 →
        s1 = s ∨ s1 = { s with sync := Sync.WAIT_TIME })
  intro i st st1 hP hb
  unfold trackBody at hb
  split at hb
  · simp only [Option.some.injEq] at hb
    exact hb ▸ hP
  · rename_i it hit
    split at hb
    · simp only [Option.some.injEq] at hb
      exact hb ▸ hP
    · simp only [Option.some.injEq] at hb
      subst hb
      intro j s s1 hs hs1
      simp only [List.getElem?_set] at hs1
      split at hs1
      · rename_i hij
        subst hij
        split at hs1
        · simp only [Option.some.injEq] at hs1
          subst hs1
          rcases hP i s it hs hit with h | h
          · subst h
            exact Or.inr rfl
          · subst h
            exact Or.inr rfl
        · simp at hs1
      · exact hP j s s1 hs hs1

theorem timeLoop_pointwise_nonflow (l0 : List HTTPstreamer) (pos0 : Nat) :
    ∀ n st st1,
      (st.player.flowTrackInfo = none ∧
       (∀ s ∈ st.player.streamers, s.sync ≠ Sync.WAIT_CROSSTIME) ∧
       (st.position = pos0 ∨ pos0 ≤ 10000) ∧
       ∀ (j : Nat) (s s1 : HTTPstreamer), l0[j]? = some s → st.player.streamers[j]? = some s1 →
         s1 = s ∨ (s1 = { s with sync := Sync.AIRED } ∧ s.sync = Sync.WAIT_TIME ∧ pos0 ≤ 10000)) →
      reverseLoop timeBody n st = some st1 →
      (st1.player.flowTrackInfo = none ∧
       (∀ s ∈ st1.player.streamers, s.sync ≠ Sync.WAIT_CROSSTIME) ∧
       (st1.position = pos0 ∨ pos0 ≤ 10000) ∧
       ∀ (j : Nat) (s s1 : HTTPstreamer), l0[j]? = some s → st1.player.streamers[j]? = some s1 →
         s1 = s ∨ (s1 = { s with sync := Sync.AIRED } ∧ s.sync = Sync.WAIT_TIME ∧ pos0 ≤ 10000)) := by
  apply reverseLoop_induct
    (fun st => st.player.flowTrackInfo = none ∧
       (∀ s ∈ st.player.streamers, s.sync ≠ Sync.WAIT_CROSSTIME) ∧
       (st.position = pos0 ∨ pos0 ≤ 10000) ∧
       ∀ (j : Nat) (s s1 : HTTPstreamer), l0[j]? = some s → st.player.streamers[j]? = some s1 →
         s1 = s ∨ (s1 = { s with sync := Sync.AIRED } ∧ s.sync = Sync.WAIT_TIME ∧ pos0 ≤ 10000))
  intro i st st1 hP hb
  obtain ⟨hq, hx, hpos, hrel⟩ := hP
  unfold timeBody at hb
  split at hb
  · simp only [Option.some.injEq] at hb
    exact hb ▸ ⟨hq, hx, hpos, hrel⟩
  · rename_i it hit
    split at hb
    · simp only [Option.some.injEq] at hb
      exact hb ▸ ⟨hq, hx, hpos, hrel⟩
    · rename_i hg
      have hnx : it.sync ≠ Sync.WAIT_CROSSTIME := hx it (mem_of_getElem hit)
      have hwt : it.sync = Sync.WAIT_TIME ∧ st.position ≤ 10000 := by
        by_contra hcon
        apply hg
        refine ⟨?_, Or.inl hnx⟩
        by_cases h1 : it.sync = Sync.WAIT_TIME
        · right
          by_contra h2
          exact hcon ⟨h1, by omega⟩
        · exact Or.inl h1
      have hp0 : pos0 ≤ 10000 := by
        rcases hpos with h | h
        · rw [← h]
          exact hwt.2
        · exact h
      simp only [hq] at hb
      simp only [Option.some.injEq] at hb
      subst hb
      refine ⟨rfl, ?_, Or.inr hp0, ?_⟩
      · intro s hs
        rcases mem_set_sync hs with hs | hs
        · exact hx s hs
        · subst hs
          simp
      · intro j s s1 hs hs1
        simp only [List.getElem?_set] at hs1
        split at hs1
        · rename_i hij
          subst hij
          split at hs1
          · simp only [Option.some.injEq] at hs1
            subst hs1
            rcases hrel i s it hs hit with h | h
            · subst h
              exact Or.inr ⟨rfl, hwt.1, hp0⟩
            · rw [h.1] at hwt
              simp at hwt
          · simp at hs1
        · exact hrel j s s1 hs hs1

theorem pointwise_of_same {event : shadowEvent} {l l1 : List HTTPstreamer} (h : l1 = l)
    (i : Nat) (s s1 : HTTPstreamer) (hs : l[i]? = some s) (hs1 : l1[i]? = some s1) :
    (s1.index = s.index ∧ s1.streamUrl = s.streamUrl) ∧
    (s.sync ≠ Sync.AIRED → s1.sync = Sync.AIRED →
      ∃ position, event = shadowEvent.SHADOW_TIME position ∧
        ((s.sync = Sync.WAIT_TIME ∧ position ≤ 10000) ∨
         (s.sync = Sync.WAIT_CROSSTIME ∧ s.offset ≤ (position : Int)))) := by
  subst h
  rw [hs] at hs1
  simp only [Option.some.injEq] at hs1
  subst hs1
  exact ⟨⟨rfl, rfl⟩, fun h1 h2 => absurd h2 h1⟩

theorem notify_aired_pointwise {p p1 : CSpotPlayer} {out : List Effect} {event : shadowEvent}
    (hi : Inv p) (h : notify p event = some (p1, out))
    (i : Nat) (s s1 : HTTPstreamer) (hs : p.streamers[i]? = some s)
    (hs1 : p1.streamers[i]? = some s1) :
    (s1.index = s.index ∧ s1.streamUrl = s.streamUrl) ∧
    (s.sync ≠ Sync.AIRED → s1.sync = Sync.AIRED →
      ∃ position, event = shadowEvent.SHADOW_TIME position ∧
        ((s.sync = Sync.WAIT_TIME ∧ position ≤ 10000) ∨
         (s.sync = Sync.WAIT_CROSSTIME ∧ s.offset ≤ (position : Int)))) := by
  by_cases hsp : p.spirc = false
  · have hsame : p1.streamers = p.streamers := by
      cases event <;> simp [notify, hsp] at h <;> rw [← h.1]
    exact pointwise_of_same hsame i s s1 hs hs1
  have hsp1 : p.spirc = true := by simpa using hsp
  cases event with
  | SHADOW_VOLUME volume =>
    have hsame : p1.streamers = p.streamers := by
      simp [notify] at h
      rw [← h.1]
    exact pointwise_of_same hsame i s s1 hs hs1
  | SHADOW_PLAY =>
    have hsame : p1.streamers = p.streamers := by
      simp [notify, notifySwitch, hsp1] at h
      rw [← h.1]
    exact pointwise_of_same hsame i s s1 hs hs1
  | SHADOW_PAUSE =>
    have hsame : p1.streamers = p.streamers := by
      simp [notify, notifySwitch, hsp1] at h
      rw [← h.1]
    exact pointwise_of_same hsame i s s1 hs hs1
  | SHADOW_OTHER =>
    have hsame : p1.streamers = p.streamers := by
      simp [notify, notifySwitch, hsp1] at h
      rw [← h.1]
    exact pointwise_of_same hsame i s s1 hs hs1
  | SHADOW_STOP =>
    simp only [notify, notifySwitch, hsp1] at h
    simp only [Bool.true_eq_false, if_false] at h
    split at h
    · simp at h
    · split at h
      · simp only [disconnect, Option.some.injEq, Prod.mk.injEq] at h
        rw [← h.1] at hs1
        simp at hs1
      · simp only [Option.some.injEq, Prod.mk.injEq] at h
        exact pointwise_of_same (by rw [← h.1]) i s s1 hs hs1
  | SHADOW_TRACK url =>
    simp only [notify, notifySwitch, hsp1] at h
    simp only [Bool.true_eq_false, if_false] at h
    split at h
    · simp only [Option.some.injEq, Prod.mk.injEq] at h
      exact pointwise_of_same (by rw [← h.1]) i s s1 hs hs1
    · split at h
      · simp at h
      · rename_i st hst
        simp only [Option.some.injEq, Prod.mk.injEq] at h
        have key := trackLoop_pointwise url p.streamers _ _ _
          (by
            intro j t t1 ht ht1
            rw [ht] at ht1
            simp only [Option.some.injEq] at ht1
            exact Or.inl ht1.symm) hst i s s1 hs (by rw [h.1]; exact hs1)
        rcases key with k | k
        · subst k
          exact ⟨⟨rfl, rfl⟩, fun h1 h2 => absurd h2 h1⟩
        · subst k
          refine ⟨⟨rfl, rfl⟩, fun _ h2 => ?_⟩
          simp at h2
  | SHADOW_TIME position =>
    by_cases hes : p.expectedSync = 0
    · have hsame : p1.streamers = p.streamers := by
        simp [notify, notifySwitch, hsp1, hes] at h
        rw [← h.1]
      exact pointwise_of_same hsame i s s1 hs hs1
    obtain ⟨h1, h2, h3, h4⟩ := hi
    cases hf : p.flow with
    | true =>
      rcases length_le_one_cases (h1 hf) with hl | ⟨s0, hl⟩
      · rw [hl] at hs
        simp at hs
      · rw [notify_time_single p s0 position hl hsp1 hes] at h
        rw [hl] at hs
        have hi0 : i = 0 := by
          cases i with
          | zero => rfl
          | succ k => simp at hs
        subst hi0
        simp only [List.getElem?_cons_zero, Option.some.injEq] at hs
        subst hs
        split at h
        · simp only [Option.some.injEq, Prod.mk.injEq] at h
          rw [← h.1, hl] at hs1
          simp only [List.getElem?_cons_zero, Option.some.injEq] at hs1
          subst hs1
          exact ⟨⟨rfl, rfl⟩, fun h1 h2 => absurd h2 h1⟩
        · rename_i hg
          simp only [Option.some.injEq, Prod.mk.injEq] at h
          rw [← h.1] at hs1
          simp only [List.getElem?_cons_zero, Option.some.injEq] at hs1
          subst hs1
          refine ⟨?_, ?_⟩
          · split <;> exact ⟨rfl, rfl⟩
          · intro _ _
            refine ⟨position, rfl, ?_⟩
            by_contra hcon
            apply hg
            constructor
            · by_cases ha : s0.sync = Sync.WAIT_TIME
              · right
                by_contra hb
                exact hcon (Or.inl ⟨ha, by omega⟩)
              · exact Or.inl ha
            · by_cases ha : s0.sync = Sync.WAIT_CROSSTIME
              · right
                by_contra hb
                exact hcon (Or.inr ⟨ha, by omega⟩)
              · exact Or.inl ha
    | false =>
      simp only [notify, notifySwitch, hsp1, hes] at h
      simp only [Bool.true_eq_false, if_false] at h
      split at h
      · simp at h
      · rename_i st hst
        simp only [Option.some.injEq, Prod.mk.injEq] at h
        have key := (timeLoop_pointwise_nonflow p.streamers position _ _ _
          ⟨(h2 hf).1, (h2 hf).2, Or.inl rfl,
            by
              intro j t t1 ht ht1
              rw [ht] at ht1
              simp only [Option.some.injEq] at ht1
              exact Or.inl ht1.symm⟩ hst).2.2.2 i s s1 hs (by rw [h.1]; exact hs1)
        rcases key with k | ⟨k, k1, k2⟩
        · subst k
          exact ⟨⟨rfl, rfl⟩, fun h1 h2 => absurd h2 h1⟩
        · subst k
          exact ⟨⟨rfl, rfl⟩, fun _ _ => ⟨position, rfl, Or.inl ⟨k1, k2⟩⟩⟩

theorem drainFront_mem {p q : CSpotPlayer} (h : drainFront p = some q) :
    ∀ s1 ∈ q.streamers, ∃ s ∈ p.streamers,
      s1 = s ∨ s1 = { s with state := State.DRAINING } := by
  unfold drainFront at h
  split at h
  · split at h
    · simp at h
    · rename_i front rest he
      simp only [Option.some.injEq] at h
      subst h
      intro s1 hs1
      simp only [List.mem_cons] at hs1
      rcases hs1 with hs1 | hs1
      · exact ⟨front, mem_eraseDrained (he ▸ List.mem_cons_self _ _), Or.inr hs1⟩
      · exact ⟨s1, mem_eraseDrained (he ▸ List.mem_cons_of_mem _ hs1), Or.inl rfl⟩
  · simp only [Option.some.injEq] at h
    subst h
    intro s1 hs1
    exact ⟨s1, hs1, Or.inl rfl⟩

theorem trackHandler_aired {p p1 : CSpotPlayer} {out : List Effect} {ti : TrackInfo} {url : String}
    (h : trackHandler p ti url = some (p1, out)) :
    ∀ s1 ∈ p1.streamers, s1.sync = Sync.AIRED →
      ∃ s ∈ p.streamers, s.sync = Sync.AIRED ∧
        (s1 = s ∨ s1 = { s with state := State.DRAINING }) := by
  unfold trackHandler at h
  cases hd : drainFront p with
  | none => simp [hd] at h
  | some q =>
    have hq := drainFront_mem hd
    have lift : ∀ s1 ∈ q.streamers, s1.sync = Sync.AIRED →
        ∃ s ∈ p.streamers, s.sync = Sync.AIRED ∧
          (s1 = s ∨ s1 = { s with state := State.DRAINING }) := by
      intro s1 hs1 ha
      obtain ⟨s, hs, hss⟩ := hq s1 hs1
      refine ⟨s, hs, ?_, hss⟩
      rcases hss with e | e
      · rw [← e]
        exact ha
      · rw [e] at ha
        exact ha
    simp only [hd] at h
    split at h
    · simp at h
    · split at h
      · simp only [Option.some.injEq, Prod.mk.injEq] at h
        obtain ⟨h, -⟩ := h
        subst h
        intro s1 hs1 ha
        simp only [List.mem_cons] at hs1
        rcases hs1 with hs1 | hs1
        · subst hs1
          simp [HTTPstreamer.create] at ha
        · exact lift s1 hs1 ha
      · split at h
        · simp at h
        · rename_i streamer rest hl
          split at h
          · simp only [Option.some.injEq, Prod.mk.injEq] at h
            obtain ⟨h, -⟩ := h
            subst h
            intro s1 hs1 ha
            exact lift s1 hs1 ha
          · simp only [flowSync, hl, Option.some.injEq, Prod.mk.injEq] at h
            obtain ⟨h, -⟩ := h
            subst h
            intro s1 hs1 ha
            simp only [List.mem_cons] at hs1
            rcases hs1 with hs1 | hs1
            · subst hs1
              simp at ha
            · exact lift s1 (hl ▸ List.mem_cons_of_mem _ hs1) ha

theorem eventHandler_aired {p p1 : CSpotPlayer} {out : List Effect} {event : Event}
    (h : eventHandler p event = some (p1, out)) :
    ∀ s1 ∈ p1.streamers, s1.sync = Sync.AIRED →
      ∃ s ∈ p.streamers, s.sync = Sync.AIRED ∧
        (s1 = s ∨ s1 = { s with state := State.DRAINING }) := by
  have same : p1.streamers = p.streamers → ∀ s1 ∈ p1.streamers, s1.sync = Sync.AIRED →
      ∃ s ∈ p.streamers, s.sync = Sync.AIRED ∧
        (s1 = s ∨ s1 = { s with state := State.DRAINING }) := by
    intro e s1 hs1 ha
    exact ⟨s1, e ▸ hs1, ha, Or.inl rfl⟩
  have empty : p1.streamers = [] → ∀ s1 ∈ p1.streamers, s1.sync = Sync.AIRED →
      ∃ s ∈ p.streamers, s.sync = Sync.AIRED ∧
        (s1 = s ∨ s1 = { s with state := State.DRAINING }) := by
    intro e s1 hs1
    rw [e] at hs1
    simp at hs1
  cases event with
  | PLAYBACK_START position =>
    simp only [eventHandler] at h
    split at h
    · simp at h
    · simp only [Option.some.injEq, Prod.mk.injEq] at h
      exact empty (by rw [← h.1])
  | PLAY_PAUSE paused =>
    simp only [eventHandler, Option.some.injEq, Prod.mk.injEq] at h
    exact same (by rw [← h.1])
  | NEXT =>
    simp only [eventHandler, Option.some.injEq, Prod.mk.injEq] at h
    exact empty (by rw [← h.1])
  | PREV =>
    simp only [eventHandler, Option.some.injEq, Prod.mk.injEq] at h
    exact empty (by rw [← h.1])
  | FLUSH =>
    simp only [eventHandler, Option.some.injEq, Prod.mk.injEq] at h
    exact empty (by rw [← h.1])
  | DISC =>
    simp only [eventHandler, disconnect, Option.some.injEq, Prod.mk.injEq] at h
    exact empty (by rw [← h.1])
  | VOLUME volume =>
    simp only [eventHandler, Option.some.injEq, Prod.mk.injEq] at h
    exact same (by rw [← h.1])
  | OTHER =>
    simp only [eventHandler, Option.some.injEq, Prod.mk.injEq] at h
    exact same (by rw [← h.1])
  | DEPLETED =>
    simp only [eventHandler, Option.some.injEq, Prod.mk.injEq] at h
    obtain ⟨h, -⟩ := h
    subst h
    intro s1 hs1 ha
    simp only [List.mem_map] at hs1
    obtain ⟨t, ht, hts⟩ := hs1
    refine ⟨t, mem_eraseDrained ht, ?_, Or.inr hts.symm⟩
    rw [← hts] at ha
    exact ha
  | SEEK position =>
    simp only [eventHandler] at h
    unfold seek at h
    simp only at h
    split at h
    · simp at h
    · rename_i streamer rest hk
      simp only [Option.some.injEq, Prod.mk.injEq] at h
      obtain ⟨h, -⟩ := h
      subst h
      have hsub : ∀ s ∈ streamer :: rest, s ∈ p.streamers := by
        intro s hs
        rw [← hk] at hs
        split at hs
        · exact mem_eraseNotAired hs
        · exact hs
      intro s1 hs1 ha
      simp only [List.mem_cons] at hs1
      rcases hs1 with hs1 | hs1
      · subst hs1
        simp only at ha
        split at ha
        · simp at ha
        · rename_i hgt
          rw [ha] at hgt
          simp [Sync.toNat] at hgt
      · exact ⟨s1, hsub s1 (List.mem_cons_of_mem _ hs1), ha, Or.inl rfl⟩

/-! The concrete players are reachable. -/

theorem reachable_started (flow : Bool) : Reachable (started flow) :=
  ⟨started flow, rfl, rfl, ReachableFrom.start⟩

theorem reachable_trackHandler {p p1 : CSpotPlayer} (ti : TrackInfo)
    (url : String) (out : List Effect) (h : Reachable p) (hs : trackHandler p ti url = some (p1, out)) :
    Reachable p1 := by
  obtain ⟨p0, h1, h2, hr⟩ := h
  exact ⟨p0, h1, h2, ReachableFrom.trackHandler ti url hr hs⟩

theorem reachable_notify {p p1 : CSpotPlayer} (event : shadowEvent)
    (out : List Effect) (h : Reachable p) (hs : notify p event = some (p1, out)) : Reachable p1 := by
  obtain ⟨p0, h1, h2, hr⟩ := h
  exact ⟨p0, h1, h2, ReachableFrom.notify event hr hs⟩

theorem reachable_eventHandler {p p1 : CSpotPlayer} (event : Event)
    (out : List Effect) (h : Reachable p) (hs : eventHandler p event = some (p1, out)) : Reachable p1 := by
  obtain ⟨p0, h1, h2, hr⟩ := h
  exact ⟨p0, h1, h2, ReachableFrom.eventHandler event hr hs⟩

theorem reachable_playingA_WAIT_URL (flow : Bool) : Reachable (playingA flow Sync.WAIT_URL 1) := by
  refine reachable_trackHandler trackA "uA"
    [Effect.SPOT_LOAD "uA" (if flow then 0 else 180000) 0, Effect.SPOT_PLAY, Effect.startTask 0]
    (reachable_started flow) ?_
  cases flow <;> rfl

theorem reachable_playingA_WAIT_TIME (flow : Bool) : Reachable (playingA flow Sync.WAIT_TIME 1) := by
  refine reachable_notify (shadowEvent.SHADOW_TRACK "uA") [Effect.notifyAudioReachedPlayback]
    (reachable_playingA_WAIT_URL flow) ?_
  cases flow <;> rfl

theorem reachable_playingA_AIRED (flow : Bool) : Reachable (playingA flow Sync.AIRED 0) := by
  refine reachable_notify (shadowEvent.SHADOW_TIME 500) [Effect.updatePositionMs 500]
    (reachable_playingA_WAIT_TIME flow) ?_
  cases flow <;> rfl

theorem reachable_playingBA_WAIT_TIME : Reachable (playingBA Sync.WAIT_TIME Sync.WAIT_TIME 2) := by
  have h1 : Reachable (playingBA Sync.WAIT_URL Sync.WAIT_TIME 2) :=
    reachable_trackHandler trackB "uB"
      [Effect.SPOT_LOAD "uB" 200000 0, Effect.SPOT_PLAY, Effect.startTask 1]
      (reachable_playingA_WAIT_TIME false) rfl
  exact reachable_notify (shadowEvent.SHADOW_TRACK "uB") [Effect.notifyAudioReachedPlayback] h1 rfl

/-! The loops of `notify` always return; the order of the scan. -/

theorem timeBody_total (i : Nat) (st : Scan) : ∃ st1, timeBody i st = some st1 := by
  unfold timeBody
  split
  · exact ⟨_, rfl⟩
  · rename_i it hit
    split
    · exact ⟨_, rfl⟩
    · simp only
      split
      · exact ⟨_, rfl⟩
      · rename_i trackInfo hq
        cases hl : st.player.streamers with
        | nil =>
          rw [hl] at hit
          simp at hit
        | cons front rest =>
          cases i with
          | zero => simp [flowSync, hl]
          | succ k => simp [flowSync, hl]

theorem trackBody_total (url : String) (i : Nat) (st : Scan) :
    ∃ st1, trackBody url i st = some st1 := by
  unfold trackBody
  split
  · exact ⟨_, rfl⟩
  · split
    · exact ⟨_, rfl⟩
    · exact ⟨_, rfl⟩

theorem reverseLoop_total (body : Nat → Scan → Option Scan)
    (hbody : ∀ i st, ∃ st1, body i st = some st1) :
    ∀ n st, ∃ st1, reverseLoop body n st = some st1 := by
  intro n
  induction n with
  | zero =>
    intro st
    exact ⟨st, rfl⟩
  | succ i ih =>
    intro st
    obtain ⟨st2, h2⟩ := hbody i st
    obtain ⟨st1, h1⟩ := ih st2
    exact ⟨st1, by simp only [reverseLoop, h2, h1]⟩

theorem trackBody_at (url : String) (i : Nat) (st : Scan) :
    ∃ st1, trackBody url i st = some st1 ∧
      ∀ k : Nat, st1.player.streamers[k]? =
        if k = i then
          (st.player.streamers[i]?).map fun s =>
            if s.sync = Sync.WAIT_URL ∧ s.streamUrl = url then { s with sync := Sync.WAIT_TIME }
            else s
        else st.player.streamers[k]? := by
  unfold trackBody
  split
  · rename_i hit
    refine ⟨st, rfl, ?_⟩
    intro k
    split
    · rename_i hk
      subst hk
      simp [hit]
    · rfl
  · rename_i it hit
    split
    · rename_i hg
      refine ⟨st, rfl, ?_⟩
      intro k
      split
      · rename_i hk
        subst hk
        have hng : ¬ (it.sync = Sync.WAIT_URL ∧ it.streamUrl = url) := by
          intro hc
          rcases hg with h | h
          · exact h hc.1
          · exact h hc.2
        simp [hit, hng]
      · rfl
    · rename_i hg
      have hc : it.sync = Sync.WAIT_URL ∧ it.streamUrl = url := by
        constructor
        · by_contra h
          exact hg (Or.inl h)
        · by_contra h
          exact hg (Or.inr h)
      have hlt : i < st.player.streamers.length := by
        rw [List.getElem?_eq_some_iff] at hit
        exact hit.1
      refine ⟨_, rfl, ?_⟩
      intro k
      simp only [List.getElem?_set]
      split
      · rename_i hik
        subst hik
        simp [hlt, hit, hc]
      · rename_i hik
        have hki : ¬ k = i := fun e => hik e.symm
        simp [hki]

theorem trackLoop_at (url : String) :
    ∀ n st, ∃ st1, reverseLoop (trackBody url) n st = some st1 ∧
      ∀ k : Nat, st1.player.streamers[k]? =
        if k < n then
          (st.player.streamers[k]?).map fun s =>
            if s.sync = Sync.WAIT_URL ∧ s.streamUrl = url then { s with sync := Sync.WAIT_TIME }
            else s
        else st.player.streamers[k]? := by
  intro n
  induction n with
  | zero =>
    intro st
    exact ⟨st, rfl, fun k => by simp⟩
  | succ i ih =>
    intro st
    obtain ⟨st2, h2, hk2⟩ := trackBody_at url i st
    obtain ⟨st1, h1, hk1⟩ := ih st2
    refine ⟨st1, by simp only [reverseLoop, h2, h1], ?_⟩
    intro k
    rw [hk1 k]
    by_cases hlt : k < i
    · have hne : ¬ k = i := by omega
      have hlt1 : k < i + 1 := by omega
      simp only [hlt, hlt1, if_true]
      rw [hk2 k]
      simp only [hne, if_false]
    · simp only [hlt, if_false]
      rw [hk2 k]
      by_cases he : k = i
      · subst he
        simp
      · have hlt1 : ¬ k < i + 1 := by omega
        simp only [he, hlt1, if_false]

theorem flowSync_at {q q2 : CSpotPlayer} {ti : TrackInfo} (h : flowSync q ti = some q2)
    (k : Nat) (hk : 1 ≤ k) : q2.streamers[k]? = q.streamers[k]? := by
  unfold flowSync at h
  split at h
  · simp at h
  · rename_i streamer rest hl
    simp only [Option.some.injEq] at h
    subst h
    rw [hl]
    cases k with
    | zero => omega
    | succ j => simp

theorem timeBody_later (i : Nat) (st st1 : Scan) (h : timeBody i st = some st1)
    (k : Nat) (hik : i < k) (hk : 1 ≤ k) :
    st1.player.streamers[k]? = st.player.streamers[k]? := by
  unfold timeBody at h
  split at h
  · simp only [Option.some.injEq] at h
    rw [← h]
  · rename_i it hit
    split at h
    · simp only [Option.some.injEq] at h
      rw [← h]
    · have hne : i ≠ k := by omega
      simp only at h
      split at h
      · simp only [Option.some.injEq] at h
        subst h
        simp only [List.getElem?_set, hne, if_false]
      · split at h
        · simp at h
        · rename_i p2 hp2
          simp only [Option.some.injEq] at h
          subst h
          have := flowSync_at hp2 k hk
          simp only at this
          rw [this]
          simp only [List.getElem?_set, hne, if_false]

theorem timeLoop_later :
    ∀ (n : Nat) (st st1 : Scan), reverseLoop timeBody n st = some st1 →
      ∀ k : Nat, n ≤ k → 1 ≤ k → st1.player.streamers[k]? = st.player.streamers[k]? := by
  intro n
  induction n with
  | zero =>
    intro st st1 h k _ _
    simp only [reverseLoop, Option.some.injEq] at h
    rw [← h]
  | succ i ih =>
    intro st st1 h k hnk hk
    simp only [reverseLoop] at h
    cases hb : timeBody i st with
    | none => simp [hb] at h
    | some st2 =>
      simp only [hb] at h
      rw [ih st2 st1 h k (by omega) hk]
      exact timeBody_later i st st2 hb k (by omega) hk

theorem timeLoop_skip :
    ∀ (n m : Nat) (st : Scan), m ≤ n →
      (∀ (k : Nat) (s : HTTPstreamer), m ≤ k → k < n → st.player.streamers[k]? = some s →
        (s.sync ≠ Sync.WAIT_TIME ∨ st.position > 10000) ∧
        (s.sync ≠ Sync.WAIT_CROSSTIME ∨ (st.position : Int) < s.offset)) →
      reverseLoop timeBody n st = reverseLoop timeBody m st := by
  intro n
  induction n with
  | zero =>
    intro m st hm _
    have : m = 0 := by omega
    subst this
    rfl
  | succ i ih =>
    intro m st hm hskip
    by_cases he : m = i + 1
    · subst he
      rfl
    · have hb : timeBody i st = some st := by
        unfold timeBody
        split
        · rfl
        · rename_i it hit
          rw [if_pos (hskip i it (by omega) (by omega) hit)]
      simp only [reverseLoop, hb]
      exact ih m st (by omega) (fun k s h1 h2 h3 => hskip k s h1 (by omega) h3)

theorem timeBody_confirm (m : Nat) (st : Scan) (a : HTTPstreamer) (hm : 1 ≤ m)
    (ha : st.player.streamers[m]? = some a)
    (hc : (a.sync = Sync.WAIT_TIME ∧ st.position ≤ 10000) ∨
          (a.sync = Sync.WAIT_CROSSTIME ∧ a.offset ≤ (st.position : Int))) :
    ∃ st1, timeBody m st = some st1 ∧
      st1.player.streamers[m]? = some { a with sync := Sync.AIRED } := by
  obtain ⟨st1, h⟩ := timeBody_total m st
  refine ⟨st1, h, ?_⟩
  have hlt : m < st.player.streamers.length := by
    rw [List.getElem?_eq_some_iff] at ha
    exact ha.1
  have hg : ¬ ((a.sync ≠ Sync.WAIT_TIME ∨ st.position > 10000) ∧
      (a.sync ≠ Sync.WAIT_CROSSTIME ∨ (st.position : Int) < a.offset)) := by
    intro hcon
    rcases hc with ⟨h1, h2⟩ | ⟨h1, h2⟩
    · rcases hcon.1 with h | h
      · exact h h1
      · omega
    · rcases hcon.2 with h | h
      · exact h h1
      · omega
  unfold timeBody at h
  simp only [ha, if_neg hg] at h
  split at h
  · simp only [Option.some.injEq] at h
    subst h
    simp [hlt]
  · split at h
    · simp at h
    · rename_i p2 hp2
      simp only [Option.some.injEq] at h
      subst h
      have := flowSync_at hp2 m hm
      simp only at this
      rw [this]
      simp [hlt]

theorem notify_time_pair (p : CSpotPlayer) (b a : HTTPstreamer) (position : Nat)
    (hs : p.streamers = [b, a]) (hsp : p.spirc = true) (hes : p.expectedSync ≠ 0)
    (hq : p.flowTrackInfo = none)
    (ha : (a.sync = Sync.WAIT_TIME ∧ position ≤ 10000) ∨
          (a.sync = Sync.WAIT_CROSSTIME ∧ a.offset ≤ (position : Int))) :
    notify p (shadowEvent.SHADOW_TIME position) =
      if (b.sync = Sync.WAIT_TIME ∧ toU32 ((position : Int) - a.offset) ≤ 10000) ∨
         (b.sync = Sync.WAIT_CROSSTIME ∧
           b.offset ≤ ((toU32 ((position : Int) - a.offset) : Nat) : Int)) then
        some ({ p with streamers := [{ b with sync := Sync.AIRED }, { a with sync := Sync.AIRED }],
                       expectedSync := p.expectedSync - 1 - 1 },
              (if a.sync = Sync.WAIT_CROSSTIME then [Effect.notifyAudioReachedPlayback] else [])
                ++ [Effect.updatePositionMs (toU32 ((position : Int) - a.offset))]
                ++ (if b.sync = Sync.WAIT_CROSSTIME then [Effect.notifyAudioReachedPlayback]
                    else [])
                ++ [Effect.updatePositionMs
                      (toU32 (((toU32 ((position : Int) - a.offset) : Nat) : Int) - b.offset))])
      else
        some ({ p with streamers := [b, { a with sync := Sync.AIRED }],
                       expectedSync := p.expectedSync - 1 },
              (if a.sync = Sync.WAIT_CROSSTIME then [Effect.notifyAudioReachedPlayback] else [])
                ++ [Effect.updatePositionMs (toU32 ((position : Int) - a.offset))]) := by
  obtain ⟨isPaused, isConnected, sequence, volume, startOffset, expectedSync, flowTrackInfo,
    index, flow, contentLength, streamers, spirc, isRunning⟩ := p
  simp only at hs hsp hes hq
  subst hs hsp hq
  have hga : ¬ ((a.sync ≠ Sync.WAIT_TIME ∨ position > 10000) ∧
      (a.sync ≠ Sync.WAIT_CROSSTIME ∨ (position : Int) < a.offset)) := by
    intro hcon
    rcases ha with ⟨h1, h2⟩ | ⟨h1, h2⟩
    · rcases hcon.1 with h | h
      · exact h h1
      · omega
    · rcases hcon.2 with h | h
      · exact h h1
      · omega
  have step1 : timeBody 1
      { player :=
          { isPaused := isPaused, isConnected := isConnected, sequence := sequence,
            volume := volume, startOffset := startOffset, expectedSync := expectedSync,
            flowTrackInfo := none, index := index, flow := flow,
            contentLength := contentLength, streamers := [b, a], spirc := true,
            isRunning := isRunning },
        position := position, out := [] } =
      some
        { player :=
            { isPaused := isPaused, isConnected := isConnected, sequence := sequence,
              volume := volume, startOffset := startOffset,
              expectedSync := expectedSync - 1,
              flowTrackInfo := none, index := index, flow := flow,
              contentLength := contentLength,
              streamers := [b, { a with sync := Sync.AIRED }], spirc := true,
              isRunning := isRunning },
          position := toU32 ((position : Int) - a.offset),
          out := (if a.sync = Sync.WAIT_CROSSTIME then [Effect.notifyAudioReachedPlayback]
                  else []) ++ [Effect.updatePositionMs (toU32 ((position : Int) - a.offset))] } := by
    unfold timeBody
    simp only [List.getElem?_cons_succ, List.getElem?_cons_zero, if_neg hga]
    by_cases hc : a.sync = Sync.WAIT_CROSSTIME <;> simp [hc]
  by_cases hb : (b.sync = Sync.WAIT_TIME ∧ toU32 ((position : Int) - a.offset) ≤ 10000) ∨
         (b.sync = Sync.WAIT_CROSSTIME ∧
           b.offset ≤ ((toU32 ((position : Int) - a.offset) : Nat) : Int))
  · have hgb : ¬ ((b.sync ≠ Sync.WAIT_TIME ∨ toU32 ((position : Int) - a.offset) > 10000) ∧
        (b.sync ≠ Sync.WAIT_CROSSTIME ∨
          ((toU32 ((position : Int) - a.offset) : Nat) : Int) < b.offset)) := by
      intro hcon
      rcases hb with ⟨h1, h2⟩ | ⟨h1, h2⟩
      · rcases hcon.1 with h | h
        · exact h h1
        · omega
      · rcases hcon.2 with h | h
        · exact h h1
        · omega
    rw [if_pos hb]
    simp only [notify, notifySwitch, Bool.true_eq_false, if_false, if_neg hes, List.length_cons,
      List.length_nil, reverseLoop, step1]
    unfold timeBody
    simp only [List.getElem?_cons_zero, if_neg hgb]
    by_cases hc : b.sync = Sync.WAIT_CROSSTIME <;> simp [hc]
  · have hgb : (b.sync ≠ Sync.WAIT_TIME ∨ toU32 ((position : Int) - a.offset) > 10000) ∧
        (b.sync ≠ Sync.WAIT_CROSSTIME ∨
          ((toU32 ((position : Int) - a.offset) : Nat) : Int) < b.offset) := by
      constructor
      · by_cases h1 : b.sync = Sync.WAIT_TIME
        · right
          by_contra h2
          exact hb (Or.inl ⟨h1, by omega⟩)
        · exact Or.inl h1
      · by_cases h1 : b.sync = Sync.WAIT_CROSSTIME
        · right
          by_contra h2
          exact hb (Or.inr ⟨h1, by omega⟩)
        · exact Or.inl h1
    rw [if_neg hb]
    simp only [notify, notifySwitch, Bool.true_eq_false, if_false, if_neg hes, List.length_cons,
      List.length_nil, reverseLoop, step1]
    unfold timeBody
    simp only [List.getElem?_cons_zero, if_pos hgb]

theorem toU32_of_range (x : Int) (h0 : 0 ≤ x) (h1 : x < 4294967296) : (toU32 x : Int) = x := by
  unfold toU32
  rw [Int.emod_eq_of_lt h0 h1]
  exact Int.toNat_of_nonneg h0

theorem toU32_emod (x : Int) : (toU32 x : Int) = x % 4294967296 := by
  unfold toU32
  exact Int.toNat_of_nonneg (Int.emod_nonneg _ (by decide))

theorem notify_track_single (p : CSpotPlayer) (s : HTTPstreamer) (url : String)
    (hs : p.streamers = [s]) (hsp : p.spirc = true) (hes : p.expectedSync ≠ 0) :
    notify p (shadowEvent.SHADOW_TRACK url) =
      if s.sync ≠ Sync.WAIT_URL ∨ s.streamUrl ≠ url then some (p, [])
      else some ({ p with streamers := [{ s with sync := Sync.WAIT_TIME }] },
                 [Effect.notifyAudioReachedPlayback]) := by
  obtain ⟨isPaused, isConnected, sequence, volume, startOffset, expectedSync, flowTrackInfo,
    index, flow, contentLength, streamers, spirc, isRunning⟩ := p
  simp only at hs hsp hes
  subst hs hsp
  simp [notify, notifySwitch, hes, reverseLoop, trackBody]
  split_ifs <;> rfl

theorem drainFront_fields {p q : CSpotPlayer} (h : drainFront p = some q) :
    q.sequence = p.sequence ∧ q.expectedSync = p.expectedSync := by
  unfold drainFront at h
  split at h
  · split at h
    · simp at h
    · simp only [Option.some.injEq] at h
      subst h
      exact ⟨rfl, rfl⟩
  · simp only [Option.some.injEq] at h
    subst h
    exact ⟨rfl, rfl⟩

theorem trackHandler_fields {p p1 : CSpotPlayer} {out : List Effect} {ti : TrackInfo}
    {url : String} (h : trackHandler p ti url = some (p1, out)) :
    p1.sequence = p.sequence ∧ p1.expectedSync = p.expectedSync + 1 := by
  unfold trackHandler at h
  cases hd : drainFront p with
  | none => simp [hd] at h
  | some q =>
    obtain ⟨hq1, hq2⟩ := drainFront_fields hd
    simp only [hd] at h
    split at h
    · simp at h
    · split at h
      · simp only [Option.some.injEq, Prod.mk.injEq] at h
        obtain ⟨h, -⟩ := h
        subst h
        exact ⟨hq1, by simp [hq2]⟩
      · split at h
        · simp at h
        · rename_i streamer rest hl
          split at h
          · simp only [Option.some.injEq, Prod.mk.injEq] at h
            obtain ⟨h, -⟩ := h
            subst h
            exact ⟨hq1, by simp [hq2]⟩
          · simp only [flowSync, hl, Option.some.injEq, Prod.mk.injEq] at h
            obtain ⟨h, -⟩ := h
            subst h
            exact ⟨hq1, by simp [hq2]⟩

theorem feedFront_ret (p : CSpotPlayer) (bytes : Nat) (accepted : Bool) :
    (feedFront p bytes accepted).2 = if p.streamers ≠ [] ∧ accepted = true then bytes else 0 := by
  unfold feedFront
  cases hs : p.streamers with
  | nil => simp
  | cons front rest => cases accepted <;> simp

/-! The claims. -/

/-- C1: in every reachable player state, a streamer that `notify` leaves in `AIRED`
and that was not `AIRED` before the event was in `WAIT_TIME` with a reported position
of at most 10000, or in `WAIT_CROSSTIME` with a reported position at or beyond its
offset (`notify` keeps each streamer at its place in the list, so the streamer before
and after is the one of the same index); in particular a `WAIT_URL` streamer is never
`AIRED` after one event.  No event of `eventHandler` (seek included) and no
`trackHandler` call makes a streamer `AIRED`: an `AIRED` streamer of the resulting
list was in the list, `AIRED`, before. -/
theorem aired_only_from_wait_time_or_crosstime (p : CSpotPlayer) (hr : Reachable p) :
    (∀ (event : shadowEvent) (p1 : CSpotPlayer) (out : List Effect),
      notify p event = some (p1, out) →
      ∀ (i : Nat) (s s1 : HTTPstreamer),
        p.streamers[i]? = some s → p1.streamers[i]? = some s1 →
        (s1.index = s.index ∧ s1.streamUrl = s.streamUrl) ∧
        (s.sync ≠ Sync.AIRED → s1.sync = Sync.AIRED →
          ∃ position, event = shadowEvent.SHADOW_TIME position ∧
            ((s.sync = Sync.WAIT_TIME ∧ position ≤ 10000) ∨
             (s.sync = Sync.WAIT_CROSSTIME ∧ s.offset ≤ (position : Int)))) ∧
        (s.sync = Sync.WAIT_URL → s1.sync ≠ Sync.AIRED)) ∧
    (∀ (event : Event) (p1 : CSpotPlayer) (out : List Effect),
      eventHandler p event = some (p1, out) →
      ∀ s1 ∈ p1.streamers, s1.sync = Sync.AIRED →
        ∃ s ∈ p.streamers, s.sync = Sync.AIRED ∧
          (s1 = s ∨ s1 = { s with state := State.DRAINING })) ∧
    (∀ (newTrackInfo : TrackInfo) (url : String) (p1 : CSpotPlayer) (out : List Effect),
      trackHandler p newTrackInfo url = some (p1, out) →
      ∀ s1 ∈ p1.streamers, s1.sync = Sync.AIRED →
        ∃ s ∈ p.streamers, s.sync = Sync.AIRED ∧
          (s1 = s ∨ s1 = { s with state := State.DRAINING })) := by
  refine ⟨?_, ?_, ?_⟩
  · intro event p1 out h i s s1 hs hs1
    have key := notify_aired_pointwise (inv_of_reachable hr) h i s s1 hs hs1
    refine ⟨key.1, key.2, ?_⟩
    intro hu ha
    obtain ⟨position, -, hc⟩ := key.2 (by rw [hu]; decide) ha
    rw [hu] at hc
    simp at hc
  · intro event p1 out h
    exact eventHandler_aired h
  · intro newTrackInfo url p1 out h
    exact trackHandler_aired h

/-- Witness of C1: the theorem at the reachable player whose only streamer, the one
of `trackA`, waits for a position report. -/
theorem aired_only_from_wait_time_or_crosstime_witness :
    Reachable (playingA false Sync.WAIT_TIME 1) ∧
    ∀ (i : Nat) (s s1 : HTTPstreamer),
      (playingA false Sync.WAIT_TIME 1).streamers[i]? = some s →
      (playingA false Sync.AIRED 0).streamers[i]? = some s1 →
      (s1.index = s.index ∧ s1.streamUrl = s.streamUrl) ∧
      (s.sync ≠ Sync.AIRED → s1.sync = Sync.AIRED →
        ∃ position, shadowEvent.SHADOW_TIME 500 = shadowEvent.SHADOW_TIME position ∧
          ((s.sync = Sync.WAIT_TIME ∧ position ≤ 10000) ∨
           (s.sync = Sync.WAIT_CROSSTIME ∧ s.offset ≤ (position : Int)))) ∧
      (s.sync = Sync.WAIT_URL → s1.sync ≠ Sync.AIRED) :=
  ⟨reachable_playingA_WAIT_TIME false,
   (aired_only_from_wait_time_or_crosstime (playingA false Sync.WAIT_TIME 1)
      (reachable_playingA_WAIT_TIME false)).1 (shadowEvent.SHADOW_TIME 500)
      (playingA false Sync.AIRED 0) [Effect.updatePositionMs 500] rfl⟩

/-- Counterexample to C2: in a reachable player the streamer of `trackB` (newer) and
the streamer of `trackA` (older) both wait for a position report, and the report 500
is compatible with both; `notify` makes both `AIRED`, the older one first: the sync
state of the older streamer is not left unchanged. -/
theorem position_report_changes_older_streamer :
    Reachable (playingBA Sync.WAIT_TIME Sync.WAIT_TIME 2) ∧
    (playingBA Sync.WAIT_TIME Sync.WAIT_TIME 2).streamers =
      [streamerB State.FRESH Sync.WAIT_TIME, streamerA State.DRAINING Sync.WAIT_TIME] ∧
    notify (playingBA Sync.WAIT_TIME Sync.WAIT_TIME 2) (shadowEvent.SHADOW_TIME 500) =
      some (playingBA Sync.AIRED Sync.AIRED 0,
            [Effect.updatePositionMs 500, Effect.updatePositionMs 500]) ∧
    (playingBA Sync.AIRED Sync.AIRED 0).streamers =
      [streamerB State.FRESH Sync.AIRED, streamerA State.DRAINING Sync.AIRED] ∧
    (streamerA State.DRAINING Sync.AIRED).sync ≠ (streamerA State.DRAINING Sync.WAIT_TIME).sync :=
  ⟨reachable_playingBA_WAIT_TIME, rfl, rfl, rfl, by decide⟩

/-- C2, amended: with a control session and a pending synchronisation, the scan of
`notify` runs from the oldest streamer (the back of the list) to the most recent and
does not stop at a compatible one.  A URL-fetch report moves every `WAIT_URL`
streamer with that URL to `WAIT_TIME`, wherever it stands.  A position report moves
the oldest streamer compatible with it (`WAIT_TIME` and position at most 10000, or
`WAIT_CROSSTIME` and position at or beyond its offset) to `AIRED` whenever a newer
streamer stands in front of it: so of two compatible streamers the older one is
changed.  With exactly two streamers `b` (newer) and `a` (older), no track queued and
`a` compatible with the report, `a` becomes `AIRED`, the position is reduced by the
offset of `a` and forwarded, and `b` becomes `AIRED` too exactly when it is
compatible with the reduced position. -/
theorem feedback_scan_oldest_first (p : CSpotPlayer) (hsp : p.spirc = true)
    (hes : p.expectedSync ≠ 0) :
    (∀ url : String, ∃ (p1 : CSpotPlayer) (out : List Effect),
      notify p (shadowEvent.SHADOW_TRACK url) = some (p1, out) ∧
      ∀ (k : Nat) (s : HTTPstreamer), p.streamers[k]? = some s →
        s.sync = Sync.WAIT_URL → s.streamUrl = url →
        p1.streamers[k]? = some { s with sync := Sync.WAIT_TIME }) ∧
    (∀ (position : Nat) (newer : List HTTPstreamer) (a : HTTPstreamer)
       (older : List HTTPstreamer),
      p.streamers = newer ++ a :: older → newer ≠ [] →
      ((a.sync = Sync.WAIT_TIME ∧ position ≤ 10000) ∨
       (a.sync = Sync.WAIT_CROSSTIME ∧ a.offset ≤ (position : Int))) →
      (∀ s ∈ older, ¬ ((s.sync = Sync.WAIT_TIME ∧ position ≤ 10000) ∨
                       (s.sync = Sync.WAIT_CROSSTIME ∧ s.offset ≤ (position : Int)))) →
      ∃ (p1 : CSpotPlayer) (out : List Effect),
        notify p (shadowEvent.SHADOW_TIME position) = some (p1, out) ∧
        p1.streamers[newer.length]? = some { a with sync := Sync.AIRED }) ∧
    (∀ (position : Nat) (b a : HTTPstreamer),
      p.streamers = [b, a] → p.flowTrackInfo = none →
      ((a.sync = Sync.WAIT_TIME ∧ position ≤ 10000) ∨
       (a.sync = Sync.WAIT_CROSSTIME ∧ a.offset ≤ (position : Int))) →
      notify p (shadowEvent.SHADOW_TIME position) =
        if (b.sync = Sync.WAIT_TIME ∧ toU32 ((position : Int) - a.offset) ≤ 10000) ∨
           (b.sync = Sync.WAIT_CROSSTIME ∧
             b.offset ≤ ((toU32 ((position : Int) - a.offset) : Nat) : Int)) then
          some ({ p with
                  streamers := [{ b with sync := Sync.AIRED }, { a with sync := Sync.AIRED }],
                  expectedSync := p.expectedSync - 1 - 1 },
                (if a.sync = Sync.WAIT_CROSSTIME then [Effect.notifyAudioReachedPlayback]
                 else [])
                  ++ [Effect.updatePositionMs (toU32 ((position : Int) - a.offset))]
                  ++ (if b.sync = Sync.WAIT_CROSSTIME then [Effect.notifyAudioReachedPlayback]
                      else [])
                  ++ [Effect.updatePositionMs
                        (toU32 (((toU32 ((position : Int) - a.offset) : Nat) : Int)
                          - b.offset))])
        else
          some ({ p with streamers := [b, { a with sync := Sync.AIRED }],
                         expectedSync := p.expectedSync - 1 },
                (if a.sync = Sync.WAIT_CROSSTIME then [Effect.notifyAudioReachedPlayback]
                 else [])
                  ++ [Effect.updatePositionMs (toU32 ((position : Int) - a.offset))])) := by
  refine ⟨?_, ?_, fun position b a hs hq ha => notify_time_pair p b a position hs hsp hes hq ha⟩
  · intro url
    obtain ⟨st1, hst, hk⟩ := trackLoop_at url p.streamers.length
      { player := p, position := 0, out := [] }
    refine ⟨st1.player, st1.out, by simp [notify, notifySwitch, hsp, hes, hst], ?_⟩
    intro k s hs hsync hurl
    have hlt : k < p.streamers.length := by
      rw [List.getElem?_eq_some_iff] at hs
      exact hs.1
    rw [hk k]
    simp [hlt, hs, hsync, hurl]
  · intro position newer a older hl hne hc hold
    have hm : 1 ≤ newer.length := by
      cases newer with
      | nil => exact absurd rfl hne
      | cons x xs => simp
    have hlen : p.streamers.length = newer.length + 1 + older.length := by
      rw [hl]
      simp
      omega
    have ha : p.streamers[newer.length]? = some a := by
      rw [hl, List.getElem?_append_right (le_refl _)]
      simp
    have hskip : reverseLoop timeBody p.streamers.length
          { player := p, position := position, out := [] } =
        reverseLoop timeBody (newer.length + 1)
          { player := p, position := position, out := [] } := by
      apply timeLoop_skip _ _ _ (by omega)
      intro k s hk1 hk2 hs
      simp only at hs
      have hmem : s ∈ older := by
        rw [hl, List.getElem?_append_right (by omega)] at hs
        have hk3 : k - newer.length = (k - newer.length - 1) + 1 := by omega
        rw [hk3, List.getElem?_cons_succ] at hs
        exact mem_of_getElem hs
      have hn := hold s hmem
      simp only
      constructor
      · by_cases h1 : s.sync = Sync.WAIT_TIME
        · right
          by_contra h2
          exact hn (Or.inl ⟨h1, by omega⟩)
        · exact Or.inl h1
      · by_cases h1 : s.sync = Sync.WAIT_CROSSTIME
        · right
          by_contra h2
          exact hn (Or.inr ⟨h1, by omega⟩)
        · exact Or.inl h1
    obtain ⟨st2, h2, ha2⟩ := timeBody_confirm newer.length
      { player := p, position := position, out := [] } a hm ha hc
    obtain ⟨st1, h1⟩ := reverseLoop_total timeBody timeBody_total newer.length st2
    have hlater := timeLoop_later newer.length st2 st1 h1 newer.length (le_refl _) hm
    have hloop : reverseLoop timeBody p.streamers.length
        { player := p, position := position, out := [] } = some st1 := by
      rw [hskip]
      simp only [reverseLoop, h2, h1]
    refine ⟨st1.player, st1.out, by simp [notify, notifySwitch, hsp, hes, hloop], ?_⟩
    rw [hlater, ha2]

/-- Witness of C2, amended: the theorem at the player of the counterexample: the
older streamer, at index 1, is `AIRED` after the report 500. -/
theorem feedback_scan_oldest_first_witness :
    (playingBA Sync.WAIT_TIME Sync.WAIT_TIME 2).spirc = true ∧
    (playingBA Sync.WAIT_TIME Sync.WAIT_TIME 2).expectedSync ≠ 0 ∧
    ∃ (p1 : CSpotPlayer) (out : List Effect),
      notify (playingBA Sync.WAIT_TIME Sync.WAIT_TIME 2) (shadowEvent.SHADOW_TIME 500) =
        some (p1, out) ∧
      p1.streamers[1]? = some (streamerA State.DRAINING Sync.AIRED) :=
  ⟨rfl, by decide,
   (feedback_scan_oldest_first (playingBA Sync.WAIT_TIME Sync.WAIT_TIME 2) rfl (by decide)).2.1
     500 [streamerB State.FRESH Sync.WAIT_TIME] (streamerA State.DRAINING Sync.WAIT_TIME) []
     rfl (by simp) (Or.inl ⟨rfl, by decide⟩) (by simp)⟩

/-- C3: in a reachable flow-mode player whose only streamer is `AIRED` with offset `o`
and track duration `d`, and whose pending-sync counter is not negative, `trackHandler`
creates nothing, sets the streamer's offset to `o + d`, its track to the new one and
its sync state to `WAIT_CROSSTIME`; a following position report below `o + d` changes
nothing and sends nothing; a following position report at or beyond `o + d` sets the
sync state to `AIRED` and sends `notifyAudioReachedPlayback` and then
`updatePositionMs` with the report minus `o + d` as a `uint32_t` (that difference
itself whenever it is below `2^32`). -/
theorem flow_crossing (p : CSpotPlayer) (s : HTTPstreamer) (o : Int) (d : Nat)
    (newTrackInfo : TrackInfo) (url : String)
    (hr : Reachable p) (hflow : p.flow = true) (hs : p.streamers = [s])
    (hsync : s.sync = Sync.AIRED) (ho : s.offset = o) (hd : s.trackInfo.duration = d)
    (hes : 0 ≤ p.expectedSync) :
    ∃ p1 : CSpotPlayer,
      trackHandler p newTrackInfo url = some (p1, []) ∧
      p1.streamers = [{ s with offset := o + d, trackInfo := newTrackInfo,
                               sync := Sync.WAIT_CROSSTIME }] ∧
      (∀ position : Nat, (position : Int) < o + d →
        notify p1 (shadowEvent.SHADOW_TIME position) = some (p1, [])) ∧
      (∀ position : Nat, o + d ≤ (position : Int) →
        ∃ (p2 : CSpotPlayer) (forwarded : Nat),
          notify p1 (shadowEvent.SHADOW_TIME position) =
            some (p2, [Effect.notifyAudioReachedPlayback, Effect.updatePositionMs forwarded]) ∧
          p2.streamers = [{ s with offset := o + d, trackInfo := newTrackInfo,
                                   sync := Sync.AIRED }] ∧
          (forwarded : Int) = ((position : Int) - (o + d)) % 4294967296 ∧
          ((position : Int) - (o + d) < 4294967296 →
            (forwarded : Int) = (position : Int) - (o + d))) := by
  obtain ⟨-, -, h3, h4⟩ := inv_of_reachable hr
  have hsp : p.spirc = true := h3 (by rw [hs]; simp)
  have hq : p.flowTrackInfo = none := by
    by_contra hq
    exact h4 hq s (by rw [hs]; simp) hsync
  have hne : p.expectedSync + 1 ≠ 0 := by omega
  obtain ⟨isPaused, isConnected, sequence, volume, startOffset, expectedSync, flowTrackInfo,
    index, flow, contentLength, streamers, spirc, isRunning⟩ := p
  simp only at hflow hs hsp hq hne hes
  subst hflow hs hsp hq ho hd
  refine ⟨{ isPaused := isPaused, isConnected := isConnected, sequence := sequence,
             volume := volume, startOffset := startOffset, expectedSync := expectedSync + 1,
             flowTrackInfo := none, index := index, flow := true,
             contentLength := contentLength,
             streamers := [{ s with offset := s.offset + (s.trackInfo.duration : Int),
                                    trackInfo := newTrackInfo, sync := Sync.WAIT_CROSSTIME }],
             spirc := true, isRunning := isRunning }, ?_, rfl, ?_, ?_⟩
  · simp [trackHandler, drainFront, hsync, flowSync]
  · intro position hpos
    rw [notify_time_single _ _ position rfl rfl hne]
    simp [hpos]
  · intro position hpos
    rw [notify_time_single _ _ position rfl rfl hne]
    have hnot : ¬ ((position : Int) < s.offset + (s.trackInfo.duration : Int)) := by omega
    refine ⟨{ isPaused := isPaused, isConnected := isConnected, sequence := sequence,
               volume := volume, startOffset := startOffset,
               expectedSync := expectedSync + 1 - 1,
               flowTrackInfo := none, index := index, flow := true,
               contentLength := contentLength,
               streamers := [{ s with offset := s.offset + (s.trackInfo.duration : Int),
                                      trackInfo := newTrackInfo, sync := Sync.AIRED }],
               spirc := true, isRunning := isRunning },
      toU32 ((position : Int) - (s.offset + (s.trackInfo.duration : Int))), ?_, rfl,
      toU32_emod _, ?_⟩
    · simp [hnot]
    · intro hlt
      exact toU32_of_range _ (by omega) hlt

/-- Witness of C3 (Scenario 2): the theorem at the flow-mode player whose streamer of
`trackA` (offset 0, duration 180000) is aired; the report 179000 is ignored and the
report 180500 forwards 500. -/
theorem flow_crossing_witness :
    Reachable (playingA true Sync.AIRED 0) ∧
    (playingA true Sync.AIRED 0).streamers = [streamerA State.FRESH Sync.AIRED] ∧
    (0 : Int) ≤ (playingA true Sync.AIRED 0).expectedSync ∧
    ∃ p1 : CSpotPlayer,
      trackHandler (playingA true Sync.AIRED 0) trackB "uB" = some (p1, []) ∧
      p1.streamers = [{ streamerA State.FRESH Sync.AIRED with
        offset := 180000, trackInfo := trackB, sync := Sync.WAIT_CROSSTIME }] ∧
      notify p1 (shadowEvent.SHADOW_TIME 179000) = some (p1, []) ∧
      ∃ p2 : CSpotPlayer,
        notify p1 (shadowEvent.SHADOW_TIME 180500) =
          some (p2, [Effect.notifyAudioReachedPlayback, Effect.updatePositionMs 500]) ∧
        p2.streamers = [{ streamerA State.FRESH Sync.AIRED with
          offset := 180000, trackInfo := trackB, sync := Sync.AIRED }] := by
  obtain ⟨p1, h1, h2, h3, h4⟩ := flow_crossing (playingA true Sync.AIRED 0)
    (streamerA State.FRESH Sync.AIRED) 0 180000 trackB "uB" (reachable_playingA_AIRED true)
    rfl rfl rfl rfl rfl (by decide)
  obtain ⟨p2, forwarded, h5, h6, -, h7⟩ := h4 180500 (by decide)
  have h8 : forwarded = 500 := by
    have := h7 (by decide)
    omega
  subst h8
  exact ⟨reachable_playingA_AIRED true, rfl, by decide, p1, h1, h2, h3 179000 (by decide),
    p2, h5, h6⟩

/-- C4: in a reachable player whose only streamer is `AIRED`, `SEEK(position)` with
`0 <= position` (an `int`) sets `expectedSync` to 1, the streamer's offset to
`-position` and its sync state to `WAIT_TIME`; the next position report, if at most
10000, sets it to `AIRED` and sends `updatePositionMs` with the report plus
`position`, and nothing else. -/
theorem seek_resynchronisation (p : CSpotPlayer) (a : HTTPstreamer) (position : Int)
    (report : Nat) (hr : Reachable p) (hs : p.streamers = [a]) (ha : a.sync = Sync.AIRED)
    (h0 : 0 ≤ position) (h1 : position < 2147483648) (hrep : report ≤ 10000) :
    ∃ (p1 : CSpotPlayer) (out : List Effect),
      eventHandler p (Event.SEEK position) = some (p1, out) ∧
      p1.expectedSync = 1 ∧
      p1.streamers = [{ a with offset := -position, sync := Sync.WAIT_TIME }] ∧
      ∃ (p2 : CSpotPlayer) (forwarded : Nat),
        notify p1 (shadowEvent.SHADOW_TIME report) =
          some (p2, [Effect.updatePositionMs forwarded]) ∧
        p2.streamers = [{ a with offset := -position, sync := Sync.AIRED }] ∧
        (forwarded : Int) = (report : Int) + position := by
  obtain ⟨-, -, h3, h4⟩ := inv_of_reachable hr
  have hsp : p.spirc = true := h3 (by rw [hs]; simp)
  have hq : p.flowTrackInfo = none := by
    by_contra hq
    exact h4 hq a (by rw [hs]; simp) ha
  obtain ⟨isPaused, isConnected, sequence, volume, startOffset, expectedSync, flowTrackInfo,
    index, flow, contentLength, streamers, spirc, isRunning⟩ := p
  simp only at hs hsp hq
  subst hs hsp hq
  refine ⟨{ isPaused := isPaused, isConnected := isConnected, sequence := sequence,
             volume := volume, startOffset := startOffset, expectedSync := 1,
             flowTrackInfo := none, index := index, flow := flow,
             contentLength := contentLength,
             streamers := [{ a with offset := -position, sync := Sync.WAIT_TIME }],
             spirc := true, isRunning := isRunning },
    [Effect.flush a.index, Effect.SPOT_STOP, Effect.setContentLength a.index contentLength,
     Effect.SPOT_LOAD a.streamUrl
       (if flow = true then 0 else (a.trackInfo.duration : Int) + -position) (- -position)]
      ++ (if isPaused = true then [] else [Effect.SPOT_PLAY]), ?_, rfl, rfl, ?_⟩
  · simp [eventHandler, seek, ha, Sync.toNat]
  · rw [notify_time_single _ _ report rfl rfl (by simp)]
    refine ⟨{ isPaused := isPaused, isConnected := isConnected, sequence := sequence,
               volume := volume, startOffset := startOffset, expectedSync := 1 - 1,
               flowTrackInfo := none, index := index, flow := flow,
               contentLength := contentLength,
               streamers := [{ a with offset := -position, sync := Sync.AIRED }],
               spirc := true, isRunning := isRunning }, toU32 ((report : Int) - -position), ?_, rfl, ?_⟩
    · simp
      omega
    · rw [toU32_of_range _ (by omega) (by omega)]
      omega

/-- Witness of C4 (Scenario 3): the theorem at the player whose streamer of `trackA`
is aired, for a seek to 30000 followed by the report 200, which forwards 30200. -/
theorem seek_resynchronisation_witness :
    Reachable (playingA false Sync.AIRED 0) ∧
    (playingA false Sync.AIRED 0).streamers = [streamerA State.FRESH Sync.AIRED] ∧
    ∃ (p1 : CSpotPlayer) (out : List Effect),
      eventHandler (playingA false Sync.AIRED 0) (Event.SEEK 30000) = some (p1, out) ∧
      p1.expectedSync = 1 ∧
      p1.streamers = [{ streamerA State.FRESH Sync.AIRED with
        offset := -30000, sync := Sync.WAIT_TIME }] ∧
      ∃ p2 : CSpotPlayer,
        notify p1 (shadowEvent.SHADOW_TIME 200) = some (p2, [Effect.updatePositionMs 30200]) ∧
        p2.streamers = [{ streamerA State.FRESH Sync.AIRED with
          offset := -30000, sync := Sync.AIRED }] := by
  obtain ⟨p1, out, h1, h2, h3, p2, forwarded, h4, h5, h6⟩ :=
    seek_resynchronisation (playingA false Sync.AIRED 0) (streamerA State.FRESH Sync.AIRED)
      30000 200 (reachable_playingA_AIRED false) rfl rfl (by decide) (by decide) (by decide)
  have h7 : forwarded = 30200 := by omega
  subst h7
  exact ⟨reachable_playingA_AIRED false, rfl, p1, out, h1, h2, h3, p2, h4, h5⟩

/-- C5: in a reachable player with a control session, outside flow mode, with an
empty streamer list and `expectedSync = 0`, `trackHandler` leaves exactly one
streamer, in `WAIT_URL`, at the URL given to it and with offset `-startOffset`; a
URL-fetch report with that URL moves it to `WAIT_TIME` (and acknowledges
audio-reached-playback); a following position report of at most 10000 moves it to
`AIRED` and sends `updatePositionMs` with the report minus the offset as a
`uint32_t` (that difference itself whenever it lies in `[0, 2^32)`), and nothing
else. -/
theorem nonflow_first_track (p : CSpotPlayer) (newTrackInfo : TrackInfo) (url : String)
    (report : Nat) (hr : Reachable p) (hsp : p.spirc = true) (hs : p.streamers = [])
    (hflow : p.flow = false) (hes : p.expectedSync = 0) (hrep : report ≤ 10000) :
    ∃ (p1 : CSpotPlayer) (out : List Effect) (s : HTTPstreamer),
      trackHandler p newTrackInfo url = some (p1, out) ∧
      p1.streamers = [s] ∧ s.sync = Sync.WAIT_URL ∧ s.streamUrl = url ∧
      s.offset = -p.startOffset ∧
      ∃ p2 : CSpotPlayer,
        notify p1 (shadowEvent.SHADOW_TRACK url) =
          some (p2, [Effect.notifyAudioReachedPlayback]) ∧
        p2.streamers = [{ s with sync := Sync.WAIT_TIME }] ∧
        ∃ (p3 : CSpotPlayer) (forwarded : Nat),
          notify p2 (shadowEvent.SHADOW_TIME report) =
            some (p3, [Effect.updatePositionMs forwarded]) ∧
          p3.streamers = [{ s with sync := Sync.AIRED }] ∧
          (forwarded : Int) = ((report : Int) - s.offset) % 4294967296 ∧
          (0 ≤ (report : Int) - s.offset → (report : Int) - s.offset < 4294967296 →
            (forwarded : Int) = (report : Int) - s.offset) := by
  obtain ⟨-, h2, -, -⟩ := inv_of_reachable hr
  have hq : p.flowTrackInfo = none := (h2 hflow).1
  obtain ⟨isPaused, isConnected, sequence, volume, startOffset, expectedSync, flowTrackInfo,
    index, flow, contentLength, streamers, spirc, isRunning⟩ := p
  simp only at hs hsp hq hflow hes
  subst hs hsp hq hflow hes
  refine ⟨{ isPaused := isPaused, isConnected := isConnected, sequence := sequence,
             volume := volume, startOffset := startOffset, expectedSync := 0 + 1,
             flowTrackInfo := none, index := (index + 1) % 4294967296, flow := false,
             contentLength := contentLength,
             streamers := [HTTPstreamer.create url index newTrackInfo (-startOffset)],
             spirc := true, isRunning := isRunning },
    [Effect.SPOT_LOAD url ((newTrackInfo.duration : Int) + -startOffset)
        (toU32 (- -startOffset))]
      ++ (if isPaused = true then [] else [Effect.SPOT_PLAY]) ++ [Effect.startTask index],
    HTTPstreamer.create url index newTrackInfo (-startOffset), ?_, rfl, rfl, rfl, rfl, ?_⟩
  · simp [trackHandler, drainFront, HTTPstreamer.create]
  · rw [notify_track_single _ _ url rfl rfl (by simp)]
    refine ⟨{ isPaused := isPaused, isConnected := isConnected, sequence := sequence,
               volume := volume, startOffset := startOffset, expectedSync := 0 + 1,
               flowTrackInfo := none, index := (index + 1) % 4294967296, flow := false,
               contentLength := contentLength,
               streamers := [{ HTTPstreamer.create url index newTrackInfo (-startOffset) with
                               sync := Sync.WAIT_TIME }],
               spirc := true, isRunning := isRunning }, ?_, rfl, ?_⟩
    · simp [HTTPstreamer.create]
    · rw [notify_time_single _ _ report rfl rfl (by simp)]
      refine ⟨{ isPaused := isPaused, isConnected := isConnected, sequence := sequence,
                 volume := volume, startOffset := startOffset, expectedSync := 0 + 1 - 1,
                 flowTrackInfo := none, index := (index + 1) % 4294967296, flow := false,
                 contentLength := contentLength,
                 streamers := [{ HTTPstreamer.create url index newTrackInfo (-startOffset) with
                                 sync := Sync.AIRED }],
                 spirc := true, isRunning := isRunning },
        toU32 ((report : Int) - (HTTPstreamer.create url index newTrackInfo (-startOffset)).offset),
        ?_, rfl, toU32_emod _, ?_⟩
      · simp [HTTPstreamer.create]
        omega
      · intro h0 h1
        exact toU32_of_range _ h0 h1

/-- Witness of C5 (Scenario 1): the theorem at the started player, for `trackA` at
the URL `"uA"` and the report 500, which is forwarded as 500 (the offset is 0). -/
theorem nonflow_first_track_witness :
    Reachable (started false) ∧ (started false).spirc = true ∧
    (started false).streamers = [] ∧ (started false).flow = false ∧
    (started false).expectedSync = 0 ∧
    ∃ (p1 : CSpotPlayer) (out : List Effect) (s : HTTPstreamer),
      trackHandler (started false) trackA "uA" = some (p1, out) ∧
      p1.streamers = [s] ∧ s.sync = Sync.WAIT_URL ∧ s.streamUrl = "uA" ∧ s.offset = 0 ∧
      ∃ p2 : CSpotPlayer,
        notify p1 (shadowEvent.SHADOW_TRACK "uA") =
          some (p2, [Effect.notifyAudioReachedPlayback]) ∧
        p2.streamers = [{ s with sync := Sync.WAIT_TIME }] ∧
        ∃ p3 : CSpotPlayer,
          notify p2 (shadowEvent.SHADOW_TIME 500) = some (p3, [Effect.updatePositionMs 500]) ∧
          p3.streamers = [{ s with sync := Sync.AIRED }] := by
  obtain ⟨p1, out, s, h1, h2, h3, h4, h5, p2, h6, h7, p3, forwarded, h8, h9, -, h10⟩ :=
    nonflow_first_track (started false) trackA "uA" 500 (reachable_started false)
      rfl rfl rfl rfl (by decide)
  have h5a : s.offset = 0 := by
    rw [h5]
    rfl
  have h11 : forwarded = 500 := by
    have := h10 (by rw [h5a]; decide) (by rw [h5a]; decide)
    rw [h5a] at this
    omega
  subst h11
  exact ⟨reachable_started false, rfl, rfl, rfl, rfl, p1, out, s, h1, h2, h3, h4, h5a,
    p2, h6, h7, p3, h8, h9⟩

/-- C6: in a reachable player state whose streamer list is not empty,
`notify(SHADOW_STOP)` with a `DRAINED` front streamer calls `setPause(true)` and
nothing else, leaving the player (its list and `isConnected`) as it was; with a front
streamer that is `FRESH` or `DRAINING` it disconnects: `SPOT_STOP` goes to the
renderer, every streamer is torn down, `isConnected` becomes false, the list becomes
empty, and `setPause` is not called. -/
theorem notify_SHADOW_STOP (p : CSpotPlayer) (front : HTTPstreamer) (rest : List HTTPstreamer)
    (hr : Reachable p) (hs : p.streamers = front :: rest) :
    (front.state = State.DRAINED →
      notify p shadowEvent.SHADOW_STOP = some (p, [Effect.setPause true])) ∧
    (front.state = State.FRESH ∨ front.state = State.DRAINING →
      ∃ (p1 : CSpotPlayer) (out : List Effect),
        notify p shadowEvent.SHADOW_STOP = some (p1, out) ∧
        p1 = { p with isConnected := false, streamers := [] } ∧
        out = Effect.SPOT_STOP :: (front :: rest).map (fun s => Effect.teardown s.index) ∧
        ∀ paused, Effect.setPause paused ∉ out) := by
  have hsp : p.spirc = true := (inv_of_reachable hr).2.2.1 (by rw [hs]; simp)
  constructor
  · intro hd
    simp [notify, notifySwitch, hsp, hs, hd]
  · intro hd
    have hnd : front.state ≠ State.DRAINED := by
      rcases hd with h | h <;> rw [h] <;> decide
    refine ⟨_, _, ?_, rfl, rfl, ?_⟩
    · simp [notify, notifySwitch, hsp, hs, hnd, disconnect]
    · intro paused
      simp

/-- Witness of C6: the theorem at the reachable player whose only streamer is the
fresh one of `trackA`. -/
theorem notify_SHADOW_STOP_witness :
    Reachable (playingA false Sync.WAIT_TIME 1) ∧
    (playingA false Sync.WAIT_TIME 1).streamers = [streamerA State.FRESH Sync.WAIT_TIME] ∧
    ∃ (p1 : CSpotPlayer) (out : List Effect),
      notify (playingA false Sync.WAIT_TIME 1) shadowEvent.SHADOW_STOP = some (p1, out) ∧
      p1 = { playingA false Sync.WAIT_TIME 1 with isConnected := false, streamers := [] } ∧
      out = Effect.SPOT_STOP ::
        [streamerA State.FRESH Sync.WAIT_TIME].map (fun s => Effect.teardown s.index) ∧
      ∀ paused, Effect.setPause paused ∉ out :=
  ⟨reachable_playingA_WAIT_TIME false, rfl,
   (notify_SHADOW_STOP (playingA false Sync.WAIT_TIME 1) (streamerA State.FRESH Sync.WAIT_TIME) []
      (reachable_playingA_WAIT_TIME false) rfl).2 (Or.inl rfl)⟩

/-- C7: a `writePCM` call whose sequence number equals the stored one does not run
`trackHandler`: it returns, leaves the player unchanged and only feeds the front
streamer.  A call whose number differs stores the number and runs `trackHandler`
once, on the player with the new number: it returns exactly when `trackHandler`
does, with the state and the calls of `trackHandler` (which raises `expectedSync` by
one), followed by the feeding of the front streamer.  After a call that returned,
the stored number is the call's; a second call with the same number leaves the
player, so its streamer list, unchanged and feeds the same front streamer.  The
value returned is the byte count if the list is not empty and the front streamer
accepted the frames, and 0 otherwise. -/
theorem writePCM_sequence (p : CSpotPlayer) (bytes sequence : Nat) (newTrackInfo : TrackInfo)
    (url : String) (accepted : Bool) :
    (sequence = p.sequence →
      writePCM p bytes sequence newTrackInfo url accepted =
        some (p, (feedFront p bytes accepted).1, (feedFront p bytes accepted).2)) ∧
    (sequence ≠ p.sequence →
      (trackHandler { p with sequence := sequence } newTrackInfo url = none →
        writePCM p bytes sequence newTrackInfo url accepted = none) ∧
      ∀ (p1 : CSpotPlayer) (out : List Effect),
        trackHandler { p with sequence := sequence } newTrackInfo url = some (p1, out) →
        writePCM p bytes sequence newTrackInfo url accepted =
          some (p1, out ++ (feedFront p1 bytes accepted).1, (feedFront p1 bytes accepted).2) ∧
        p1.expectedSync = p.expectedSync + 1) ∧
    (∀ (p1 : CSpotPlayer) (out : List Effect) (ret : Nat),
      writePCM p bytes sequence newTrackInfo url accepted = some (p1, out, ret) →
      p1.sequence = sequence ∧
      ret = (if p1.streamers ≠ [] ∧ accepted = true then bytes else 0) ∧
      (ret = bytes ∨ ret = 0) ∧
      ∀ (bytes2 : Nat) (newTrackInfo2 : TrackInfo) (url2 : String) (accepted2 : Bool),
        writePCM p1 bytes2 sequence newTrackInfo2 url2 accepted2 =
          some (p1, (feedFront p1 bytes2 accepted2).1, (feedFront p1 bytes2 accepted2).2)) := by
  have same : ∀ (q : CSpotPlayer) (b : Nat) (ti : TrackInfo) (u : String) (acc : Bool),
      sequence = q.sequence →
      writePCM q b sequence ti u acc = some (q, (feedFront q b acc).1, (feedFront q b acc).2) := by
    intro q b ti u acc he
    simp [writePCM, he]
  refine ⟨same p bytes newTrackInfo url accepted, ?_, ?_⟩
  · intro hne
    have hne1 : p.sequence ≠ sequence := fun e => hne e.symm
    constructor
    · intro hn
      simp [writePCM, hne1, hn]
    · intro p1 out h
      exact ⟨by simp [writePCM, hne1, h], (trackHandler_fields h).2⟩
  · intro p1 out ret h
    have hseq : p1.sequence = sequence ∧ ret = (feedFront p1 bytes accepted).2 := by
      unfold writePCM at h
      simp only at h
      split at h
      · simp at h
      · rename_i q o hq
        simp only [Option.some.injEq, Prod.mk.injEq] at h
        obtain ⟨h1, -, h3⟩ := h
        subst h1
        refine ⟨?_, h3.symm⟩
        split at hq
        · exact (trackHandler_fields hq).1
        · rename_i he
          simp only [Option.some.injEq, Prod.mk.injEq] at hq
          rw [← hq.1]
          simpa using he
    have hret := hseq.2.trans (feedFront_ret p1 bytes accepted)
    refine ⟨hseq.1, hret, ?_, ?_⟩
    · rw [hret]
      split
      · exact Or.inl rfl
      · exact Or.inr rfl
    · intro bytes2 ti2 url2 accepted2
      exact same p1 bytes2 ti2 url2 accepted2 hseq.1.symm

/-- Witness of C7 (Scenario 5): at the started player (stored number 0), a first call
with the number 1 runs `trackHandler`, which creates the streamer of `trackA`, and a
second call with the number 1 leaves the player unchanged and feeds that streamer. -/
theorem writePCM_sequence_witness :
    writePCM (started false) 4096 1 trackA "uA" true =
      some ({ playingA false Sync.WAIT_URL 1 with sequence := 1 },
            [Effect.SPOT_LOAD "uA" 180000 0, Effect.SPOT_PLAY, Effect.startTask 0,
             Effect.feedPCMFrames 0 4096], 4096) ∧
    writePCM { playingA false Sync.WAIT_URL 1 with sequence := 1 } 4096 1 trackB "uB" true =
      some ({ playingA false Sync.WAIT_URL 1 with sequence := 1 },
            [Effect.feedPCMFrames 0 4096], 4096) :=
  ⟨((writePCM_sequence (started false) 4096 1 trackA "uA" true).2.1 (by decide)).2
      { playingA false Sync.WAIT_URL 1 with sequence := 1 }
      [Effect.SPOT_LOAD "uA" 180000 0, Effect.SPOT_PLAY, Effect.startTask 0] rfl |>.1,
   (writePCM_sequence { playingA false Sync.WAIT_URL 1 with sequence := 1 }
      4096 1 trackB "uB" true).1 rfl⟩

/-- C8: with `expectedSync = 0` a position report and a URL-fetch report are both
ignored by `notify`: the player (every streamer, `expectedSync`) is unchanged and
nothing is sent to the control session or to the renderer.  So a report that changes
the player or sends something finds a counter other than 0, that is above 0 for a
counter that is not negative. -/
theorem notify_ignored_without_pending_sync (p : CSpotPlayer) (position : Nat) (url : String) :
    (p.expectedSync = 0 →
      notify p (shadowEvent.SHADOW_TIME position) = some (p, []) ∧
      notify p (shadowEvent.SHADOW_TRACK url) = some (p, [])) ∧
    (0 ≤ p.expectedSync →
      (notify p (shadowEvent.SHADOW_TIME position) ≠ some (p, []) → 0 < p.expectedSync) ∧
      (notify p (shadowEvent.SHADOW_TRACK url) ≠ some (p, []) → 0 < p.expectedSync)) := by
  have key : p.expectedSync = 0 →
      notify p (shadowEvent.SHADOW_TIME position) = some (p, []) ∧
      notify p (shadowEvent.SHADOW_TRACK url) = some (p, []) := by
    intro h
    constructor <;> simp [notify, notifySwitch, h]
  refine ⟨key, fun h0 => ⟨fun hn => ?_, fun hn => ?_⟩⟩
  · by_contra hc
    exact hn (key (by omega)).1
  · by_contra hc
    exact hn (key (by omega)).2

/-- Witness of C8: the theorem at the player whose streamer is aired and that awaits
no confirmation. -/
theorem notify_ignored_without_pending_sync_witness :
    (playingA false Sync.AIRED 0).expectedSync = 0 ∧
    notify (playingA false Sync.AIRED 0) (shadowEvent.SHADOW_TIME 700) =
      some (playingA false Sync.AIRED 0, []) ∧
    notify (playingA false Sync.AIRED 0) (shadowEvent.SHADOW_TRACK "uA") =
      some (playingA false Sync.AIRED 0, []) :=
  ⟨rfl, (notify_ignored_without_pending_sync (playingA false Sync.AIRED 0) 700 "uA").1 rfl⟩

/-- C10: with a control session, `PLAYBACK_START(position)` sends `SPOT_STOP` to the
renderer and then `setRemoteVolume(volume)` with the remembered volume, sets
`startOffset` to `position` and `expectedSync` to 0, clears `flowTrackInfo` and the
streamer list, and leaves the paused flag, the volume and the sequence number as
they were. -/
theorem eventHandler_PLAYBACK_START (p : CSpotPlayer) (position : Int) (h : p.spirc = true) :
    ∃ p1 : CSpotPlayer,
      eventHandler p (Event.PLAYBACK_START position) =
        some (p1, [Effect.SPOT_STOP, Effect.setRemoteVolume p.volume]) ∧
      p1.startOffset = position ∧ p1.expectedSync = 0 ∧ p1.flowTrackInfo = none ∧
      p1.streamers = [] ∧
      p1.isPaused = p.isPaused ∧ p1.volume = p.volume ∧ p1.sequence = p.sequence := by
  refine ⟨{ p with startOffset := position, expectedSync := 0, flowTrackInfo := none,
                   streamers := [] }, ?_, rfl, rfl, rfl, rfl, rfl, rfl, rfl⟩
  simp [eventHandler, h]

/-- Witness of C10: the theorem at the player that is playing `trackB` and `trackA`. -/
theorem eventHandler_PLAYBACK_START_witness :
    (playingBA Sync.WAIT_TIME Sync.WAIT_TIME 2).spirc = true ∧
    ∃ p1 : CSpotPlayer,
      eventHandler (playingBA Sync.WAIT_TIME Sync.WAIT_TIME 2) (Event.PLAYBACK_START 30000) =
        some (p1, [Effect.SPOT_STOP,
          Effect.setRemoteVolume (playingBA Sync.WAIT_TIME Sync.WAIT_TIME 2).volume]) ∧
      p1.startOffset = 30000 ∧ p1.expectedSync = 0 ∧ p1.flowTrackInfo = none ∧
      p1.streamers = [] ∧
      p1.isPaused = (playingBA Sync.WAIT_TIME Sync.WAIT_TIME 2).isPaused ∧
      p1.volume = (playingBA Sync.WAIT_TIME Sync.WAIT_TIME 2).volume ∧
      p1.sequence = (playingBA Sync.WAIT_TIME Sync.WAIT_TIME 2).sequence :=
  ⟨rfl, eventHandler_PLAYBACK_START (playingBA Sync.WAIT_TIME Sync.WAIT_TIME 2) 30000 rfl⟩

/-! What `trackHandler` and `SEEK` do to the streamer list. -/

theorem drainFront_eq {p q : CSpotPlayer} (h : drainFront p = some q) :
    q = { p with streamers := q.streamers } ∧
    (p.streamers = [] ∨ p.flow = true → q.streamers = p.streamers) ∧
    (p.streamers ≠ [] → p.flow = false →
      ∃ front rest, eraseDrained p.streamers = front :: rest ∧
        q.streamers = { front with state := State.DRAINING } :: rest) := by
  unfold drainFront at h
  split at h
  · rename_i hc
    split at h
    · simp at h
    · rename_i front rest he
      simp only [Option.some.injEq] at h
      subst h
      refine ⟨rfl, ?_, ?_⟩
      · intro hx
        rcases hx with hx | hx
        · exact absurd hx hc.1
        · rw [hc.2] at hx
          simp at hx
      · intro _ _
        exact ⟨front, rest, he, rfl⟩
  · rename_i hc
    simp only [Option.some.injEq] at h
    subst h
    refine ⟨rfl, fun _ => rfl, ?_⟩
    intro h1 h2
    exact absurd ⟨h1, h2⟩ hc

theorem drainFront_of_kept {p : CSpotPlayer} {front : HTTPstreamer} {rest : List HTTPstreamer}
    (hflow : p.flow = false) (hk : eraseDrained p.streamers = front :: rest) :
    drainFront p =
      some { p with streamers := { front with state := State.DRAINING } :: rest } := by
  have hne : p.streamers ≠ [] := by
    intro hn
    rw [hn] at hk
    simp [eraseDrained] at hk
  unfold drainFront
  rw [if_pos ⟨hne, hflow⟩, hk]

theorem eraseDrained_ne_nil {l : List HTTPstreamer}
    (h : ∃ s ∈ l, s.state ≠ State.DRAINED) : eraseDrained l ≠ [] := by
  obtain ⟨s, hs, hsd⟩ := h
  intro hn
  have : s ∈ eraseDrained l := by
    unfold eraseDrained
    rw [List.mem_filter]
    exact ⟨hs, by simpa using hsd⟩
  rw [hn] at this
  simp at this

theorem drainFront_some (p : CSpotPlayer)
    (hnd : p.streamers = [] ∨ ∃ s ∈ p.streamers, s.state ≠ State.DRAINED) :
    ∃ q, drainFront p = some q := by
  unfold drainFront
  split
  · rename_i hc
    rcases hnd with h | h
    · exact absurd h hc.1
    · have hne := eraseDrained_ne_nil h
      cases hk : eraseDrained p.streamers with
      | nil => exact absurd hk hne
      | cons front rest => exact ⟨_, rfl⟩
  · exact ⟨p, rfl⟩

theorem trackHandler_create {p q : CSpotPlayer} (newTrackInfo : TrackInfo) (url : String)
    (hd : drainFront p = some q) (hsp : p.spirc = true)
    (hc : p.streamers = [] ∨ p.flow = false) :
    trackHandler p newTrackInfo url =
      some ({ p with
              index := (p.index + 1) % 4294967296,
              streamers := HTTPstreamer.create url p.index newTrackInfo
                (if p.streamers = [] then -p.startOffset else 0) :: q.streamers,
              expectedSync := p.expectedSync + 1 },
            [Effect.SPOT_LOAD url
              (if p.flow then 0 else (newTrackInfo.duration : Int)
                + (if p.streamers = [] then -p.startOffset else 0))
              (toU32 (-(if p.streamers = [] then -p.startOffset else 0)))]
            ++ (if p.isPaused then [] else [Effect.SPOT_PLAY])
            ++ [Effect.startTask p.index]) := by
  obtain ⟨hq, hsame, hdr⟩ := drainFront_eq hd
  have hempty : q.streamers = [] ↔ p.streamers = [] := by
    constructor
    · intro hn
      by_contra hne
      rcases hc with h | h
      · exact hne h
      · obtain ⟨front, rest, -, e⟩ := hdr hne h
        rw [e] at hn
        simp at hn
    · intro hn
      rw [hsame (Or.inl hn)]
      exact hn
  have hc1 : q.streamers = [] ∨ q.flow = false := by
    rcases hc with h | h
    · exact Or.inl (hempty.2 h)
    · right
      rw [hq]
      exact h
  have hsp1 : q.spirc = true := by
    rw [hq]
    exact hsp
  unfold trackHandler
  simp only [hd, hsp1, Bool.true_eq_false, if_false, if_pos hc1]
  rw [hq]
  simp only [HTTPstreamer.create]
  by_cases he : p.streamers = []
  · have he1 : q.streamers = [] := hempty.2 he
    simp [he, he1, hsp]
  · have he1 : ¬ q.streamers = [] := fun h => he (hempty.1 h)
    simp [he, he1, hsp]

/-! The claims on the streamer list: track change, seek, depletion, metadata. -/

theorem reachable_airedBA (stateB stateA : State) : Reachable (airedBA stateB stateA) := by
  have h1 : Reachable (playingBA Sync.AIRED Sync.AIRED 0) :=
    reachable_notify (shadowEvent.SHADOW_TIME 500)
      [Effect.updatePositionMs 500, Effect.updatePositionMs 500]
      reachable_playingBA_WAIT_TIME rfl
  obtain ⟨p0, h01, h02, hr⟩ := h1
  refine ⟨p0, h01, h02, ?_⟩
  have h2 := ReachableFrom.setState 1 stateA (ReachableFrom.setState 0 stateB hr)
  have e : setState (setState (playingBA Sync.AIRED Sync.AIRED 0) 0 stateB) 1 stateA =
      airedBA stateB stateA := by
    cases stateB <;> cases stateA <;> rfl
  rw [e] at h2
  exact h2

/-- Counterexample to C11: outside flow mode, with the streamer of `trackB` at the
front and `DRAINED` and the streamer of `trackA` behind it and `FRESH`, `trackHandler`
erases the front streamer without marking it and marks the streamer of `trackA`,
which was not at the front, `DRAINING`. -/
theorem trackHandler_marks_streamer_behind_drained_front :
    Reachable (airedBA State.DRAINED State.FRESH) ∧
    (airedBA State.DRAINED State.FRESH).streamers =
      [streamerB State.DRAINED Sync.AIRED, streamerA State.FRESH Sync.AIRED] ∧
    trackHandler (airedBA State.DRAINED State.FRESH) trackC "uC" =
      some ({ airedBA State.DRAINED State.FRESH with
              index := 3, expectedSync := 1,
              streamers := [HTTPstreamer.create "uC" 2 trackC 0,
                            streamerA State.DRAINING Sync.AIRED] },
            [Effect.SPOT_LOAD "uC" 240000 0, Effect.SPOT_PLAY, Effect.startTask 2]) ∧
    streamerA State.DRAINING Sync.AIRED ≠ streamerA State.FRESH Sync.AIRED :=
  ⟨reachable_airedBA State.DRAINED State.FRESH, rfl, rfl, by decide⟩

/-- C11, amended: outside flow mode, with a control session and a list in which some
streamer is not `DRAINED`, `trackHandler` removes every `DRAINED` streamer, marks the
front-most remaining streamer `DRAINING` and puts the new streamer in front: the
streamers that were not `DRAINED` remain, in their previous order, behind the new
one.  The streamer marked is the previous front whenever that one was not `DRAINED`. -/
theorem trackHandler_drains_front_most_remaining (p : CSpotPlayer) (front : HTTPstreamer)
    (rest : List HTTPstreamer) (newTrackInfo : TrackInfo) (url : String)
    (hflow : p.flow = false) (hsp : p.spirc = true)
    (hk : p.streamers.filter (fun s => s.state ≠ State.DRAINED) = front :: rest) :
    (∃ (p1 : CSpotPlayer) (out : List Effect),
      trackHandler p newTrackInfo url = some (p1, out) ∧
      p1.streamers = HTTPstreamer.create url p.index newTrackInfo 0 ::
        { front with state := State.DRAINING } :: rest) ∧
    (∀ (f : HTTPstreamer) (r : List HTTPstreamer), p.streamers = f :: r →
      f.state ≠ State.DRAINED →
      front = f ∧ rest = r.filter (fun s => s.state ≠ State.DRAINED)) := by
  have hk1 : eraseDrained p.streamers = front :: rest := hk
  have hne : p.streamers ≠ [] := by
    intro hn
    rw [hn] at hk
    simp at hk
  constructor
  · refine ⟨_, _, trackHandler_create newTrackInfo url (drainFront_of_kept hflow hk1) hsp
      (Or.inr hflow), ?_⟩
    simp [hne]
  · intro f r hs hf
    rw [hs, List.filter_cons_of_pos (by simpa using hf)] at hk
    simp only [List.cons.injEq] at hk
    exact ⟨hk.1.symm, hk.2.symm⟩

/-- Witness of C11, amended: the theorem at the player of Scenario 1 whose streamer of
`trackA` is aired: it is marked `DRAINING` behind the new streamer of `trackB`. -/
theorem trackHandler_drains_front_most_remaining_witness :
    (playingA false Sync.AIRED 0).flow = false ∧ (playingA false Sync.AIRED 0).spirc = true ∧
    (playingA false Sync.AIRED 0).streamers.filter (fun s => s.state ≠ State.DRAINED) =
      [streamerA State.FRESH Sync.AIRED] ∧
    ∃ (p1 : CSpotPlayer) (out : List Effect),
      trackHandler (playingA false Sync.AIRED 0) trackB "uB" = some (p1, out) ∧
      p1.streamers = [HTTPstreamer.create "uB" 1 trackB 0, streamerA State.DRAINING Sync.AIRED] :=
  ⟨rfl, rfl, rfl,
   (trackHandler_drains_front_most_remaining (playingA false Sync.AIRED 0)
      (streamerA State.FRESH Sync.AIRED) [] trackB "uB" rfl rfl rfl).1⟩

/-- C12: when `trackHandler` creates a streamer (the list is empty, or the player is
not in flow mode) and returns (a control session exists and, if the list is not
empty, some streamer is not `DRAINED`), it puts exactly one new streamer at the front,
with the player's creation index, the given URL and track, and the offset 0, or
`-startOffset` when the list was empty (which is when no streamer is in the list at
creation); behind it stand streamers of the previous list only.  It sends `SPOT_LOAD` for that URL with the start position `-offset` as a
`uint32_t` (that value itself when it lies in `[0, 2^32)`), then `SPOT_PLAY` if and
only if the player is not paused, and it raises `expectedSync` by exactly 1. -/
theorem trackHandler_creates_one_streamer (p : CSpotPlayer) (newTrackInfo : TrackInfo)
    (url : String) (offset : Int) (hsp : p.spirc = true)
    (hc : p.streamers = [] ∨ p.flow = false)
    (hnd : p.streamers = [] ∨ ∃ s ∈ p.streamers, s.state ≠ State.DRAINED)
    (ho : offset = if p.streamers = [] then -p.startOffset else 0) :
    ∃ (p1 : CSpotPlayer) (kept : List HTTPstreamer),
      trackHandler p newTrackInfo url =
        some (p1,
          [Effect.SPOT_LOAD url
            (if p.flow then 0 else (newTrackInfo.duration : Int) + offset) (toU32 (-offset))]
          ++ (if p.isPaused then [] else [Effect.SPOT_PLAY])
          ++ [Effect.startTask p.index]) ∧
      p1.streamers = HTTPstreamer.create url p.index newTrackInfo offset :: kept ∧
      (∀ t ∈ kept, ∃ t0 ∈ p.streamers, t = t0 ∨ t = { t0 with state := State.DRAINING }) ∧
      kept.length ≤ p.streamers.length ∧
      (kept = [] ↔ p.streamers = []) ∧
      p1.expectedSync = p.expectedSync + 1 ∧
      (0 ≤ -offset → -offset < 4294967296 → ((toU32 (-offset) : Nat) : Int) = -offset) := by
  obtain ⟨q, hd⟩ := drainFront_some p hnd
  have hcreate := trackHandler_create newTrackInfo url hd hsp hc
  obtain ⟨-, hsame, hdr⟩ := drainFront_eq hd
  subst ho
  refine ⟨_, q.streamers, hcreate, rfl, drainFront_mem hd, ?_, ?_, rfl, toU32_of_range _⟩
  · by_cases hne : p.streamers = []
    · rw [hsame (Or.inl hne)]
    · rcases hc with h | h
      · exact absurd h hne
      · obtain ⟨front, rest, he, e⟩ := hdr hne h
        rw [e]
        have := length_eraseDrained_le p.streamers
        rw [he] at this
        simpa using this
  · constructor
    · intro hn
      by_contra hne
      rcases hc with h | h
      · exact hne h
      · obtain ⟨front, rest, -, e⟩ := hdr hne h
        rw [e] at hn
        simp at hn
    · intro hn
      rw [hsame (Or.inl hn)]
      exact hn

/-- Witness of C12: the theorem at the started player, which is not paused and whose
list is empty: one streamer with offset `-startOffset = 0`, `SPOT_LOAD` then
`SPOT_PLAY`. -/
theorem trackHandler_creates_one_streamer_witness :
    (started false).spirc = true ∧ (started false).streamers = [] ∧
    ∃ (p1 : CSpotPlayer) (kept : List HTTPstreamer),
      trackHandler (started false) trackA "uA" =
        some (p1, [Effect.SPOT_LOAD "uA" 180000 0, Effect.SPOT_PLAY, Effect.startTask 0]) ∧
      p1.streamers = HTTPstreamer.create "uA" 0 trackA 0 :: kept ∧
      kept = [] ∧ p1.expectedSync = 1 := by
  obtain ⟨p1, kept, h1, h2, -, -, h5, h6, -⟩ :=
    trackHandler_creates_one_streamer (started false) trackA "uA" 0 rfl (Or.inl rfl)
      (Or.inl rfl) rfl
  exact ⟨rfl, rfl, p1, kept, h1, h2, h5.2 rfl, h6⟩

theorem flow_single {q : CSpotPlayer} {s : HTTPstreamer} {l : List HTTPstreamer}
    (hr : Reachable q) (hflow : q.flow = true) (hs : q.streamers = s :: l) :
    l = [] ∧ q.streamers = [s] ∧ q.spirc = true := by
  obtain ⟨h1, -, h3, -⟩ := inv_of_reachable hr
  have hlen := h1 hflow
  rw [hs] at hlen
  have hl : l = [] := by
    cases l with
    | nil => rfl
    | cons x xs => simp at hlen
  subst hl
  exact ⟨rfl, hs, h3 (by rw [hs]; simp)⟩

theorem not_skip_of_compatible {s : HTTPstreamer} {position : Nat}
    (hc : (s.sync = Sync.WAIT_TIME ∧ position ≤ 10000) ∨
          (s.sync = Sync.WAIT_CROSSTIME ∧ s.offset ≤ (position : Int))) :
    ¬ ((s.sync ≠ Sync.WAIT_TIME ∨ position > 10000) ∧
       (s.sync ≠ Sync.WAIT_CROSSTIME ∨ (position : Int) < s.offset)) := by
  intro hcon
  rcases hc with ⟨h1, h2⟩ | ⟨h1, h2⟩
  · rcases hcon.1 with h | h
    · exact h h1
    · omega
  · rcases hcon.2 with h | h
    · exact h h1
    · omega

theorem skip_of_not_compatible {s : HTTPstreamer} {position : Nat}
    (hc : ¬ ((s.sync = Sync.WAIT_TIME ∧ position ≤ 10000) ∨
             (s.sync = Sync.WAIT_CROSSTIME ∧ s.offset ≤ (position : Int)))) :
    (s.sync ≠ Sync.WAIT_TIME ∨ position > 10000) ∧
    (s.sync ≠ Sync.WAIT_CROSSTIME ∨ (position : Int) < s.offset) := by
  constructor
  · by_cases h1 : s.sync = Sync.WAIT_TIME
    · right
      by_contra h2
      exact hc (Or.inl ⟨h1, by omega⟩)
    · exact Or.inl h1
  · by_cases h1 : s.sync = Sync.WAIT_CROSSTIME
    · right
      by_contra h2
      exact hc (Or.inr ⟨h1, by omega⟩)
    · exact Or.inl h1

/-- C13: in a reachable flow-mode player whose front streamer is not `AIRED`,
`trackHandler` creates nothing and sends nothing: the streamers are unchanged, the
new track is queued in `flowTrackInfo` and `expectedSync` is raised by 1.  In every
reachable flow-mode player with a queued track and a pending synchronisation, a
position report that is not compatible with the streamer changes nothing (the track
stays queued), and a compatible one (`WAIT_TIME` and position at most 10000, or
`WAIT_CROSSTIME` and position at or beyond the offset) forwards the position and
applies the queued update: the offset grows by the duration of the track the
streamer carried, the track becomes the queued one, the sync state becomes
`WAIT_CROSSTIME` and the queue becomes empty.  Once the queue is empty a compatible
report leaves offset and track as they are, so the update is applied once. -/
theorem flow_queued_track (p : CSpotPlayer) (front : HTTPstreamer) (rest : List HTTPstreamer)
    (newTrackInfo : TrackInfo) (url : String)
    (hr : Reachable p) (hflow : p.flow = true) (hs : p.streamers = front :: rest)
    (hsync : front.sync ≠ Sync.AIRED) :
    trackHandler p newTrackInfo url =
      some ({ p with flowTrackInfo := some newTrackInfo,
                     expectedSync := p.expectedSync + 1 }, []) ∧
    (∀ (q : CSpotPlayer) (s : HTTPstreamer) (l : List HTTPstreamer) (queued : TrackInfo)
       (position : Nat),
      Reachable q → q.flow = true → q.streamers = s :: l →
      q.flowTrackInfo = some queued → q.expectedSync ≠ 0 →
      l = [] ∧
      (¬ ((s.sync = Sync.WAIT_TIME ∧ position ≤ 10000) ∨
          (s.sync = Sync.WAIT_CROSSTIME ∧ s.offset ≤ (position : Int))) →
        notify q (shadowEvent.SHADOW_TIME position) = some (q, [])) ∧
      (((s.sync = Sync.WAIT_TIME ∧ position ≤ 10000) ∨
        (s.sync = Sync.WAIT_CROSSTIME ∧ s.offset ≤ (position : Int))) →
        notify q (shadowEvent.SHADOW_TIME position) =
          some ({ q with
                  streamers := [{ s with offset := s.offset + s.trackInfo.duration,
                                         trackInfo := queued,
                                         sync := Sync.WAIT_CROSSTIME }],
                  flowTrackInfo := none,
                  expectedSync := q.expectedSync - 1 },
                (if s.sync = Sync.WAIT_CROSSTIME then [Effect.notifyAudioReachedPlayback]
                 else [])
                  ++ [Effect.updatePositionMs (toU32 ((position : Int) - s.offset))]))) ∧
    (∀ (q : CSpotPlayer) (s : HTTPstreamer) (l : List HTTPstreamer) (position : Nat),
      Reachable q → q.flow = true → q.streamers = s :: l →
      q.flowTrackInfo = none → q.expectedSync ≠ 0 →
      ((s.sync = Sync.WAIT_TIME ∧ position ≤ 10000) ∨
       (s.sync = Sync.WAIT_CROSSTIME ∧ s.offset ≤ (position : Int))) →
      ∃ (q1 : CSpotPlayer) (out : List Effect),
        notify q (shadowEvent.SHADOW_TIME position) = some (q1, out) ∧
        q1.streamers = [{ s with sync := Sync.AIRED }] ∧ q1.flowTrackInfo = none) := by
  refine ⟨?_, ?_, ?_⟩
  · obtain ⟨hrest, -, hsp⟩ := flow_single hr hflow hs
    subst hrest
    obtain ⟨isPaused, isConnected, sequence, volume, startOffset, expectedSync, flowTrackInfo,
      index, flow, contentLength, streamers, spirc, isRunning⟩ := p
    simp only at hflow hs hsp
    subst hflow hs hsp
    simp [trackHandler, drainFront, hsync]
  · intro q s l queued position hrq hfq hsq hqq hes
    obtain ⟨hl, hs1, hsp⟩ := flow_single hrq hfq hsq
    refine ⟨hl, ?_, ?_⟩
    · intro hn
      rw [notify_time_single q s position hs1 hsp hes, if_pos (skip_of_not_compatible hn)]
    · intro hc
      rw [notify_time_single q s position hs1 hsp hes, if_neg (not_skip_of_compatible hc)]
      simp only [hqq]
  · intro q s l position hrq hfq hsq hqq hes hc
    obtain ⟨hl, hs1, hsp⟩ := flow_single hrq hfq hsq
    rw [notify_time_single q s position hs1 hsp hes, if_neg (not_skip_of_compatible hc)]
    exact ⟨_, _, rfl, by simp only [hqq], rfl⟩



/-- Witness of C13: the theorem at the flow-mode player whose streamer of `trackA`
waits for a position report: `trackB` is queued, and the report 500 forwards 500,
raises the offset to 180000 and installs `trackB` with `WAIT_CROSSTIME`. -/
theorem flow_queued_track_witness :
    Reachable (playingA true Sync.WAIT_TIME 1) ∧
    trackHandler (playingA true Sync.WAIT_TIME 1) trackB "uB" = some (queuedA, []) ∧
    notify queuedA (shadowEvent.SHADOW_TIME 500) =
      some ({ queuedA with
              streamers := [{ streamerA State.FRESH Sync.WAIT_TIME with
                              offset := 180000, trackInfo := trackB,
                              sync := Sync.WAIT_CROSSTIME }],
              flowTrackInfo := none, expectedSync := 1 },
            [Effect.updatePositionMs 500]) := by
  have h := flow_queued_track (playingA true Sync.WAIT_TIME 1)
    (streamerA State.FRESH Sync.WAIT_TIME) [] trackB "uB" (reachable_playingA_WAIT_TIME true)
    rfl rfl (by decide)
  have hq : Reachable queuedA :=
    reachable_trackHandler trackB "uB" [] (reachable_playingA_WAIT_TIME true) h.1
  exact ⟨reachable_playingA_WAIT_TIME true, h.1,
    (h.2.1 queuedA (streamerA State.FRESH Sync.WAIT_TIME) [] trackB 500 hq rfl rfl rfl
      (by decide)).2.2 (Or.inl ⟨rfl, by decide⟩)⟩

/-- Counterexample to C14: the only streamer waits for a position report, so it is not
`AIRED`; after `SEEK(30000)` it is still in the list. -/
theorem seek_keeps_single_unaired_streamer :
    Reachable (playingA false Sync.WAIT_TIME 1) ∧
    (playingA false Sync.WAIT_TIME 1).streamers = [streamerA State.FRESH Sync.WAIT_TIME] ∧
    eventHandler (playingA false Sync.WAIT_TIME 1) (Event.SEEK 30000) =
      some ({ playingA false Sync.WAIT_TIME 1 with
              streamers := [{ streamerA State.FRESH Sync.WAIT_TIME with offset := -30000 }] },
            [Effect.flush 0, Effect.SPOT_STOP, Effect.setContentLength 0 0,
             Effect.SPOT_LOAD "uA" 150000 30000, Effect.SPOT_PLAY]) ∧
    (streamerA State.FRESH Sync.WAIT_TIME).sync ≠ Sync.AIRED :=
  ⟨reachable_playingA_WAIT_TIME false, rfl, rfl, by decide⟩

/-- C14, amended: `SEEK` discards the streamers that are not `AIRED` only when the list
holds more than one streamer; a single streamer is kept whatever its sync state.
Whenever a streamer is kept, the handler returns, the front kept streamer gets the
offset `-position` and the sync state `WAIT_TIME` if it was past `WAIT_URL` and
`WAIT_URL` otherwise, `expectedSync` becomes 1, and the streamers behind it are kept
as they were; when the list held more than one streamer, all the kept ones were
`AIRED`. -/
theorem seek_keeps_aired_of_several (p : CSpotPlayer) (front : HTTPstreamer)
    (rest : List HTTPstreamer) (position : Int)
    (hk : (if p.streamers.length > 1 then p.streamers.filter (fun s => s.sync = Sync.AIRED)
           else p.streamers) = front :: rest) :
    ∃ (p1 : CSpotPlayer) (out : List Effect),
      eventHandler p (Event.SEEK position) = some (p1, out) ∧
      p1.streamers =
        { front with offset := -position,
                     sync := if front.sync = Sync.WAIT_URL then Sync.WAIT_URL
                             else Sync.WAIT_TIME } :: rest ∧
      p1.expectedSync = 1 ∧
      (p.streamers.length > 1 →
        front.sync = Sync.AIRED ∧ front ∈ p.streamers ∧
        ∀ t ∈ rest, t.sync = Sync.AIRED ∧ t ∈ p.streamers) ∧
      (∀ s : HTTPstreamer, p.streamers = [s] → front = s ∧ rest = []) := by
  have hk1 : (if p.streamers.length > 1 then eraseNotAired p.streamers else p.streamers)
      = front :: rest := hk
  have hsync : (if front.sync.toNat > Sync.WAIT_URL.toNat then Sync.WAIT_TIME else front.sync)
      = (if front.sync = Sync.WAIT_URL then Sync.WAIT_URL else Sync.WAIT_TIME) := by
    cases front.sync <;> simp [Sync.toNat]
  refine ⟨{ p with
             streamers := { front with
               offset := -position,
               sync := if front.sync.toNat > Sync.WAIT_URL.toNat then Sync.WAIT_TIME
                       else front.sync } :: rest,
             expectedSync := 1 },
    [Effect.flush front.index, Effect.SPOT_STOP,
     Effect.setContentLength front.index p.contentLength,
     Effect.SPOT_LOAD front.streamUrl
       (if p.flow then 0 else (front.trackInfo.duration : Int) + -position) (- -position)]
      ++ (if p.isPaused then [] else [Effect.SPOT_PLAY]), ?_, ?_, rfl, ?_, ?_⟩
  · simp only [eventHandler, seek, hk1]
  · simp only [hsync]
  · intro hlen
    rw [if_pos hlen] at hk
    have hmem : ∀ t ∈ front :: rest, t.sync = Sync.AIRED ∧ t ∈ p.streamers := by
      intro t ht
      rw [← hk, List.mem_filter] at ht
      exact ⟨by simpa using ht.2, ht.1⟩
    exact ⟨(hmem front (List.mem_cons_self _ _)).1, (hmem front (List.mem_cons_self _ _)).2,
      fun t ht => hmem t (List.mem_cons_of_mem _ ht)⟩
  · intro s hs
    rw [hs] at hk
    simp at hk
    exact ⟨hk.1.symm, hk.2⟩

/-- Witness of C14, amended: the theorem at the player whose streamers of `trackB` and
`trackA` are both aired: both are kept, the front one waits for a position report. -/
theorem seek_keeps_aired_of_several_witness :
    (if (airedBA State.FRESH State.DRAINING).streamers.length > 1
      then (airedBA State.FRESH State.DRAINING).streamers.filter (fun s => s.sync = Sync.AIRED)
      else (airedBA State.FRESH State.DRAINING).streamers) =
      [streamerB State.FRESH Sync.AIRED, streamerA State.DRAINING Sync.AIRED] ∧
    ∃ (p1 : CSpotPlayer) (out : List Effect),
      eventHandler (airedBA State.FRESH State.DRAINING) (Event.SEEK 30000) = some (p1, out) ∧
      p1.streamers = [{ streamerB State.FRESH Sync.AIRED with
                        offset := -30000, sync := Sync.WAIT_TIME },
                      streamerA State.DRAINING Sync.AIRED] ∧
      p1.expectedSync = 1 := by
  obtain ⟨p1, out, h1, h2, h3, -, -⟩ :=
    seek_keeps_aired_of_several (airedBA State.FRESH State.DRAINING)
      (streamerB State.FRESH Sync.AIRED) [streamerA State.DRAINING Sync.AIRED] 30000 rfl
  exact ⟨rfl, p1, out, h1, h2, h3⟩

/-- C15: `DEPLETED` always returns and sends nothing; the resulting list is the list of
the streamers that were not `DRAINED`, in their order, each with the lifecycle state
`DRAINING` and nothing else changed (sync state, offset, track, URL, index); every
streamer that was `DRAINED` is gone; no other member of the player changes,
`expectedSync` included. -/
theorem eventHandler_DEPLETED (p : CSpotPlayer) :
    ∃ p1 : CSpotPlayer,
      eventHandler p Event.DEPLETED = some (p1, []) ∧
      p1.streamers = (p.streamers.filter (fun s => s.state ≠ State.DRAINED)).map
        (fun s => { s with state := State.DRAINING }) ∧
      (∀ s1 ∈ p1.streamers, s1.state = State.DRAINING ∧
        ∃ t ∈ p.streamers, t.state ≠ State.DRAINED ∧ s1 = { t with state := State.DRAINING }) ∧
      p1.streamers.map (fun s => (s.streamUrl, s.index, s.sync, s.offset, s.trackInfo)) =
        (p.streamers.filter (fun s => s.state ≠ State.DRAINED)).map
          (fun s => (s.streamUrl, s.index, s.sync, s.offset, s.trackInfo)) ∧
      p1.expectedSync = p.expectedSync ∧
      p1 = { p with streamers := p1.streamers } := by
  refine ⟨_, rfl, rfl, ?_, ?_, rfl, rfl⟩
  · intro s1 hs1
    simp only [eraseDrained, List.mem_map, List.mem_filter] at hs1
    obtain ⟨t, ⟨ht, htd⟩, hts⟩ := hs1
    refine ⟨by rw [← hts], t, ht, by simpa using htd, hts.symm⟩
  · simp only [List.map_map]
    rfl

/-- Witness of C15: at the player whose front streamer is `DRAINED` and whose other
streamer is `FRESH`, `DEPLETED` leaves the second one only, `DRAINING`. -/
theorem eventHandler_DEPLETED_witness :
    eventHandler (airedBA State.DRAINED State.FRESH) Event.DEPLETED =
      some ({ airedBA State.DRAINED State.FRESH with
              streamers := [streamerA State.DRAINING Sync.AIRED] }, []) := by
  obtain ⟨p1, h1, h2, -, -, -, h6⟩ := eventHandler_DEPLETED (airedBA State.DRAINED State.FRESH)
  rw [h1, h6, h2]
  rfl

theorem getMetaLoop_spec {M : Type} (getMetadata : HTTPstreamer → M → M) (url : String)
    (metadata : M) (l : List HTTPstreamer) :
    ((getMetaLoop getMetadata url metadata l).1 = true ↔ ∃ s ∈ l, s.streamUrl = url) ∧
    (∀ (before : List HTTPstreamer) (s : HTTPstreamer) (after : List HTTPstreamer),
      l = before ++ s :: after → s.streamUrl = url → (∀ t ∈ before, t.streamUrl ≠ url) →
      getMetaLoop getMetadata url metadata l = (true, getMetadata s metadata)) ∧
    ((∀ s ∈ l, s.streamUrl ≠ url) →
      getMetaLoop getMetadata url metadata l = (false, metadata)) := by
  induction l with
  | nil =>
    refine ⟨by simp [getMetaLoop], ?_, fun _ => rfl⟩
    intro before s after h
    simp at h
  | cons it rest ih =>
    obtain ⟨ih1, ih2, ih3⟩ := ih
    by_cases hu : it.streamUrl = url
    · refine ⟨?_, ?_, ?_⟩
      · constructor
        · intro _
          exact ⟨it, List.mem_cons_self _ _, hu⟩
        · intro _
          simp [getMetaLoop, hu]
      · intro before s after h hs hb
        cases before with
        | nil =>
          simp only [List.nil_append, List.cons.injEq] at h
          rw [← h.1]
          simp only [getMetaLoop, hu, if_true]
        | cons b bs =>
          simp only [List.cons_append, List.cons.injEq] at h
          exact absurd (h.1 ▸ hu) (hb b (List.mem_cons_self _ _))
      · intro hn
        exact absurd hu (hn it (List.mem_cons_self _ _))
    · refine ⟨?_, ?_, ?_⟩
      · simp only [getMetaLoop, hu, if_false]
        rw [ih1]
        constructor
        · rintro ⟨s, hs, hsu⟩
          exact ⟨s, List.mem_cons_of_mem _ hs, hsu⟩
        · rintro ⟨s, hs, hsu⟩
          simp only [List.mem_cons] at hs
          rcases hs with hs | hs
          · exact absurd (hs ▸ hsu) hu
          · exact ⟨s, hs, hsu⟩
      · intro before s after h hs hb
        cases before with
        | nil =>
          simp only [List.nil_append, List.cons.injEq] at h
          exact absurd (h.1 ▸ hs) hu
        | cons b bs =>
          simp only [List.cons_append, List.cons.injEq] at h
          simp only [getMetaLoop, hu, if_false]
          exact ih2 bs s after h.2 hs (fun t ht => hb t (List.mem_cons_of_mem _ ht))
      · intro hn
        simp only [getMetaLoop, hu, if_false]
        exact ih3 (fun s hs => hn s (List.mem_cons_of_mem _ hs))

/-- C16: `getMetaForUrl` returns true if and only if some streamer of the list has the
given URL; the metadata written is then that of the front-most streamer with that
URL (what `getMetadata` of that streamer writes into the caller's metadata); when no
streamer has the URL it returns false and the caller's metadata is untouched. -/
theorem getMetaForUrl_front_most {M : Type} (getMetadata : HTTPstreamer → M → M)
    (p : CSpotPlayer) (url : String) (metadata : M) :
    ((getMetaForUrl getMetadata p url metadata).1 = true ↔
      ∃ s ∈ p.streamers, s.streamUrl = url) ∧
    (∀ (before : List HTTPstreamer) (s : HTTPstreamer) (after : List HTTPstreamer),
      p.streamers = before ++ s :: after → s.streamUrl = url →
      (∀ t ∈ before, t.streamUrl ≠ url) →
      getMetaForUrl getMetadata p url metadata = (true, getMetadata s metadata)) ∧
    ((∀ s ∈ p.streamers, s.streamUrl ≠ url) →
      getMetaForUrl getMetadata p url metadata = (false, metadata)) :=
  getMetaLoop_spec getMetadata url metadata p.streamers

/-- Witness of C16: with the streamers of `trackB` and `trackA`, the URL `"uA"` is
found and gives the duration of `trackA`, the URL `"uC"` is not found and the
caller's value 0 is kept. -/
theorem getMetaForUrl_front_most_witness :
    getMetaForUrl (fun s _ => s.trackInfo.duration) (airedBA State.FRESH State.DRAINING)
      "uA" 0 = (true, 180000) ∧
    getMetaForUrl (fun s _ => s.trackInfo.duration) (airedBA State.FRESH State.DRAINING)
      "uC" 0 = (false, 0) :=
  ⟨(getMetaForUrl_front_most (fun s _ => s.trackInfo.duration)
      (airedBA State.FRESH State.DRAINING) "uA" 0).2.1
      [streamerB State.FRESH Sync.AIRED] (streamerA State.DRAINING Sync.AIRED) [] rfl rfl
      (by decide),
   (getMetaForUrl_front_most (fun s _ => s.trackInfo.duration)
      (airedBA State.FRESH State.DRAINING) "uC" 0).2.2 (by decide)⟩

/-! The claims on the ring buffer and on the codec settings. -/

theorem toSize_of_range (x : Int) (h0 : 0 ≤ x) (h1 : x < 18446744073709551616) :
    (toSize x : Int) = x := by
  unfold toSize
  rw [Int.emod_eq_of_lt h0 h1]
  exact Int.toNat_of_nonneg h0

theorem toSize_emod (x : Int) : (toSize x : Int) = x % 18446744073709551616 := by
  unfold toSize
  exact Int.toNat_of_nonneg (Int.emod_nonneg _ (by decide))

theorem used_flush (b : byteBuffer) : b.flush.used = 0 := by
  simp [byteBuffer.used, byteBuffer._used, byteBuffer.flush, toSize]

/-- C17: whatever the cursors were, after `flush()` the buffer reports `used() = 0`
and `space()` equal to `size - 1` as a `size_t`, that is `size - 1` for every
capacity of at least 1. -/
theorem flush_used_space (b : byteBuffer) :
    b.flush.used = 0 ∧
    ((b.flush.space : Nat) : Int) = ((b.size : Int) - 1) % 18446744073709551616 ∧
    (1 ≤ b.size → b.size < 18446744073709551616 → b.flush.space = b.size - 1) := by
  have hu : b.flush._used = 0 := used_flush b
  have hs : b.flush.space = toSize ((b.size : Int) - 1) := by
    simp only [byteBuffer.space, byteBuffer._space, hu]
    simp [byteBuffer.flush]
  refine ⟨used_flush b, ?_, ?_⟩
  · rw [hs]
    exact toSize_emod _
  · intro h1 h2
    have := toSize_of_range ((b.size : Int) - 1) (by omega) (by omega)
    rw [hs]
    omega

/-- Witness of C17: a buffer of capacity 16 with the read cursor at 9 and the write
cursor at 3 reports 0 bytes used and 15 bytes free after `flush()`. -/
theorem flush_used_space_witness :
    (byteBuffer.flush { size := 16, read_p := 9, write_p := 3 }).used = 0 ∧
    (byteBuffer.flush { size := 16, read_p := 9, write_p := 3 }).space = 15 :=
  ⟨(flush_used_space { size := 16, read_p := 9, write_p := 3 }).1,
   (flush_used_space { size := 16, read_p := 9, write_p := 3 }).2.2 (by decide) (by decide)⟩

/-- C18: for a buffer of capacity `size >= 1` (a `size_t`) whose cursors both lie
inside the buffer, `used()` is at most `size - 1`, `space()` is `size - 1 - used()`
computed without wrapping, and `used()` is 0 exactly when the cursors coincide. -/
theorem used_le_capacity_minus_one (b : byteBuffer) (h1 : 1 ≤ b.size)
    (h2 : b.size < 18446744073709551616) (hr : b.read_p < b.size) (hw : b.write_p < b.size) :
    b.used ≤ b.size - 1 ∧
    b.space = b.size - 1 - b.used ∧
    b.used + b.space + 1 = b.size ∧
    (b.used = 0 ↔ b.read_p = b.write_p) := by
  have hu : (b.used : Int) =
      if b.write_p ≥ b.read_p then (b.write_p : Int) - b.read_p
      else (b.size : Int) - ((b.read_p : Int) - b.write_p) := by
    unfold byteBuffer.used byteBuffer._used
    split
    · exact toSize_of_range _ (by omega) (by omega)
    · exact toSize_of_range _ (by omega) (by omega)
  have hule : (b.used : Int) ≤ (b.size : Int) - 1 := by
    rw [hu]
    split <;> omega
  have hsp : (b.space : Int) = (b.size : Int) - (b.used : Int) - 1 := by
    unfold byteBuffer.space byteBuffer._space
    exact toSize_of_range _ (by
      have : (b._used : Int) = (b.used : Int) := rfl
      omega) (by
      have : (b._used : Int) = (b.used : Int) := rfl
      omega)
  refine ⟨by omega, by omega, by omega, ?_⟩
  constructor
  · intro h0
    rw [h0] at hu
    split at hu <;> omega
  · intro he
    rw [he] at hu
    simp at hu
    exact_mod_cast hu

/-- Witness of C18: a buffer of capacity 16 with the read cursor at 9 and the write
cursor at 3 holds 10 bytes and has room for 5. -/
theorem used_le_capacity_minus_one_witness :
    ({ size := 16, read_p := 9, write_p := 3 } : byteBuffer).used ≤ 16 - 1 ∧
    ({ size := 16, read_p := 9, write_p := 3 } : byteBuffer).space =
      16 - 1 - ({ size := 16, read_p := 9, write_p := 3 } : byteBuffer).used ∧
    ({ size := 16, read_p := 9, write_p := 3 } : byteBuffer).used = 10 := by
  obtain ⟨h1, h2, -, -⟩ := used_le_capacity_minus_one { size := 16, read_p := 9, write_p := 3 }
    (by decide) (by decide) (by decide) (by decide)
  exact ⟨h1, h2, rfl⟩

/-- Counterexample to C19: for the settings `rate = 536870912`, one channel and one
byte per sample, the product `rate × channels × size × 8` is `2^32` and `getBitrate`
returns 0. -/
theorem getBitrate_wraps :
    baseCodec.getBitrate { rate := 536870912, channels := 1, size := 1 } = 0 ∧
    (536870912 * 1 * 1 * 8 : Int) = 4294967296 := by
  constructor <;> decide

/-- C19, amended: for settings whose product `rate × channels × size × 8` is below
`2^31`, `getBitrate` returns that product exactly; in general it returns the product
reduced modulo `2^32` and read as a signed 32-bit `int`. -/
theorem getBitrate_exact_below_2_31 (settings : codecSettings)
    (h : settings.rate * settings.channels * settings.size * 8 < 2147483648) :
    baseCodec.getBitrate settings =
      ((settings.rate * settings.channels * settings.size * 8 : Nat) : Int) ∧
    ∀ other : codecSettings,
      baseCodec.getBitrate other = toI32 (other.rate * other.channels * other.size * 8) := by
  have general : ∀ other : codecSettings,
      baseCodec.getBitrate other = toI32 (other.rate * other.channels * other.size * 8) := by
    intro other
    have e : ((other.rate * other.channels) % 4294967296 * other.size) % 4294967296 * 8
        % 4294967296 = other.rate * other.channels * other.size * 8 % 4294967296 := by
      rw [Nat.mod_mul_mod, Nat.mul_assoc (other.rate * other.channels % 4294967296),
        Nat.mod_mul_mod, ← Nat.mul_assoc]
    unfold baseCodec.getBitrate
    rw [e]
    unfold toI32
    rw [Nat.mod_mod]
  refine ⟨?_, general⟩
  rw [general settings]
  unfold toI32
  have hm : settings.rate * settings.channels * settings.size * 8 % 4294967296 =
      settings.rate * settings.channels * settings.size * 8 := Nat.mod_eq_of_lt (by omega)
  rw [hm, if_pos h]

/-- Witness of C19, amended: the default settings (44100 Hz, 2 channels, 2 bytes) give
1411200. -/
theorem getBitrate_exact_below_2_31_witness :
    (44100 * 2 * 2 * 8 : Nat) < 2147483648 ∧
    baseCodec.getBitrate {} = 1411200 :=
  ⟨by decide, (getBitrate_exact_below_2_31 {} (by decide)).1⟩

/-- C20: the code at the failing input.  In the connected player whose streamer of
`trackA` is aired, `NEXT` sends `SPOT_STOP` to the renderer and empties the list; the
renderer's stop feedback then makes `notify(SHADOW_STOP)` read `streamers.front()` of
the empty list, which is undefined: the handler takes the error branch.  Without a
control session the same feedback returns before the list is read. -/
theorem stop_feedback_after_next_reads_empty_list :
    eventHandler (playingA false Sync.AIRED 0) Event.NEXT =
      some ({ playingA false Sync.AIRED 0 with streamers := [] }, [Effect.SPOT_STOP]) ∧
    ({ playingA false Sync.AIRED 0 with streamers := [] } : CSpotPlayer).spirc = true ∧
    notify { playingA false Sync.AIRED 0 with streamers := [] } shadowEvent.SHADOW_STOP = none ∧
    notify { playingA false Sync.AIRED 0 with streamers := [], spirc := false }
      shadowEvent.SHADOW_STOP =
      some ({ playingA false Sync.AIRED 0 with streamers := [], spirc := false }, []) :=
  ⟨rfl, rfl, rfl, rfl⟩

/-! `SEEK` on a list without an aired streamer, and `baseCodec::isEmpty`. -/

/-- What decides whether `SEEK` reaches `streamers.front()` with a streamer: the
handler fails exactly when the list is empty, or holds several streamers none of
which is aired. -/
theorem seek_none_iff (p : CSpotPlayer) (position : Int) :
    eventHandler p (Event.SEEK position) = none ↔
      p.streamers = [] ∨ (p.streamers.length > 1 ∧ ∀ s ∈ p.streamers, s.sync ≠ Sync.AIRED) := by
  show seek p position = none ↔ _
  unfold seek
  by_cases hl : p.streamers.length > 1
  · simp only [hl, if_true]
    cases hk : eraseNotAired p.streamers with
    | nil =>
      simp only [true_iff]
      right
      refine ⟨trivial, ?_⟩
      intro s hs ha
      have : s ∈ eraseNotAired p.streamers := by
        unfold eraseNotAired
        simp [hs, ha]
      rw [hk] at this
      simp at this
    | cons a l =>
      have ha : a ∈ eraseNotAired p.streamers := by rw [hk]; simp
      unfold eraseNotAired at ha
      simp only [List.mem_filter, decide_eq_true_eq] at ha
      constructor
      · intro h
        simp at h
      · intro h
        rcases h with hn | ⟨-, hall⟩
        · rw [hn] at hl
          simp at hl
        · exact absurd ha.2 (hall a ha.1)
  · simp only [hl, if_false]
    cases hs : p.streamers with
    | nil => simp
    | cons a l => simp

/-- C24: the code at the failing inputs.  `SEEK` erases the streamers that are not aired
when there are several, and then takes `streamers.front()` without testing the list:
on the connected player with no streamer, and on the reachable player whose two
streamers both wait for a position report, the front of an empty list is read, which
is undefined.  With one aired streamer behind the new one the handler keeps it. -/
theorem seek_reads_front_of_empty_list :
    eventHandler (started false) (Event.SEEK 30000) = none ∧
    Reachable (playingBA Sync.WAIT_TIME Sync.WAIT_TIME 2) ∧
    eraseNotAired (playingBA Sync.WAIT_TIME Sync.WAIT_TIME 2).streamers = [] ∧
    eventHandler (playingBA Sync.WAIT_TIME Sync.WAIT_TIME 2) (Event.SEEK 30000) = none ∧
    (eventHandler (playingBA Sync.WAIT_TIME Sync.AIRED 1) (Event.SEEK 30000)).isSome = true :=
  ⟨rfl, reachable_playingBA_WAIT_TIME, rfl, rfl, rfl⟩

/-- What `baseCodec::isEmpty` computes: it answers `true` exactly when the encoded
buffer holds at least one byte. -/
theorem isEmpty_iff_used_ne_zero (c : baseCodec) :
    c.isEmpty = true ↔ c.encoded.used ≠ 0 := by
  simp [baseCodec.isEmpty]

/-- C25: the code at the failing inputs.  `isEmpty` returns `encoded->used()` converted
to `bool`: for the flushed codec, whose encoded buffer holds zero bytes, it returns
`false`, and once one byte, or 1000 bytes, wait to be read it returns `true`. -/
theorem isEmpty_inverted :
    flushedCodec.encoded.used = 0 ∧ flushedCodec.isEmpty = false ∧
    (loadedCodec 1).encoded.used = 1 ∧ (loadedCodec 1).isEmpty = true ∧
    (loadedCodec 1000).encoded.used = 1000 ∧ (loadedCodec 1000).isEmpty = true := by
  refine ⟨by decide, by decide, by decide, by decide, by decide, by decide⟩

/-! How each handler acts on the mode, the counter `index` and the creation indices. -/

theorem indices_set {l : List HTTPstreamer} {i : Nat} {it s : HTTPstreamer}
    (h : l[i]? = some it) (hs : s.index = it.index) :
    (l.set i s).map (fun s => s.index) = l.map (fun s => s.index) := by
  induction l generalizing i with
  | nil => simp
  | cons a l ih =>
    cases i with
    | zero =>
      simp only [List.getElem?_cons_zero, Option.some.injEq] at h
      simp [h, hs]
    | succ j =>
      simp only [List.getElem?_cons_succ] at h
      simp [ih h]

theorem flowSync_indices {p q : CSpotPlayer} {ti : TrackInfo} (h : flowSync p ti = some q) :
    q.flow = p.flow ∧ q.index = p.index ∧ indices q = indices p ∧
    q.expectedSync = p.expectedSync ∧ q.streamers.length = p.streamers.length := by
  unfold flowSync at h
  split at h
  · simp at h
  · rename_i streamer rest he
    simp only [Option.some.injEq] at h
    subst h
    simp [indices, he]

theorem drainFront_indices {p q : CSpotPlayer} (h : drainFront p = some q) :
    q.flow = p.flow ∧ q.index = p.index ∧ (indices q).Sublist (indices p) ∧
    (p.streamers = [] ∨ p.flow = true → q.streamers = p.streamers) := by
  obtain ⟨h1, h2, h3⟩ := drainFront_eq h
  refine ⟨by rw [h1], by rw [h1], ?_, h2⟩
  by_cases hc : p.streamers = [] ∨ p.flow = true
  · unfold indices
    rw [h2 hc]
  · simp only [not_or] at hc
    obtain ⟨front, rest, he, hq⟩ := h3 hc.1 (by simpa using hc.2)
    have hm : indices q = (eraseDrained p.streamers).map fun s => s.index := by
      unfold indices
      rw [hq, he]
      rfl
    rw [hm]
    unfold indices eraseDrained
    exact (List.filter_sublist _).map _

theorem trackHandler_indices {p p1 : CSpotPlayer} {out : List Effect} {ti : TrackInfo}
    {url : String} (h : trackHandler p ti url = some (p1, out)) :
    p1.flow = p.flow ∧
    ((p.flow = true ∧ p.streamers ≠ [] ∧ p1.index = p.index ∧ indices p1 = indices p) ∨
     ((p.streamers = [] ∨ p.flow = false) ∧ p1.index = (p.index + 1) % 4294967296 ∧
      ∃ l, indices p1 = p.index :: l ∧ l.Sublist (indices p))) := by
  unfold trackHandler at h
  cases hd : drainFront p with
  | none => simp [hd] at h
  | some q =>
    obtain ⟨hf, hi, hsub, hsame⟩ := drainFront_indices hd
    simp only [hd] at h
    split at h
    · simp at h
    · split at h
      · rename_i hc
        simp only [Option.some.injEq, Prod.mk.injEq] at h
        obtain ⟨h, -⟩ := h
        subst h
        refine ⟨hf, Or.inr ⟨?_, ?_, indices q, ?_, hsub⟩⟩
        · rcases hc with hc | hc
          · by_cases hfl : p.flow = true
            · left
              rw [← hsame (Or.inr hfl)]
              exact hc
            · right
              simpa using hfl
          · right
            rw [← hf]
            exact hc
        · simp [hi]
        · simp [indices, HTTPstreamer.create, hi]
      · rename_i hc
        simp only [not_or] at hc
        have hfl : p.flow = true := by
          rw [← hf]
          simpa using hc.2
        have hne : p.streamers ≠ [] := by
          rw [← hsame (Or.inr hfl)]
          exact hc.1
        have hqi : indices q = indices p := by
          unfold indices
          rw [hsame (Or.inr hfl)]
        split at h
        · simp at h
        · rename_i streamer rest he
          split at h
          · simp only [Option.some.injEq, Prod.mk.injEq] at h
            obtain ⟨h, -⟩ := h
            subst h
            exact ⟨hf, Or.inl ⟨hfl, hne, hi, hqi⟩⟩
          · cases hfs : flowSync q ti with
            | none => simp [hfs] at h
            | some p2 =>
              obtain ⟨g1, g2, g3, -, -⟩ := flowSync_indices hfs
              simp only [hfs, Option.some.injEq, Prod.mk.injEq] at h
              obtain ⟨h, -⟩ := h
              subst h
              refine ⟨g1.trans hf, Or.inl ⟨hfl, hne, g2.trans hi, ?_⟩⟩
              exact (show indices _ = indices p2 from rfl).trans (g3.trans hqi)

theorem seek_indices {p p1 : CSpotPlayer} {out : List Effect} {position : Int}
    (h : seek p position = some (p1, out)) :
    p1.flow = p.flow ∧ p1.index = p.index ∧ (indices p1).Sublist (indices p) := by
  unfold seek at h
  simp only at h
  split at h
  · simp at h
  · rename_i streamer rest he
    simp only [Option.some.injEq, Prod.mk.injEq] at h
    obtain ⟨h, -⟩ := h
    subst h
    refine ⟨rfl, rfl, ?_⟩
    have hm : indices { p with
        streamers := { streamer with
          offset := -position,
          sync := if streamer.sync.toNat > Sync.WAIT_URL.toNat then Sync.WAIT_TIME
            else streamer.sync } :: rest, expectedSync := 1 } =
        (streamer :: rest).map fun s => s.index := rfl
    rw [hm, ← he]
    unfold indices
    split
    · unfold eraseNotAired
      exact (List.filter_sublist _).map _
    · exact List.Sublist.refl _

theorem eventHandler_indices {p p1 : CSpotPlayer} {out : List Effect} {event : Event}
    (h : eventHandler p event = some (p1, out)) :
    p1.flow = p.flow ∧ p1.index = p.index ∧ (indices p1).Sublist (indices p) := by
  cases event with
  | SEEK position => exact seek_indices h
  | PLAYBACK_START position =>
    simp only [eventHandler] at h
    split at h
    · simp at h
    · simp only [Option.some.injEq, Prod.mk.injEq] at h
      obtain ⟨h, -⟩ := h
      subst h
      exact ⟨rfl, rfl, by simp [indices]⟩
  | DEPLETED =>
    simp only [eventHandler, Option.some.injEq, Prod.mk.injEq] at h
    obtain ⟨h, -⟩ := h
    subst h
    refine ⟨rfl, rfl, ?_⟩
    have hm : indices { p with streamers :=
        (eraseDrained p.streamers).map fun s => { s with state := State.DRAINING } } =
        (eraseDrained p.streamers).map fun s => s.index := by
      simp only [indices, List.map_map]
      rfl
    rw [hm]
    unfold indices eraseDrained
    exact (List.filter_sublist _).map _
  | DISC =>
    simp only [eventHandler, disconnect, Option.some.injEq, Prod.mk.injEq] at h
    obtain ⟨h, -⟩ := h
    subst h
    exact ⟨rfl, rfl, by simp [indices]⟩
  | PLAY_PAUSE paused =>
    simp only [eventHandler, Option.some.injEq, Prod.mk.injEq] at h
    obtain ⟨h, -⟩ := h
    subst h
    exact ⟨rfl, rfl, List.Sublist.refl _⟩
  | VOLUME volume =>
    simp only [eventHandler, Option.some.injEq, Prod.mk.injEq] at h
    obtain ⟨h, -⟩ := h
    subst h
    exact ⟨rfl, rfl, List.Sublist.refl _⟩
  | OTHER =>
    simp only [eventHandler, Option.some.injEq, Prod.mk.injEq] at h
    obtain ⟨h, -⟩ := h
    subst h
    exact ⟨rfl, rfl, List.Sublist.refl _⟩
  | NEXT =>
    simp only [eventHandler, Option.some.injEq, Prod.mk.injEq] at h
    obtain ⟨h, -⟩ := h
    subst h
    exact ⟨rfl, rfl, by simp [indices]⟩
  | PREV =>
    simp only [eventHandler, Option.some.injEq, Prod.mk.injEq] at h
    obtain ⟨h, -⟩ := h
    subst h
    exact ⟨rfl, rfl, by simp [indices]⟩
  | FLUSH =>
    simp only [eventHandler, Option.some.injEq, Prod.mk.injEq] at h
    obtain ⟨h, -⟩ := h
    subst h
    exact ⟨rfl, rfl, by simp [indices]⟩

theorem timeBody_indices {i : Nat} {st st1 : Scan} (h : timeBody i st = some st1) :
    st1.player.flow = st.player.flow ∧ st1.player.index = st.player.index ∧
    indices st1.player = indices st.player := by
  unfold timeBody at h
  split at h
  · simp only [Option.some.injEq] at h
    subst h
    exact ⟨rfl, rfl, rfl⟩
  · rename_i it hit
    split at h
    · simp only [Option.some.injEq] at h
      subst h
      exact ⟨rfl, rfl, rfl⟩
    · have hset : (st.player.streamers.set i { it with sync := Sync.AIRED }).map
          (fun s => s.index) = st.player.streamers.map (fun s => s.index) :=
        indices_set hit rfl
      simp only at h
      split at h
      · simp only [Option.some.injEq] at h
        subst h
        exact ⟨rfl, rfl, hset⟩
      · rename_i trackInfo hq
        split at h
        · simp at h
        · rename_i p2 hfs
          obtain ⟨g1, g2, g3, -, -⟩ := flowSync_indices hfs
          simp only [Option.some.injEq] at h
          subst h
          exact ⟨g1, g2, g3.trans hset⟩

theorem trackBody_indices {url : String} {i : Nat} {st st1 : Scan}
    (h : trackBody url i st = some st1) :
    st1.player.flow = st.player.flow ∧ st1.player.index = st.player.index ∧
    indices st1.player = indices st.player := by
  unfold trackBody at h
  split at h
  · simp only [Option.some.injEq] at h
    subst h
    exact ⟨rfl, rfl, rfl⟩
  · rename_i it hit
    split at h
    · simp only [Option.some.injEq] at h
      subst h
      exact ⟨rfl, rfl, rfl⟩
    · simp only [Option.some.injEq] at h
      subst h
      exact ⟨rfl, rfl, indices_set hit rfl⟩

theorem notify_indices {p p1 : CSpotPlayer} {out : List Effect} {event : shadowEvent}
    (h : notify p event = some (p1, out)) :
    p1.flow = p.flow ∧ p1.index = p.index ∧ (indices p1).Sublist (indices p) := by
  have same : ∀ q : CSpotPlayer, some (p, ([] : List Effect)) = some (q, out) →
      q.flow = p.flow ∧ q.index = p.index ∧ (indices q).Sublist (indices p) := by
    intro q hq
    simp only [Option.some.injEq, Prod.mk.injEq] at hq
    obtain ⟨hq, -⟩ := hq
    subst hq
    exact ⟨rfl, rfl, List.Sublist.refl _⟩
  have loop : ∀ (body : Nat → Scan → Option Scan),
      (∀ i st st1, body i st = some st1 →
        st1.player.flow = st.player.flow ∧ st1.player.index = st.player.index ∧
        indices st1.player = indices st.player) →
      ∀ n st st1, reverseLoop body n st = some st1 →
        st1.player.flow = st.player.flow ∧ st1.player.index = st.player.index ∧
        indices st1.player = indices st.player := by
    intro body hb n st st1 hl
    exact reverseLoop_induct
      (fun s => s.player.flow = st.player.flow ∧ s.player.index = st.player.index ∧
        indices s.player = indices st.player) body
      (fun i s s1 hs hstep => by
        obtain ⟨a, b, c⟩ := hb i s s1 hstep
        exact ⟨a.trans hs.1, b.trans hs.2.1, c.trans hs.2.2⟩)
      n st st1 ⟨rfl, rfl, rfl⟩ hl
  cases event with
  | SHADOW_VOLUME volume =>
    simp only [notify, Option.some.injEq, Prod.mk.injEq] at h
    obtain ⟨h, -⟩ := h
    subst h
    exact ⟨rfl, rfl, List.Sublist.refl _⟩
  | SHADOW_TIME position =>
    simp only [notify] at h
    split at h
    · exact same p1 h
    · simp only [notifySwitch] at h
      split at h
      · exact same p1 h
      · split at h
        · simp at h
        · rename_i st hl
          simp only [Option.some.injEq, Prod.mk.injEq] at h
          obtain ⟨h, -⟩ := h
          subst h
          obtain ⟨a, b, c⟩ := loop timeBody (fun i s s1 => timeBody_indices) _ _ _ hl
          exact ⟨a, b, c ▸ List.Sublist.refl _⟩
  | SHADOW_TRACK url =>
    simp only [notify] at h
    split at h
    · exact same p1 h
    · simp only [notifySwitch] at h
      split at h
      · exact same p1 h
      · split at h
        · simp at h
        · rename_i st hl
          simp only [Option.some.injEq, Prod.mk.injEq] at h
          obtain ⟨h, -⟩ := h
          subst h
          obtain ⟨a, b, c⟩ := loop (trackBody url) (fun i s s1 => trackBody_indices) _ _ _ hl
          exact ⟨a, b, c ▸ List.Sublist.refl _⟩
  | SHADOW_PLAY =>
    simp only [notify] at h
    split at h
    · exact same p1 h
    · simp only [notifySwitch, Option.some.injEq, Prod.mk.injEq] at h
      obtain ⟨h, -⟩ := h
      subst h
      exact ⟨rfl, rfl, List.Sublist.refl _⟩
  | SHADOW_PAUSE =>
    simp only [notify] at h
    split at h
    · exact same p1 h
    · simp only [notifySwitch, Option.some.injEq, Prod.mk.injEq] at h
      obtain ⟨h, -⟩ := h
      subst h
      exact ⟨rfl, rfl, List.Sublist.refl _⟩
  | SHADOW_OTHER =>
    simp only [notify] at h
    split at h
    · exact same p1 h
    · exact same p1 h
  | SHADOW_STOP =>
    simp only [notify] at h
    split at h
    · exact same p1 h
    · simp only [notifySwitch] at h
      split at h
      · simp at h
      · split at h
        · simp only [disconnect, Option.some.injEq, Prod.mk.injEq] at h
          obtain ⟨h, -⟩ := h
          subst h
          exact ⟨rfl, rfl, by simp [indices]⟩
        · simp only [Option.some.injEq, Prod.mk.injEq] at h
          obtain ⟨h, -⟩ := h
          subst h
          exact ⟨rfl, rfl, List.Sublist.refl _⟩

theorem map_fst_eq_some {α β : Type} {o : Option (α × β)} {a : α}
    (h : (o.map fun r => r.1) = some a) : ∃ b, o = some (a, b) := by
  cases o with
  | none => simp at h
  | some r =>
    obtain ⟨x, y⟩ := r
    simp only [Option.map_some', Option.some.injEq] at h
    exact ⟨y, by rw [h]⟩

theorem writePCM_indices {p p1 : CSpotPlayer} {out : List Effect} {ret bytes sequence : Nat}
    {ti : TrackInfo} {url : String} {accepted : Bool}
    (h : writePCM p bytes sequence ti url accepted = some (p1, out, ret)) :
    p1.flow = p.flow ∧
    ((p1.index = p.index ∧ indices p1 = indices p) ∨
     ((p.streamers = [] ∨ p.flow = false) ∧ p1.index = (p.index + 1) % 4294967296 ∧
      ∃ l, indices p1 = p.index :: l ∧ l.Sublist (indices p))) := by
  unfold writePCM at h
  simp only at h
  split at h
  · simp at h
  · rename_i q out1 hh
    simp only [Option.some.injEq, Prod.mk.injEq] at h
    obtain ⟨h, -, -⟩ := h
    subst h
    split at hh
    · obtain ⟨g1, g2⟩ := trackHandler_indices hh
      refine ⟨g1, ?_⟩
      rcases g2 with ⟨-, -, a, b⟩ | ⟨a, b, c⟩
      · exact Or.inl ⟨a, b⟩
      · exact Or.inr ⟨a, b, c⟩
    · simp only [Option.some.injEq, Prod.mk.injEq] at hh
      obtain ⟨hh, -⟩ := hh
      subst hh
      exact ⟨rfl, Or.inl ⟨rfl, rfl⟩⟩

theorem setState_indices (p : CSpotPlayer) (i : Nat) (state : State) :
    (setState p i state).flow = p.flow ∧ (setState p i state).index = p.index ∧
    indices (setState p i state) = indices p ∧
    (setState p i state).expectedSync = p.expectedSync ∧
    (setState p i state).flowTrackInfo = p.flowTrackInfo := by
  unfold setState
  split
  · exact ⟨rfl, rfl, rfl, rfl, rfl⟩
  · rename_i s hs
    exact ⟨rfl, rfl, indices_set hs rfl, rfl, rfl⟩

/-- What one call does to the creation indices: either the counter `index` keeps its
value and streamers are at most removed, or the call ran `trackHandler` with an empty
list or outside flow mode, the counter was incremented and one streamer carrying its
former value was put in front of the streamers that remain. -/
theorem step_indices {p p1 : CSpotPlayer} {c : Call} (h : step p c = some p1) :
    p1.flow = p.flow ∧
    ((p1.index = p.index ∧ (indices p1).Sublist (indices p)) ∨
     (c.tracks = true ∧ (p.streamers = [] ∨ p.flow = false) ∧
      p1.index = (p.index + 1) % 4294967296 ∧
      ∃ l, indices p1 = p.index :: l ∧ l.Sublist (indices p))) := by
  cases c with
  | trackHandler ti url =>
    simp only [step] at h
    obtain ⟨out, h⟩ := map_fst_eq_some h
    obtain ⟨g1, g2⟩ := trackHandler_indices h
    refine ⟨g1, ?_⟩
    rcases g2 with ⟨-, -, a, b⟩ | ⟨a, b, c⟩
    · exact Or.inl ⟨a, b ▸ List.Sublist.refl _⟩
    · exact Or.inr ⟨rfl, a, b, c⟩
  | eventHandler event =>
    simp only [step] at h
    obtain ⟨out, h⟩ := map_fst_eq_some h
    obtain ⟨g1, g2, g3⟩ := eventHandler_indices h
    exact ⟨g1, Or.inl ⟨g2, g3⟩⟩
  | notify event =>
    simp only [step] at h
    obtain ⟨out, h⟩ := map_fst_eq_some h
    obtain ⟨g1, g2, g3⟩ := notify_indices h
    exact ⟨g1, Or.inl ⟨g2, g3⟩⟩
  | writePCM bytes sequence ti url accepted =>
    simp only [step] at h
    obtain ⟨⟨out, ret⟩, h⟩ := map_fst_eq_some h
    obtain ⟨g1, g2⟩ := writePCM_indices h
    refine ⟨g1, ?_⟩
    rcases g2 with ⟨a, b⟩ | ⟨a, b, c⟩
    · exact Or.inl ⟨a, b ▸ List.Sublist.refl _⟩
    · exact Or.inr ⟨rfl, a, b, c⟩
  | connect =>
    simp only [step, Option.some.injEq] at h
    subst h
    exact ⟨rfl, Or.inl ⟨rfl, List.Sublist.refl _⟩⟩
  | teardown =>
    simp only [step, Option.some.injEq] at h
    subst h
    exact ⟨rfl, Or.inl ⟨rfl, by simp [indices, teardown]⟩⟩
  | setState i state =>
    simp only [step, Option.some.injEq] at h
    subst h
    obtain ⟨a, b, c, -, -⟩ := setState_indices p i state
    exact ⟨a, Or.inl ⟨b, c ▸ List.Sublist.refl _⟩⟩

theorem run_append (p : CSpotPlayer) (cs ds : List Call) :
    run p (cs ++ ds) = (run p cs).bind fun q => run q ds := by
  induction cs generalizing p with
  | nil => rfl
  | cons c cs ih =>
    simp only [List.cons_append, run]
    cases step p c with
    | none => rfl
    | some p1 => exact ih p1

/-- The sequences of calls reach exactly the players of `ReachableFrom`. -/
theorem reachableFrom_iff_run (p0 p : CSpotPlayer) :
    ReachableFrom p0 p ↔ ∃ calls, run p0 calls = some p := by
  constructor
  · intro h
    have snoc : ∀ (q q1 : CSpotPlayer) (c : Call), (∃ calls, run p0 calls = some q) →
        step q c = some q1 → ∃ calls, run p0 calls = some q1 := by
      intro q q1 c hq hs
      obtain ⟨calls, hc⟩ := hq
      refine ⟨calls ++ [c], ?_⟩
      rw [run_append, hc]
      simp [run, hs]
    induction h with
    | start => exact ⟨[], rfl⟩
    | trackHandler ti url _ hstep ih =>
      exact snoc _ _ (Call.trackHandler ti url) ih (by simp [step, hstep])
    | eventHandler event _ hstep ih =>
      exact snoc _ _ (Call.eventHandler event) ih (by simp [step, hstep])
    | notify event _ hstep ih =>
      exact snoc _ _ (Call.notify event) ih (by simp [step, hstep])
    | writePCM bytes sequence ti url accepted _ hstep ih =>
      exact snoc _ _ (Call.writePCM bytes sequence ti url accepted) ih (by simp [step, hstep])
    | connect _ ih => exact snoc _ _ Call.connect ih rfl
    | teardown _ ih => exact snoc _ _ Call.teardown ih rfl
    | setState i state _ ih => exact snoc _ _ (Call.setState i state) ih rfl
  · rintro ⟨calls, h⟩
    have gen : ∀ (calls : List Call) (q : CSpotPlayer), ReachableFrom p0 q →
        run q calls = some p → ReachableFrom p0 p := by
      intro calls
      induction calls with
      | nil =>
        intro q hq hr
        simp only [run, Option.some.injEq] at hr
        exact hr ▸ hq
      | cons c cs ih =>
        intro q hq hr
        simp only [run] at hr
        cases hs : step q c with
        | none => simp [hs] at hr
        | some q1 =>
          simp only [hs] at hr
          refine ih q1 ?_ hr
          cases c with
          | trackHandler ti url =>
            simp only [step] at hs
            obtain ⟨out, hs⟩ := map_fst_eq_some hs
            exact ReachableFrom.trackHandler ti url hq hs
          | eventHandler event =>
            simp only [step] at hs
            obtain ⟨out, hs⟩ := map_fst_eq_some hs
            exact ReachableFrom.eventHandler event hq hs
          | notify event =>
            simp only [step] at hs
            obtain ⟨out, hs⟩ := map_fst_eq_some hs
            exact ReachableFrom.notify event hq hs
          | writePCM bytes sequence ti url accepted =>
            simp only [step] at hs
            obtain ⟨⟨out, ret⟩, hs⟩ := map_fst_eq_some hs
            exact ReachableFrom.writePCM bytes sequence ti url accepted hq hs
          | connect =>
            simp only [step, Option.some.injEq] at hs
            exact hs ▸ ReachableFrom.connect hq
          | teardown =>
            simp only [step, Option.some.injEq] at hs
            exact hs ▸ ReachableFrom.teardown hq
          | setState i state =>
            simp only [step, Option.some.injEq] at hs
            exact hs ▸ ReachableFrom.setState i state hq
    exact gen calls p0 ReachableFrom.start h

/-! In flow mode the list never holds more than one streamer. -/

theorem indices_length (p : CSpotPlayer) : (indices p).length = p.streamers.length := by
  simp [indices]

theorem step_flow_length {q q1 : CSpotPlayer} {c : Call} (hf : q.flow = true)
    (h : step q c = some q1) :
    q1.flow = true ∧ (q.streamers.length ≤ 1 → q1.streamers.length ≤ 1) ∧
    (c.tracks = false ∨ q.streamers ≠ [] → (indices q1).Sublist (indices q)) := by
  obtain ⟨g1, g2⟩ := step_indices h
  refine ⟨g1.trans hf, ?_, ?_⟩
  · intro hl
    rcases g2 with ⟨-, hsub⟩ | ⟨-, hc, -, l, hl1, hsub⟩
    · have := hsub.length_le
      rw [indices_length, indices_length] at this
      omega
    · rcases hc with hc | hc
      · have hnil : l = [] := by
          have h0 : indices q = [] := by simp [indices, hc]
          rw [h0] at hsub
          exact List.eq_nil_of_sublist_nil hsub
        have : (indices q1).length = 1 := by rw [hl1, hnil]; rfl
        rw [indices_length] at this
        omega
      · rw [hf] at hc
        cases hc
  · intro hc
    rcases g2 with ⟨-, hsub⟩ | ⟨ht, hc1, -, -⟩
    · exact hsub
    · rcases hc1 with hc1 | hc1
      · rcases hc with hc | hc
        · rw [ht] at hc
          cases hc
        · exact absurd hc1 hc
      · rw [hf] at hc1
        cases hc1

theorem run_flow_length {p : CSpotPlayer} (calls : List Call) :
    ∀ q : CSpotPlayer, q.flow = true → q.streamers.length ≤ 1 → run q calls = some p →
      p.flow = true ∧ p.streamers.length ≤ 1 := by
  induction calls with
  | nil =>
    intro q hf hl hr
    simp only [run, Option.some.injEq] at hr
    exact hr ▸ ⟨hf, hl⟩
  | cons c cs ih =>
    intro q hf hl hr
    simp only [run] at hr
    cases hs : step q c with
    | none => simp [hs] at hr
    | some q1 =>
      simp only [hs] at hr
      obtain ⟨a, b, -⟩ := step_flow_length hf hs
      exact ih q1 a (b hl) hr

/-- C23: for a player in flow mode, every state reached from an empty streamer list, by
any sequence of calls of the handlers (each returning without undefined behaviour), of
`connect`, `teardown` and of the streamers' tasks, is in flow mode and holds at most
one streamer.  Every call made in such a state that is not a `trackHandler` run
(directly or through `writePCM`), and every `trackHandler` run on a non-empty list,
leaves a sublist of the streamers by creation index: streamers are only removed or
kept; `trackHandler` on the empty list leaves exactly one streamer. -/
theorem flow_holds_at_most_one_streamer (p0 p : CSpotPlayer) (h0 : p0.streamers = [])
    (hf : p0.flow = true) (hr : ReachableFrom p0 p) :
    p.flow = true ∧ p.streamers.length ≤ 1 ∧
    (∀ (c : Call) (p1 : CSpotPlayer), step p c = some p1 →
      c.tracks = false ∨ p.streamers ≠ [] → (indices p1).Sublist (indices p)) ∧
    (∀ (newTrackInfo : TrackInfo) (url : String) (p1 : CSpotPlayer) (out : List Effect),
      trackHandler p newTrackInfo url = some (p1, out) → p.streamers = [] →
      p1.streamers.length = 1) := by
  obtain ⟨calls, hc⟩ := (reachableFrom_iff_run p0 p).1 hr
  obtain ⟨a, b⟩ := run_flow_length calls p0 hf (by simp [h0]) hc
  refine ⟨a, b, ?_, ?_⟩
  · intro c p1 hs
    exact (step_flow_length a hs).2.2
  · intro ti url p1 out ht hn
    obtain ⟨-, g⟩ := trackHandler_indices ht
    rcases g with ⟨-, hne, -, -⟩ | ⟨-, -, l, hl1, hsub⟩
    · exact absurd hn hne
    · have h0 : indices p = [] := by simp [indices, hn]
      rw [h0] at hsub
      have hnil : l = [] := List.eq_nil_of_sublist_nil hsub
      have : (indices p1).length = 1 := by rw [hl1, hnil]; rfl
      rw [indices_length] at this
      exact this

/-- Witness of C23: the theorem at the flow-mode player reached from `started true` by
one `trackHandler` call, which holds the streamer of `trackA`. -/
theorem flow_holds_at_most_one_streamer_witness :
    (started true).streamers = [] ∧ (started true).flow = true ∧
    ReachableFrom (started true) (playingA true Sync.WAIT_URL 1) ∧
    (playingA true Sync.WAIT_URL 1).streamers.length ≤ 1 :=
  ⟨rfl, rfl, ReachableFrom.trackHandler trackA "uA" ReachableFrom.start rfl,
   (flow_holds_at_most_one_streamer (started true) (playingA true Sync.WAIT_URL 1) rfl rfl
      (ReachableFrom.trackHandler trackA "uA" ReachableFrom.start rfl)).2.1⟩

/-! The creation indices of the streamers and the 32-bit counter `index`. -/

theorem run_indices {p : CSpotPlayer} (calls : List Call) :
    ∀ q : CSpotPlayer, (indices q).Pairwise (fun a b => a > b) →
      (∀ i ∈ indices q, i < q.index) →
      q.index + calls.countP Call.tracks < 4294967296 → run q calls = some p →
      (indices p).Pairwise (fun a b => a > b) ∧ (∀ i ∈ indices p, i < p.index) ∧
      p.index ≤ q.index + calls.countP Call.tracks := by
  induction calls with
  | nil =>
    intro q h1 h2 _ hr
    simp only [run, Option.some.injEq] at hr
    subst hr
    exact ⟨h1, h2, by simp⟩
  | cons c cs ih =>
    intro q h1 h2 hb hr
    simp only [run] at hr
    cases hs : step q c with
    | none => simp [hs] at hr
    | some q1 =>
      simp only [hs] at hr
      have hcount : (c :: cs).countP Call.tracks =
          cs.countP Call.tracks + if c.tracks = true then 1 else 0 := List.countP_cons _ _ _
      obtain ⟨-, g⟩ := step_indices hs
      rcases g with ⟨gi, hsub⟩ | ⟨ht, -, gi, l, hl, hsub⟩
      · have hb1 : q1.index + cs.countP Call.tracks < 4294967296 := by
          rw [gi]
          split_ifs at hcount <;> omega
        obtain ⟨a, b, c1⟩ := ih q1 (h1.sublist hsub)
          (fun i hi => gi ▸ h2 i (hsub.subset hi)) hb1 hr
        refine ⟨a, b, ?_⟩
        rw [gi] at c1
        split_ifs at hcount <;> omega
      · rw [if_pos ht] at hcount
        have hq : q1.index = q.index + 1 := by
          rw [gi]
          exact Nat.mod_eq_of_lt (by omega)
        have hb1 : q1.index + cs.countP Call.tracks < 4294967296 := by omega
        have hp : (indices q1).Pairwise (fun a b => a > b) := by
          rw [hl]
          exact List.Pairwise.cons (fun i hi => h2 i (hsub.subset hi)) (h1.sublist hsub)
        have hlt : ∀ i ∈ indices q1, i < q1.index := by
          intro i hi
          rw [hl] at hi
          rw [hq]
          rcases List.mem_cons.1 hi with hi | hi
          · omega
          · have := h2 i (hsub.subset hi)
            omega
        obtain ⟨a, b, c1⟩ := ih q1 hp hlt hb1 hr
        exact ⟨a, b, by omega⟩

theorem reachableFrom_startedAt (n : Nat) : ReachableFrom (started false) (startedAt n) := by
  induction n with
  | zero => exact ReachableFrom.start
  | succ n ih =>
    have h1 : trackHandler (startedAt n) trackA "uA" =
        some ({ startedAt n with
                  index := (n % 4294967296 + 1) % 4294967296,
                  streamers := [HTTPstreamer.create "uA" (n % 4294967296) trackA 0],
                  expectedSync := 1 },
              [Effect.SPOT_LOAD "uA" 180000 0, Effect.SPOT_PLAY,
               Effect.startTask (n % 4294967296)]) := rfl
    have h2 : eventHandler { startedAt n with
                  index := (n % 4294967296 + 1) % 4294967296,
                  streamers := [HTTPstreamer.create "uA" (n % 4294967296) trackA 0],
                  expectedSync := 1 } (Event.PLAYBACK_START 0) =
        some (startedAt (n + 1), [Effect.SPOT_STOP, Effect.setRemoteVolume 30]) := by
      have hm : (n % 4294967296 + 1) % 4294967296 = (n + 1) % 4294967296 :=
        Nat.mod_add_mod n 4294967296 1
      simp only [hm]
      rfl
    exact ReachableFrom.eventHandler (Event.PLAYBACK_START 0)
      (ReachableFrom.trackHandler trackA "uA" ih h1) h2

/-- Counterexample to C21: the counter `index` is an `unsigned` of 32 bits and `index++`
wraps.  The player with an empty list whose counter stands at 4294967295 is reached
from `started false` (4294967295 times a track is started and replaced by a
`PLAYBACK_START`); two `trackHandler` calls then create the streamer of `trackA` with
index 4294967295 and, in front of it, the streamer of `trackB` with index 0: from
front to back the creation indices increase. -/
theorem creation_index_wraps_to_zero :
    ReachableFrom (started false) (startedAt 4294967295) ∧
    (startedAt 4294967295).streamers = [] ∧
    (run (startedAt 4294967295)
      [Call.trackHandler trackA "uA", Call.trackHandler trackB "uB"]).map
        (fun q => (q.index, q.streamers)) =
      some (1, [{ streamUrl := "uB", index := 0, state := State.FRESH, sync := Sync.WAIT_URL,
                  offset := 0, trackInfo := trackB },
                { streamUrl := "uA", index := 4294967295, state := State.DRAINING,
                  sync := Sync.WAIT_URL, offset := 0, trackInfo := trackA }]) ∧
    ¬ List.Pairwise (fun a b => a > b) [0, 4294967295] :=
  ⟨reachableFrom_startedAt 4294967295, rfl, rfl, by decide⟩

/-- C21 (amended): in every state reached from an empty streamer list by a sequence of
calls (of `trackHandler`, `writePCM`, `eventHandler`, `notify`, `connect`, `teardown`
and the streamers' tasks, each returning without undefined behaviour) during which the
counter `index` does not pass 2^32, that is when the counter's first value plus the
number of calls that run `trackHandler` is below 2^32, the creation indices strictly
decrease from the front of the list to its back; the front streamer carries the
greatest index, no two streamers share an index, and every index is below the
counter. -/
theorem creation_indices_strictly_decreasing (p0 p : CSpotPlayer) (calls : List Call)
    (h0 : p0.streamers = []) (hb : p0.index + calls.countP Call.tracks < 4294967296)
    (hr : run p0 calls = some p) :
    (indices p).Pairwise (fun a b => a > b) ∧
    (∀ (front : HTTPstreamer) (rest : List HTTPstreamer), p.streamers = front :: rest →
      ∀ s ∈ rest, s.index < front.index) ∧
    (indices p).Nodup ∧
    (∀ s ∈ p.streamers, s.index < p.index) := by
  obtain ⟨a, b, -⟩ := run_indices calls p0 (by simp [indices, h0]) (by simp [indices, h0]) hb hr
  refine ⟨a, ?_, ?_, ?_⟩
  · intro front rest he s hs
    have ha : List.Pairwise (fun a b => a > b) (front.index :: rest.map fun s => s.index) := by
      have := a
      unfold indices at this
      rw [he] at this
      exact this
    exact (List.pairwise_cons.1 ha).1 s.index (List.mem_map_of_mem _ hs)
  · exact a.imp (fun h => Nat.ne_of_gt h)
  · intro s hs
    exact b s.index (List.mem_map_of_mem _ hs)

/-- Witness of C21 (amended): the theorem at the player reached from `started false` by
the creation of the streamer of `trackA`, the feedback that its URL was fetched, and
the creation of the streamer of `trackB`; the indices are 1 and 0. -/
theorem creation_indices_strictly_decreasing_witness :
    (started false).streamers = [] ∧
    run (started false) [Call.trackHandler trackA "uA",
      Call.notify (shadowEvent.SHADOW_TRACK "uA"), Call.trackHandler trackB "uB"] =
      some (playingBA Sync.WAIT_URL Sync.WAIT_TIME 2) ∧
    (indices (playingBA Sync.WAIT_URL Sync.WAIT_TIME 2)).Pairwise (fun a b => a > b) :=
  ⟨rfl, rfl,
   (creation_indices_strictly_decreasing (started false)
      (playingBA Sync.WAIT_URL Sync.WAIT_TIME 2)
      [Call.trackHandler trackA "uA", Call.notify (shadowEvent.SHADOW_TRACK "uA"),
       Call.trackHandler trackB "uB"] rfl (by decide) rfl).1⟩

/-! The counter `expectedSync` and the streamers that wait for a confirmation. -/

theorem unconfirmed_cons (a : HTTPstreamer) (l : List HTTPstreamer) :
    unconfirmed (a :: l) = (if a.sync ≠ Sync.AIRED then 1 else 0) + unconfirmed l := by
  unfold unconfirmed
  by_cases h : a.sync = Sync.AIRED
  · simp [List.filter_cons, h]
  · simp [List.filter_cons, h]
    omega

theorem unconfirmed_set {l : List HTTPstreamer} {i : Nat} {it s : HTTPstreamer}
    (h : l[i]? = some it) :
    unconfirmed (l.set i s) + (if it.sync ≠ Sync.AIRED then 1 else 0) =
      unconfirmed l + (if s.sync ≠ Sync.AIRED then 1 else 0) := by
  induction l generalizing i with
  | nil => simp at h
  | cons a l ih =>
    cases i with
    | zero =>
      simp only [List.getElem?_cons_zero, Option.some.injEq] at h
      subst h
      simp only [List.set_cons_zero, unconfirmed_cons]
      omega
    | succ j =>
      simp only [List.getElem?_cons_succ] at h
      have := ih h
      simp only [List.set_cons_succ, unconfirmed_cons]
      omega

theorem unconfirmed_sublist {l1 l2 : List HTTPstreamer} (h : l1.Sublist l2) :
    unconfirmed l1 ≤ unconfirmed l2 := by
  unfold unconfirmed
  exact (h.filter _).length_le

theorem unconfirmed_map_state (l : List HTTPstreamer) (state : State) :
    unconfirmed (l.map fun s => { s with state := state }) = unconfirmed l := by
  induction l with
  | nil => rfl
  | cons a l ih =>
    simp only [List.map_cons, unconfirmed_cons, ih]

theorem unconfirmed_of_aired {l : List HTTPstreamer} (h : ∀ s ∈ l, s.sync = Sync.AIRED) :
    unconfirmed l = 0 := by
  induction l with
  | nil => rfl
  | cons a l ih =>
    rw [unconfirmed_cons, ih (fun s hs => h s (List.mem_cons_of_mem _ hs))]
    simp [h a (List.mem_cons_self _ _)]

theorem drainFront_unconfirmed {p q : CSpotPlayer} (h : drainFront p = some q) :
    unconfirmed q.streamers ≤ unconfirmed p.streamers := by
  obtain ⟨-, h2, h3⟩ := drainFront_eq h
  by_cases hc : p.streamers = [] ∨ p.flow = true
  · rw [h2 hc]
  · simp only [not_or] at hc
    obtain ⟨front, rest, he, hq⟩ := h3 hc.1 (by simpa using hc.2)
    have h1 : unconfirmed q.streamers = unconfirmed (eraseDrained p.streamers) := by
      rw [hq, he, unconfirmed_cons, unconfirmed_cons]
    rw [h1]
    unfold eraseDrained
    exact unconfirmed_sublist (List.filter_sublist _)

theorem trackHandler_unconfirmed {p p1 : CSpotPlayer} {out : List Effect} {ti : TrackInfo}
    {url : String} (hf : p.flow = false) (h : trackHandler p ti url = some (p1, out)) :
    unconfirmed p1.streamers ≤ unconfirmed p.streamers + 1 := by
  unfold trackHandler at h
  cases hd : drainFront p with
  | none => simp [hd] at h
  | some q =>
    have hq := drainFront_unconfirmed hd
    have hqf : q.flow = false := (drainFront_indices hd).1.trans hf
    simp only [hd] at h
    split at h
    · simp at h
    · split at h
      · simp only [Option.some.injEq, Prod.mk.injEq] at h
        obtain ⟨h, -⟩ := h
        subst h
        simp only [unconfirmed_cons, HTTPstreamer.create]
        split_ifs <;> omega
      · rename_i hc
        simp [hqf] at hc

theorem seek_unconfirmed {p p1 : CSpotPlayer} {out : List Effect} {position : Int}
    (h : seek p position = some (p1, out)) :
    p1.expectedSync = 1 ∧ unconfirmed p1.streamers ≤ 1 := by
  unfold seek at h
  simp only at h
  split at h
  · simp at h
  · rename_i streamer rest he
    simp only [Option.some.injEq, Prod.mk.injEq] at h
    obtain ⟨h, -⟩ := h
    subst h
    refine ⟨rfl, ?_⟩
    have hrest : unconfirmed rest = 0 := by
      split at he
      · apply unconfirmed_of_aired
        intro s hs
        have hm : s ∈ eraseNotAired p.streamers := by
          rw [he]
          exact List.mem_cons_of_mem _ hs
        unfold eraseNotAired at hm
        simpa using (List.mem_filter.1 hm).2
      · rename_i hl
        have hl1 : (streamer :: rest).length ≤ 1 := by
          rw [← he]
          omega
        have : rest = [] := by
          cases rest with
          | nil => rfl
          | cons b r => simp at hl1
        rw [this]
        rfl
    show unconfirmed (_ :: rest) ≤ 1
    rw [unconfirmed_cons, hrest]
    split_ifs <;> omega

theorem trackHandler_Pending {p p1 : CSpotPlayer} {out : List Effect} {ti : TrackInfo}
    {url : String} (hk : Pending p) (h : trackHandler p ti url = some (p1, out)) :
    Pending p1 := by
  obtain ⟨k1, k2⟩ := hk
  obtain ⟨-, hes⟩ := trackHandler_fields h
  obtain ⟨hfl, -⟩ := trackHandler_indices h
  refine ⟨by omega, ?_⟩
  intro hf
  have hpf : p.flow = false := hfl ▸ hf
  have := trackHandler_unconfirmed hpf h
  have := k2 hpf
  omega

theorem eventHandler_Pending {p p1 : CSpotPlayer} {out : List Effect} {event : Event}
    (hk : Pending p) (h : eventHandler p event = some (p1, out)) : Pending p1 := by
  obtain ⟨k1, k2⟩ := hk
  cases event with
  | SEEK position =>
    obtain ⟨a, b⟩ := seek_unconfirmed h
    refine ⟨by omega, fun _ => ?_⟩
    omega
  | PLAYBACK_START position =>
    simp only [eventHandler] at h
    split at h
    · simp at h
    · simp only [Option.some.injEq, Prod.mk.injEq] at h
      obtain ⟨h, -⟩ := h
      subst h
      exact ⟨le_refl _, fun _ => by simp [unconfirmed]⟩
  | DEPLETED =>
    simp only [eventHandler, Option.some.injEq, Prod.mk.injEq] at h
    obtain ⟨h, -⟩ := h
    subst h
    refine ⟨k1, fun hf => ?_⟩
    have h1 : unconfirmed ((eraseDrained p.streamers).map
        fun s => { s with state := State.DRAINING }) ≤ unconfirmed p.streamers := by
      rw [unconfirmed_map_state]
      unfold eraseDrained
      exact unconfirmed_sublist (List.filter_sublist _)
    have h2 := k2 hf
    show ((unconfirmed ((eraseDrained p.streamers).map
        fun s => { s with state := State.DRAINING }) : Nat) : Int) ≤ p.expectedSync
    omega
  | DISC =>
    simp only [eventHandler, disconnect, Option.some.injEq, Prod.mk.injEq] at h
    obtain ⟨h, -⟩ := h
    subst h
    exact ⟨k1, fun _ => by simpa [unconfirmed] using k1⟩
  | PLAY_PAUSE paused =>
    simp only [eventHandler, Option.some.injEq, Prod.mk.injEq] at h
    obtain ⟨h, -⟩ := h
    subst h
    exact ⟨k1, k2⟩
  | VOLUME volume =>
    simp only [eventHandler, Option.some.injEq, Prod.mk.injEq] at h
    obtain ⟨h, -⟩ := h
    subst h
    exact ⟨k1, k2⟩
  | OTHER =>
    simp only [eventHandler, Option.some.injEq, Prod.mk.injEq] at h
    obtain ⟨h, -⟩ := h
    subst h
    exact ⟨k1, k2⟩
  | NEXT =>
    simp only [eventHandler, Option.some.injEq, Prod.mk.injEq] at h
    obtain ⟨h, -⟩ := h
    subst h
    exact ⟨k1, fun _ => by simpa [unconfirmed] using k1⟩
  | PREV =>
    simp only [eventHandler, Option.some.injEq, Prod.mk.injEq] at h
    obtain ⟨h, -⟩ := h
    subst h
    exact ⟨k1, fun _ => by simpa [unconfirmed] using k1⟩
  | FLUSH =>
    simp only [eventHandler, Option.some.injEq, Prod.mk.injEq] at h
    obtain ⟨h, -⟩ := h
    subst h
    exact ⟨k1, fun _ => by simpa [unconfirmed] using k1⟩

/-- One pass of the `SHADOW_TIME` loop lowers `expectedSync` by at most one. -/
theorem timeBody_expectedSync {i : Nat} {st st1 : Scan} (h : timeBody i st = some st1) :
    st.player.expectedSync - 1 ≤ st1.player.expectedSync ∧
    st1.player.expectedSync ≤ st.player.expectedSync := by
  unfold timeBody at h
  split at h
  · simp only [Option.some.injEq] at h
    subst h
    exact ⟨by omega, le_refl _⟩
  · rename_i it hit
    split at h
    · simp only [Option.some.injEq] at h
      subst h
      exact ⟨by omega, le_refl _⟩
    · simp only at h
      split at h
      · simp only [Option.some.injEq] at h
        subst h
        exact ⟨le_refl _, by show _ - 1 ≤ _; omega⟩
      · split at h
        · simp at h
        · rename_i p2 hfs
          obtain ⟨-, -, -, g, -⟩ := flowSync_indices hfs
          simp only [Option.some.injEq] at h
          subst h
          have g1 : p2.expectedSync = st.player.expectedSync := g
          exact ⟨by show _ ≤ p2.expectedSync - 1; omega, by show p2.expectedSync - 1 ≤ _; omega⟩

theorem timeLoop_expectedSync (n : Nat) :
    ∀ st st1 : Scan, reverseLoop timeBody n st = some st1 →
      st.player.expectedSync - (n : Int) ≤ st1.player.expectedSync ∧
      st1.player.expectedSync ≤ st.player.expectedSync := by
  induction n with
  | zero =>
    intro st st1 h
    simp only [reverseLoop, Option.some.injEq] at h
    subst h
    exact ⟨by simp, le_refl _⟩
  | succ i ih =>
    intro st st1 h
    simp only [reverseLoop] at h
    cases hb : timeBody i st with
    | none => simp [hb] at h
    | some st2 =>
      simp only [hb] at h
      obtain ⟨a, b⟩ := timeBody_expectedSync hb
      obtain ⟨c, d⟩ := ih st2 st1 h
      push_cast
      exact ⟨by omega, by omega⟩

/-- Outside flow mode each confirmation of the `SHADOW_TIME` loop takes one streamer
out of those that wait, so the counter stays at or above their number. -/
theorem timeBody_Pending {i : Nat} {st st1 : Scan}
    (hl : st.player.flow = false ∧ st.player.flowTrackInfo = none ∧
      (unconfirmed st.player.streamers : Int) ≤ st.player.expectedSync)
    (h : timeBody i st = some st1) :
    st1.player.flow = false ∧ st1.player.flowTrackInfo = none ∧
      (unconfirmed st1.player.streamers : Int) ≤ st1.player.expectedSync := by
  obtain ⟨l1, l2, l3⟩ := hl
  unfold timeBody at h
  split at h
  · simp only [Option.some.injEq] at h
    subst h
    exact ⟨l1, l2, l3⟩
  · rename_i it hit
    split at h
    · simp only [Option.some.injEq] at h
      subst h
      exact ⟨l1, l2, l3⟩
    · rename_i hguard
      have hna : it.sync ≠ Sync.AIRED := by
        intro ha
        apply hguard
        rw [ha]
        exact ⟨Or.inl (by decide), Or.inl (by decide)⟩
      have hu := @unconfirmed_set st.player.streamers i it { it with sync := Sync.AIRED } hit
      simp only [hna, ne_eq, not_false_eq_true, if_true, not_true_eq_false, if_false] at hu
      simp only at h
      split at h
      · simp only [Option.some.injEq] at h
        subst h
        refine ⟨l1, l2, ?_⟩
        show ((unconfirmed (st.player.streamers.set i { it with sync := Sync.AIRED }) : Nat) : Int)
          ≤ st.player.expectedSync - 1
        omega
      · rename_i trackInfo hq
        have : st.player.flowTrackInfo = some trackInfo := hq
        rw [l2] at this
        cases this

theorem trackBody_Pending {url : String} {i : Nat} {st st1 : Scan}
    (h : trackBody url i st = some st1) :
    st1.player.expectedSync = st.player.expectedSync ∧
    unconfirmed st1.player.streamers = unconfirmed st.player.streamers := by
  unfold trackBody at h
  split at h
  · simp only [Option.some.injEq] at h
    subst h
    exact ⟨rfl, rfl⟩
  · rename_i it hit
    split at h
    · simp only [Option.some.injEq] at h
      subst h
      exact ⟨rfl, rfl⟩
    · rename_i hguard
      simp only [not_or, not_not] at hguard
      have hu := @unconfirmed_set st.player.streamers i it { it with sync := Sync.WAIT_TIME } hit
      simp only [hguard.1] at hu
      simp only [Option.some.injEq] at h
      subst h
      refine ⟨rfl, ?_⟩
      show unconfirmed (st.player.streamers.set i { it with sync := Sync.WAIT_TIME }) = _
      simpa using hu

theorem notify_Pending {p p1 : CSpotPlayer} {out : List Effect} {event : shadowEvent}
    (hi : Inv p) (hk : Pending p) (h : notify p event = some (p1, out)) : Pending p1 := by
  obtain ⟨k1, k2⟩ := hk
  have same : ∀ q : CSpotPlayer, some (p, ([] : List Effect)) = some (q, out) → Pending q := by
    intro q hq
    simp only [Option.some.injEq, Prod.mk.injEq] at hq
    obtain ⟨hq, -⟩ := hq
    subst hq
    exact ⟨k1, k2⟩
  cases event with
  | SHADOW_VOLUME volume =>
    simp only [notify, Option.some.injEq, Prod.mk.injEq] at h
    obtain ⟨h, -⟩ := h
    subst h
    exact ⟨k1, k2⟩
  | SHADOW_TIME position =>
    simp only [notify] at h
    split at h
    · exact same p1 h
    · simp only [notifySwitch] at h
      split at h
      · exact same p1 h
      · rename_i hne
        split at h
        · simp at h
        · rename_i st hl
          simp only [Option.some.injEq, Prod.mk.injEq] at h
          obtain ⟨h, -⟩ := h
          subst h
          cases hf : p.flow with
          | true =>
            have hlen := hi.1 hf
            obtain ⟨a, -⟩ := timeLoop_expectedSync _ _ _ hl
            have a1 : p.expectedSync - (p.streamers.length : Int) ≤ st.player.expectedSync := a
            refine ⟨by omega, ?_⟩
            intro hf1
            have hfl : st.player.flow = p.flow :=
              (notify_indices (show notify p (shadowEvent.SHADOW_TIME position) =
                some (st.player, st.out) from by
                  simp only [notify, notifySwitch]
                  rw [if_neg (by assumption), if_neg hne, hl])).1
            rw [hfl, hf] at hf1
            cases hf1
          | false =>
            obtain ⟨b1, -, b3⟩ := reverseLoop_induct
              (fun s => s.player.flow = false ∧ s.player.flowTrackInfo = none ∧
                (unconfirmed s.player.streamers : Int) ≤ s.player.expectedSync) timeBody
              (fun i s s1 hs hstep => timeBody_Pending hs hstep)
              _ _ _ (show _ ∧ _ ∧ _ from ⟨hf, (hi.2.1 hf).1, k2 hf⟩) hl
            exact ⟨by omega, fun _ => b3⟩
  | SHADOW_TRACK url =>
    simp only [notify] at h
    split at h
    · exact same p1 h
    · simp only [notifySwitch] at h
      split at h
      · exact same p1 h
      · rename_i hne
        split at h
        · simp at h
        · rename_i st hl
          have hfl : st.player.flow = p.flow :=
            (notify_indices (show notify p (shadowEvent.SHADOW_TRACK url) =
              some (st.player, st.out) from by
                simp only [notify, notifySwitch]
                rw [if_neg (by assumption), if_neg hne, hl])).1
          simp only [Option.some.injEq, Prod.mk.injEq] at h
          obtain ⟨h, -⟩ := h
          subst h
          obtain ⟨b1, b2⟩ := reverseLoop_induct
            (fun s => s.player.expectedSync = p.expectedSync ∧
              unconfirmed s.player.streamers = unconfirmed p.streamers) (trackBody url)
            (fun i s s1 hs hstep => by
              obtain ⟨a, b⟩ := trackBody_Pending hstep
              exact ⟨a.trans hs.1, b.trans hs.2⟩)
            _ _ _ (show _ ∧ _ from ⟨rfl, rfl⟩) hl
          refine ⟨b1 ▸ k1, fun hf1 => ?_⟩
          rw [b1, b2]
          exact k2 (hfl ▸ hf1)
  | SHADOW_PLAY =>
    simp only [notify] at h
    split at h
    · exact same p1 h
    · simp only [notifySwitch, Option.some.injEq, Prod.mk.injEq] at h
      obtain ⟨h, -⟩ := h
      subst h
      exact ⟨k1, k2⟩
  | SHADOW_PAUSE =>
    simp only [notify] at h
    split at h
    · exact same p1 h
    · simp only [notifySwitch, Option.some.injEq, Prod.mk.injEq] at h
      obtain ⟨h, -⟩ := h
      subst h
      exact ⟨k1, k2⟩
  | SHADOW_OTHER =>
    simp only [notify] at h
    split at h
    · exact same p1 h
    · exact same p1 h
  | SHADOW_STOP =>
    simp only [notify] at h
    split at h
    · exact same p1 h
    · simp only [notifySwitch] at h
      split at h
      · simp at h
      · split at h
        · simp only [disconnect, Option.some.injEq, Prod.mk.injEq] at h
          obtain ⟨h, -⟩ := h
          subst h
          exact ⟨k1, fun _ => by simpa [unconfirmed] using k1⟩
        · simp only [Option.some.injEq, Prod.mk.injEq] at h
          obtain ⟨h, -⟩ := h
          subst h
          exact ⟨k1, k2⟩

theorem writePCM_Pending {p p1 : CSpotPlayer} {out : List Effect} {ret bytes sequence : Nat}
    {ti : TrackInfo} {url : String} {accepted : Bool} (hk : Pending p)
    (h : writePCM p bytes sequence ti url accepted = some (p1, out, ret)) : Pending p1 := by
  unfold writePCM at h
  simp only at h
  split at h
  · simp at h
  · rename_i q out1 hh
    simp only [Option.some.injEq, Prod.mk.injEq] at h
    obtain ⟨h, -, -⟩ := h
    subst h
    split at hh
    · exact trackHandler_Pending (show Pending { p with sequence := sequence } from hk) hh
    · simp only [Option.some.injEq, Prod.mk.injEq] at hh
      obtain ⟨hh, -⟩ := hh
      subst hh
      exact hk

theorem setState_Pending (p : CSpotPlayer) (i : Nat) (state : State) (hk : Pending p) :
    Pending (setState p i state) := by
  obtain ⟨k1, k2⟩ := hk
  unfold setState
  split
  · exact ⟨k1, k2⟩
  · rename_i s hs
    refine ⟨k1, fun hf => ?_⟩
    have hu := @unconfirmed_set p.streamers i s { s with state := state } hs
    have h2 := k2 hf
    show ((unconfirmed (p.streamers.set i { s with state := state }) : Nat) : Int) ≤ p.expectedSync
    have : unconfirmed (p.streamers.set i { s with state := state }) = unconfirmed p.streamers := by
      have e : ({ s with state := state } : HTTPstreamer).sync = s.sync := rfl
      rw [e] at hu
      omega
    rw [this]
    exact h2

theorem pending_of_reachableFrom {p0 p : CSpotPlayer} (h0 : Inv p0) (hk : Pending p0)
    (h : ReachableFrom p0 p) : Pending p := by
  induction h with
  | start => exact hk
  | trackHandler _ _ _ hstep ih => exact trackHandler_Pending ih hstep
  | eventHandler _ _ hstep ih => exact eventHandler_Pending ih hstep
  | notify _ hprev hstep ih => exact notify_Pending (inv_of_reachableFrom h0 hprev) ih hstep
  | writePCM _ _ _ _ _ _ hstep ih => exact writePCM_Pending ih hstep
  | connect _ ih => exact ih
  | teardown _ ih =>
    exact ⟨ih.1, fun _ => by simpa [teardown, unconfirmed] using ih.1⟩
  | setState i state _ ih => exact setState_Pending _ i state ih

theorem timeBody_confirmations {i : Nat} {st st1 : Scan} (h : timeBody i st = some st1) :
    (confirmations st1.out : Int) + st1.player.expectedSync =
      (confirmations st.out : Int) + st.player.expectedSync := by
  unfold timeBody at h
  split at h
  · simp only [Option.some.injEq] at h
    subst h
    rfl
  · rename_i it hit
    split at h
    · simp only [Option.some.injEq] at h
      subst h
      rfl
    · have hc : ∀ position : Nat, confirmations
          ((if it.sync = Sync.WAIT_CROSSTIME then st.out ++ [Effect.notifyAudioReachedPlayback]
            else st.out) ++ [Effect.updatePositionMs position]) = confirmations st.out + 1 := by
        intro position
        unfold confirmations
        split_ifs <;> simp [List.countP_append, List.countP_cons]
      simp only at h
      split at h
      · simp only [Option.some.injEq] at h
        subst h
        show ((confirmations _ : Nat) : Int) + (st.player.expectedSync - 1) = _
        rw [hc]
        push_cast
        omega
      · split at h
        · simp at h
        · rename_i p2 hfs
          obtain ⟨-, -, -, g, -⟩ := flowSync_indices hfs
          have g1 : p2.expectedSync = st.player.expectedSync := g
          simp only [Option.some.injEq] at h
          subst h
          show ((confirmations _ : Nat) : Int) + (p2.expectedSync - 1) = _
          rw [hc, g1]
          push_cast
          omega

/-- A position report lowers `expectedSync` by the number of confirmations it makes. -/
theorem notify_time_confirmations {p p1 : CSpotPlayer} {out : List Effect} {position : Nat}
    (h : notify p (shadowEvent.SHADOW_TIME position) = some (p1, out)) :
    p1.expectedSync = p.expectedSync - (confirmations out : Int) := by
  have same : ∀ q : CSpotPlayer, some (p, ([] : List Effect)) = some (q, out) →
      q.expectedSync = p.expectedSync - (confirmations out : Int) := by
    intro q hq
    simp only [Option.some.injEq, Prod.mk.injEq] at hq
    obtain ⟨hq, ho⟩ := hq
    subst hq
    subst ho
    simp [confirmations]
  simp only [notify] at h
  split at h
  · exact same p1 h
  · simp only [notifySwitch] at h
    split at h
    · exact same p1 h
    · split at h
      · simp at h
      · rename_i st hl
        simp only [Option.some.injEq, Prod.mk.injEq] at h
        obtain ⟨h, ho⟩ := h
        subst h
        subst ho
        have key := reverseLoop_induct
          (fun s => (confirmations s.out : Int) + s.player.expectedSync = p.expectedSync) timeBody
          (fun i s s1 hs hstep => (timeBody_confirmations hstep).trans hs)
          _ _ _ (show ((confirmations [] : Nat) : Int) + p.expectedSync = p.expectedSync from by
            simp [confirmations]) hl
        have key1 : (confirmations st.out : Int) + st.player.expectedSync = p.expectedSync := key
        omega

/-! The range of `expectedSync`: the counter rises only by one per `trackHandler` run. -/

theorem eventHandler_expectedSync {p p1 : CSpotPlayer} {out : List Effect} {event : Event}
    (h : eventHandler p event = some (p1, out)) :
    p1.expectedSync = p.expectedSync ∨ p1.expectedSync = 1 ∨ p1.expectedSync = 0 := by
  cases event with
  | SEEK position => exact Or.inr (Or.inl (seek_unconfirmed h).1)
  | PLAYBACK_START position =>
    simp only [eventHandler] at h
    split at h
    · simp at h
    · simp only [Option.some.injEq, Prod.mk.injEq] at h
      obtain ⟨h, -⟩ := h
      subst h
      exact Or.inr (Or.inr rfl)
  | DEPLETED =>
    simp only [eventHandler, Option.some.injEq, Prod.mk.injEq] at h
    obtain ⟨h, -⟩ := h
    subst h
    exact Or.inl rfl
  | DISC =>
    simp only [eventHandler, disconnect, Option.some.injEq, Prod.mk.injEq] at h
    obtain ⟨h, -⟩ := h
    subst h
    exact Or.inl rfl
  | PLAY_PAUSE paused =>
    simp only [eventHandler, Option.some.injEq, Prod.mk.injEq] at h
    obtain ⟨h, -⟩ := h
    subst h
    exact Or.inl rfl
  | VOLUME volume =>
    simp only [eventHandler, Option.some.injEq, Prod.mk.injEq] at h
    obtain ⟨h, -⟩ := h
    subst h
    exact Or.inl rfl
  | OTHER =>
    simp only [eventHandler, Option.some.injEq, Prod.mk.injEq] at h
    obtain ⟨h, -⟩ := h
    subst h
    exact Or.inl rfl
  | NEXT =>
    simp only [eventHandler, Option.some.injEq, Prod.mk.injEq] at h
    obtain ⟨h, -⟩ := h
    subst h
    exact Or.inl rfl
  | PREV =>
    simp only [eventHandler, Option.some.injEq, Prod.mk.injEq] at h
    obtain ⟨h, -⟩ := h
    subst h
    exact Or.inl rfl
  | FLUSH =>
    simp only [eventHandler, Option.some.injEq, Prod.mk.injEq] at h
    obtain ⟨h, -⟩ := h
    subst h
    exact Or.inl rfl

theorem notify_expectedSync_le {p p1 : CSpotPlayer} {out : List Effect} {event : shadowEvent}
    (h : notify p event = some (p1, out)) : p1.expectedSync ≤ p.expectedSync := by
  have same : ∀ q : CSpotPlayer, some (p, ([] : List Effect)) = some (q, out) →
      q.expectedSync ≤ p.expectedSync := by
    intro q hq
    simp only [Option.some.injEq, Prod.mk.injEq] at hq
    obtain ⟨hq, -⟩ := hq
    subst hq
    exact le_refl _
  cases event with
  | SHADOW_VOLUME volume =>
    simp only [notify, Option.some.injEq, Prod.mk.injEq] at h
    obtain ⟨h, -⟩ := h
    subst h
    exact le_refl _
  | SHADOW_TIME position =>
    have := notify_time_confirmations h
    omega
  | SHADOW_TRACK url =>
    simp only [notify] at h
    split at h
    · exact same p1 h
    · simp only [notifySwitch] at h
      split at h
      · exact same p1 h
      · split at h
        · simp at h
        · rename_i st hl
          simp only [Option.some.injEq, Prod.mk.injEq] at h
          obtain ⟨h, -⟩ := h
          subst h
          have key := reverseLoop_induct
            (fun s => s.player.expectedSync = p.expectedSync) (trackBody url)
            (fun i s s1 hs hstep => (trackBody_Pending hstep).1.trans hs)
            _ _ _ (show p.expectedSync = p.expectedSync from rfl) hl
          have key1 : st.player.expectedSync = p.expectedSync := key
          omega
  | SHADOW_PLAY =>
    simp only [notify] at h
    split at h
    · exact same p1 h
    · simp only [notifySwitch, Option.some.injEq, Prod.mk.injEq] at h
      obtain ⟨h, -⟩ := h
      subst h
      exact le_refl _
  | SHADOW_PAUSE =>
    simp only [notify] at h
    split at h
    · exact same p1 h
    · simp only [notifySwitch, Option.some.injEq, Prod.mk.injEq] at h
      obtain ⟨h, -⟩ := h
      subst h
      exact le_refl _
  | SHADOW_OTHER =>
    simp only [notify] at h
    split at h
    · exact same p1 h
    · exact same p1 h
  | SHADOW_STOP =>
    simp only [notify] at h
    split at h
    · exact same p1 h
    · simp only [notifySwitch] at h
      split at h
      · simp at h
      · split at h
        · simp only [disconnect, Option.some.injEq, Prod.mk.injEq] at h
          obtain ⟨h, -⟩ := h
          subst h
          exact le_refl _
        · simp only [Option.some.injEq, Prod.mk.injEq] at h
          obtain ⟨h, -⟩ := h
          subst h
          exact le_refl _

theorem step_expectedSync_le {q q1 : CSpotPlayer} {c : Call} (h : step q c = some q1) :
    q1.expectedSync ≤ q.expectedSync + (if c.tracks = true then 1 else 0) ∨
    q1.expectedSync ≤ 1 := by
  cases c with
  | trackHandler ti url =>
    simp only [step] at h
    obtain ⟨out, h⟩ := map_fst_eq_some h
    left
    rw [(trackHandler_fields h).2]
    simp [Call.tracks]
  | eventHandler event =>
    simp only [step] at h
    obtain ⟨out, h⟩ := map_fst_eq_some h
    rcases eventHandler_expectedSync h with g | g | g
    · left
      rw [g]
      simp [Call.tracks]
    · right
      omega
    · right
      omega
  | notify event =>
    simp only [step] at h
    obtain ⟨out, h⟩ := map_fst_eq_some h
    left
    have := notify_expectedSync_le h
    simp only [Call.tracks]
    simpa using this
  | writePCM bytes sequence ti url accepted =>
    simp only [step] at h
    obtain ⟨⟨out, ret⟩, h⟩ := map_fst_eq_some h
    left
    unfold writePCM at h
    simp only at h
    split at h
    · simp at h
    · rename_i q2 out1 hh
      simp only [Option.some.injEq, Prod.mk.injEq] at h
      obtain ⟨h, -, -⟩ := h
      subst h
      split at hh
      · rw [(trackHandler_fields hh).2]
        simp [Call.tracks]
      · simp only [Option.some.injEq, Prod.mk.injEq] at hh
        obtain ⟨hh, -⟩ := hh
        subst hh
        simp [Call.tracks]
  | connect =>
    simp only [step, Option.some.injEq] at h
    subst h
    left
    simp [Call.tracks, connect]
  | teardown =>
    simp only [step, Option.some.injEq] at h
    subst h
    left
    simp [Call.tracks, teardown]
  | setState i state =>
    simp only [step, Option.some.injEq] at h
    subst h
    left
    rw [(setState_indices q i state).2.2.2.1]
    simp [Call.tracks]

/-- After a sequence of calls `expectedSync` is at most its first value (or 1, which
`SEEK` writes) plus the number of calls that run `trackHandler`: in a sequence with
fewer than 2^31 - 1 such calls from a counter of 0 it stays in the range of an `int`. -/
theorem run_expectedSync_le {p : CSpotPlayer} (calls : List Call) :
    ∀ (q : CSpotPlayer) (b : Int), 1 ≤ b → q.expectedSync ≤ b → run q calls = some p →
      p.expectedSync ≤ b + calls.countP Call.tracks := by
  induction calls with
  | nil =>
    intro q b _ hq hr
    simp only [run, Option.some.injEq] at hr
    subst hr
    simpa using hq
  | cons c cs ih =>
    intro q b hb hq hr
    simp only [run] at hr
    cases hs : step q c with
    | none => simp [hs] at hr
    | some q1 =>
      simp only [hs] at hr
      have hcount : (c :: cs).countP Call.tracks =
          cs.countP Call.tracks + if c.tracks = true then 1 else 0 := List.countP_cons _ _ _
      have h1 : q1.expectedSync ≤ b + (if c.tracks = true then 1 else 0) := by
        rcases step_expectedSync_le hs with g | g
        · omega
        · split_ifs <;> omega
      have h2 := ih q1 (b + (if c.tracks = true then 1 else 0)) (by split_ifs <;> omega) h1 hr
      rw [hcount]
      push_cast
      split_ifs at h2 ⊢ <;> omega

/-! The counter `expectedSync` as the `int` of the program. -/

theorem toInt32_of_range {x : Int} (h1 : -2147483648 ≤ x) (h2 : x < 2147483648) :
    toInt32 x = x := by
  unfold toInt32
  omega

/-- Wrapping commutes with `++` and `--`: the `int` of the program is `toInt32` of the
integer that the model counts. -/
theorem toInt32_step (x : Int) :
    toInt32 (toInt32 x + 1) = toInt32 (x + 1) ∧ toInt32 (toInt32 x - 1) = toInt32 (x - 1) := by
  unfold toInt32
  constructor <;> omega

/-- The test `!expectedSync` gives the same answer on the `int` and on the integer of
the model while fewer than 2^32 confirmations are counted. -/
theorem toInt32_eq_zero {x : Int} (h1 : -4294967296 < x) (h2 : x < 4294967296) :
    toInt32 x = 0 ↔ x = 0 := by
  unfold toInt32
  omega

theorem trackHandler_flowQueued (x : Int) :
    trackHandler (flowQueued x) trackB "uB" = some (flowQueued (x + 1), []) := rfl

theorem reachableFrom_flowQueued (x : Int) (hx : 2 ≤ x) :
    ReachableFrom (started true) (flowQueued x) := by
  have nat : ∀ n : Nat, ReachableFrom (started true) (flowQueued ((n : Int) + 2)) := by
    intro n
    induction n with
    | zero =>
      have h1 : ReachableFrom (started true) (playingA true Sync.WAIT_URL 1) :=
        ReachableFrom.trackHandler trackA "uA" ReachableFrom.start rfl
      exact ReachableFrom.trackHandler trackB "uB" h1
        (show trackHandler (playingA true Sync.WAIT_URL 1) trackB "uB" =
          some (flowQueued (((0 : Nat) : Int) + 2), []) from rfl)
    | succ n ih =>
      have e : (((n + 1 : Nat) : Int) + 2) = ((n : Int) + 2) + 1 := by
        push_cast
        ring
      rw [e]
      exact ReachableFrom.trackHandler trackB "uB" ih (trackHandler_flowQueued _)
  have hn : x = (((x - 2).toNat : Nat) : Int) + 2 := by omega
  rw [hn]
  exact nat _

/-- Counterexample to C22: `expectedSync` is a `std::atomic<int>` and `expectedSync++`
(line 212) wraps.  In flow mode, from `started true` (counter 0, empty list), one
`trackHandler` run creates the streamer of `trackA` and every further run, the
streamer not being aired, queues the next track and increments the counter; no run
before the last one leaves the range of an `int`.  After 2147483647 runs the counter
is 2147483647; the next run counts 2147483648, for which the `int` of the program
holds -2147483648: `expectedSync` is negative. -/
theorem expectedSync_wraps_negative :
    (started true).expectedSync = 0 ∧ (started true).streamers = [] ∧
    ReachableFrom (started true) (flowQueued 2147483647) ∧
    (flowQueued 2147483647).expectedSync = 2147483647 ∧
    trackHandler (flowQueued 2147483647) trackB "uB" = some (flowQueued 2147483648, []) ∧
    (flowQueued 2147483648).expectedSync = (flowQueued 2147483647).expectedSync + 1 ∧
    toInt32 ((flowQueued 2147483647).expectedSync + 1) = -2147483648 :=
  ⟨rfl, rfl, reachableFrom_flowQueued 2147483647 (by decide), rfl, rfl, rfl, by decide⟩

theorem countP_tracks_prefix (cs1 cs2 : List Call) :
    cs1.countP Call.tracks ≤ (cs1 ++ cs2).countP Call.tracks := by
  rw [List.countP_append]
  omega

/-- C22 (amended): take a player with `expectedSync = 0`, an empty streamer list and no
queued track (as the constructor leaves them), and a sequence of calls (of
`trackHandler`, `writePCM`, `eventHandler`, `notify`, each returning without
undefined behaviour, of `connect`, `teardown` and of the streamers' tasks) in which
fewer than 2^31 - 1 calls run `trackHandler`.  Then in every state on the way the
counter lies in `[0, 2^31)`, so the `int` of the program never overflows and holds
the very number of the model; in the state reached `expectedSync` is not negative, and
a position report handled there makes at most `expectedSync` confirmations and lowers
the counter by their number, to a value that is not negative. -/
theorem expectedSync_not_negative_without_overflow (p0 p : CSpotPlayer) (calls : List Call)
    (he : p0.expectedSync = 0) (h0 : p0.streamers = []) (hq : p0.flowTrackInfo = none)
    (hb : calls.countP Call.tracks < 2147483647) (hr : run p0 calls = some p) :
    (∀ (cs1 cs2 : List Call) (q : CSpotPlayer), calls = cs1 ++ cs2 → run p0 cs1 = some q →
      0 ≤ q.expectedSync ∧ q.expectedSync < 2147483648 ∧
      toInt32 q.expectedSync = q.expectedSync) ∧
    0 ≤ p.expectedSync ∧
    ∀ (position : Nat) (p1 : CSpotPlayer) (out : List Effect),
      notify p (shadowEvent.SHADOW_TIME position) = some (p1, out) →
      (confirmations out : Int) ≤ p.expectedSync ∧
      p1.expectedSync = p.expectedSync - (confirmations out : Int) ∧
      0 ≤ p1.expectedSync ∧ toInt32 p1.expectedSync = p1.expectedSync := by
  have hi0 : Inv p0 := Inv_of_nil p0 h0 hq
  have hk0 : Pending p0 := ⟨by omega, fun _ => by simp [h0, unconfirmed, he]⟩
  have range : ∀ (cs1 cs2 : List Call) (q : CSpotPlayer), calls = cs1 ++ cs2 →
      run p0 cs1 = some q → 0 ≤ q.expectedSync ∧ q.expectedSync < 2147483648 := by
    intro cs1 cs2 q hc hq1
    have hreach : ReachableFrom p0 q := (reachableFrom_iff_run p0 q).2 ⟨cs1, hq1⟩
    have hlow := (pending_of_reachableFrom hi0 hk0 hreach).1
    have hup := run_expectedSync_le cs1 p0 1 (le_refl _) (by omega) hq1
    have hpre := countP_tracks_prefix cs1 cs2
    rw [← hc] at hpre
    exact ⟨hlow, by omega⟩
  have hp := range calls [] p (by simp) hr
  refine ⟨?_, hp.1, ?_⟩
  · intro cs1 cs2 q hc hq1
    obtain ⟨a, b⟩ := range cs1 cs2 q hc hq1
    exact ⟨a, b, toInt32_of_range (by omega) b⟩
  · intro position p1 out hn
    have hreach : ReachableFrom p0 p := (reachableFrom_iff_run p0 p).2 ⟨calls, hr⟩
    have h1 := (pending_of_reachableFrom hi0 hk0
      (ReachableFrom.notify (shadowEvent.SHADOW_TIME position) hreach hn)).1
    have h2 := notify_time_confirmations hn
    have h3 := notify_expectedSync_le hn
    exact ⟨by omega, h2, h1, toInt32_of_range (by omega) (by omega)⟩

/-- Witness of C22 (amended): the theorem at the player reached from `started false`
by two creations and the feedback that both URLs were fetched, in which the streamers
of `trackB` and `trackA` wait for a position report and `expectedSync` is 2; the
report 500 makes two confirmations and leaves 0. -/
theorem expectedSync_not_negative_without_overflow_witness :
    (started false).expectedSync = 0 ∧ (started false).streamers = [] ∧
    (started false).flowTrackInfo = none ∧
    run (started false) [Call.trackHandler trackA "uA",
      Call.notify (shadowEvent.SHADOW_TRACK "uA"), Call.trackHandler trackB "uB",
      Call.notify (shadowEvent.SHADOW_TRACK "uB")] =
      some (playingBA Sync.WAIT_TIME Sync.WAIT_TIME 2) ∧
    notify (playingBA Sync.WAIT_TIME Sync.WAIT_TIME 2) (shadowEvent.SHADOW_TIME 500) =
      some (playingBA Sync.AIRED Sync.AIRED 0,
            [Effect.updatePositionMs 500, Effect.updatePositionMs 500]) ∧
    (confirmations [Effect.updatePositionMs 500, Effect.updatePositionMs 500] : Int) ≤
      (playingBA Sync.WAIT_TIME Sync.WAIT_TIME 2).expectedSync :=
  ⟨rfl, rfl, rfl, rfl, rfl,
   ((expectedSync_not_negative_without_overflow (started false)
      (playingBA Sync.WAIT_TIME Sync.WAIT_TIME 2)
      [Call.trackHandler trackA "uA", Call.notify (shadowEvent.SHADOW_TRACK "uA"),
       Call.trackHandler trackB "uB", Call.notify (shadowEvent.SHADOW_TRACK "uB")]
      rfl rfl rfl (by decide) rfl).2.2 500
      (playingBA Sync.AIRED Sync.AIRED 0)
      [Effect.updatePositionMs 500, Effect.updatePositionMs 500] rfl).1⟩

end SpotConnect
